import Mathlib

/-!
# protoc-gen-collection: data-file generation

A shallow embedding of `internal/gendatafiles` (data_files.go, field_rules.go,
http_rules.go, map_slice.go) and theorems about it.

Conventions of the embedding:

* a Go `string` is the list of its Unicode code points (`Str`); the schema
  compiler hands over valid UTF-8 text, on which the byte-level functions of
  package `strings` used here agree with their code-point reading;
* the schema graph of protoc-gen-star (`pgs`) is an external collaborator: each
  of its interfaces is a record of the accessor results the code consults;
* the extension messages of protoc-gen-validate and of the HTTP annotations are
  records of their generated Go fields, a nil pointer or nil slice being `none`;
* a Go panic is the result `none`.
-/

set_option linter.dupNamespace false

namespace Gendatafiles

/-! ## Strings -/

/-- A Go string, as the list of its code points. -/
abbrev Str := List Char

/-- The Go function `unicode.IsSpace`: the Latin-1 white space and the other
code points with the Unicode White_Space property. -/
def IsSpace (r : Char) : Bool :=
  let n := r.toNat
  if n ≤ 0xFF then
    n = 0x09 || n = 0x0A || n = 0x0B || n = 0x0C || n = 0x0D || n = 0x20 || n = 0x85 || n = 0xA0
  else
    n = 0x1680 || (0x2000 ≤ n && n ≤ 0x200A) || n = 0x2028 || n = 0x2029 || n = 0x202F
      || n = 0x205F || n = 0x3000

/-- The Go function `strings.HasPrefix`. -/
def HasPrefix (s pre : Str) : Bool :=
  pre.isPrefixOf s

/-- The Go function `strings.HasSuffix`. -/
def HasSuffix (s suf : Str) : Bool :=
  suf.isSuffixOf s

/-- The Go function `strings.TrimPrefix`. -/
def TrimPrefix (s pre : Str) : Str :=
  if HasPrefix s pre then s.drop pre.length else s

/-- The Go function `strings.Split` for a separator of one code point: the
pieces between the separators, `[""]` for the empty string. -/
def Split : Str → Char → List Str
  | [], _ => [[]]
  | c :: cs, sep =>
    if c = sep then [] :: Split cs sep
    else
      match Split cs sep with
      | [] => [[c]]
      | l :: ls => (c :: l) :: ls

/-- The Go function `strings.Join`. -/
def Join : List Str → Str → Str
  | [], _ => []
  | [x], _ => x
  | x :: y :: rest, sep => x ++ sep ++ Join (y :: rest) sep

/-- The Go function `strings.TrimRightFunc`: the trailing code points that
satisfy `f` are removed. -/
def TrimRightFunc (s : Str) (f : Char → Bool) : Str :=
  (s.reverse.dropWhile f).reverse

/-! ## Comment cleaning (data_files.go, lines 88-107) -/

/-- The first loop of `cleanComments`: the value of `hasLeadingSpace` after the
scan of the lines, which skips empty lines and stops at the first line that
does not start with a space. -/
def hasLeadingSpace : List Str → Bool
  | [] => true
  | line :: rest =>
    if line = [] then hasLeadingSpace rest
    else if !HasPrefix line " ".toList then false
    else hasLeadingSpace rest

/-- The function `cleanComments`. -/
def cleanComments (comments : Str) : Str :=
  let commentLines := Split comments '\n'
  if !hasLeadingSpace commentLines then
    TrimRightFunc comments IsSpace
  else
    TrimRightFunc (Join (commentLines.map fun line => TrimPrefix line " ".toList) "\n".toList) IsSpace

/-- One leading space removed from a line, when it has one. -/
def stripOneSpace : Str → Str
  | ' ' :: rest => rest
  | line => line

/-- The all-or-nothing comment cleaning as the specification words it: when
every non-empty line begins with a space, one leading space is removed from
each line and the rejoined text is right-trimmed; otherwise the text itself is
right-trimmed. -/
def cleanCommentsSpec (c : Str) : Str :=
  let lines := Split c '\n'
  if lines.all fun l => l.isEmpty || l.head? == some ' ' then
    TrimRightFunc (Join (lines.map stripOneSpace) "\n".toList) IsSpace
  else
    TrimRightFunc c IsSpace

/-! ## The schema graph (protoc-gen-star)

Each record lists the results of the accessors of a `pgs` interface that the
code calls. An accessor that the code consults only behind a guard (`Enum()`
behind `IsEnum()`, `Element()` behind `IsRepeated()` or `IsMap()`) is a plain
field whose value is not looked at when the guard is false. -/

/-- The accessors of `pgs.Entity`: `Name()`, `FullyQualifiedName()`,
`Package().ProtoName()`, `BuildTarget()` and the leading and trailing comments
of `SourceCodeInfo()`. -/
structure pgs.Entity where
  Name : Str
  FullyQualifiedName : Str
  PackageProtoName : Str
  BuildTarget : Bool
  LeadingComments : Str := []
  TrailingComments : Str := []
  deriving DecidableEq, Repr

/-- The kinds of `pgs.ProtoType`. -/
inductive pgs.ProtoType where
  | DoubleT | FloatT | Int64T | UInt64T | Int32T | Fixed64T | Fixed32T | BoolT | StringT
  | GroupT | MessageT | BytesT | UInt32T | EnumT | SFixed32 | SFixed64 | SInt32 | SInt64
  deriving DecidableEq, Repr

/-- The type `pgs.WellKnownType`, a name. -/
abbrev pgs.WellKnownType := Str

/-- The constant `pgs.AnyWKT`. -/
def pgs.AnyWKT : pgs.WellKnownType := "Any".toList

/-- The constant `pgs.DurationWKT`. -/
def pgs.DurationWKT : pgs.WellKnownType := "Duration".toList

/-- The constant `pgs.TimestampWKT`. -/
def pgs.TimestampWKT : pgs.WellKnownType := "Timestamp".toList

/-- A `pgs.EnumValue`: an entity and `Value()`. -/
structure pgs.EnumValue extends pgs.Entity where
  Value : Int := 0
  deriving DecidableEq, Repr

/-- A `pgs.Enum`: an entity and `Values()`. -/
structure pgs.Enum extends pgs.Entity where
  Values : List pgs.EnumValue := []
  deriving DecidableEq, Repr

/-- A `pgs.Message` as a field type refers to it (`Embed()`): an entity with
`IsWellKnown()` and `WellKnownType()`. -/
structure pgs.Embed extends pgs.Entity where
  IsWellKnown : Bool := false
  WellKnownType : pgs.WellKnownType := "Unknown".toList
  deriving DecidableEq, Repr

/-- The interface `PGSFieldType` of data_files.go (lines 259-265), which
`pgs.FieldType` and `pgs.FieldTypeElem` both satisfy. -/
structure PGSFieldType where
  ProtoType : pgs.ProtoType
  IsEmbed : Bool
  IsEnum : Bool
  Enum : pgs.Enum
  Embed : pgs.Embed
  deriving DecidableEq, Repr

/-- A `pgs.FieldType`: the accessors of `PGSFieldType` with `IsRepeated()`,
`IsMap()`, `Element()` and `Key()`. -/
structure pgs.FieldType extends PGSFieldType where
  IsRepeated : Bool
  IsMap : Bool
  Element : PGSFieldType
  Key : PGSFieldType
  deriving DecidableEq, Repr

/-! ## Dynamic values

The Go values that the code stores in fields of type `interface{}`. A float is
carried as its IEEE-754 bit pattern: the code only copies such values. -/

/-- The numeric Go types of the values. -/
inductive NumType where
  | float32 | float64 | int32 | int64 | uint32 | uint64
  deriving DecidableEq, Repr

/-- A value of type `interface{}`. -/
inductive GoValue where
  /-- The nil interface. -/
  | null
  /-- The empty `[]interface{}{}`. -/
  | emptySeq
  /-- The empty `map[string]interface{}{}`. -/
  | emptyMap
  /-- A number of the given type. -/
  | num (t : NumType) (v : Int)
  /-- A non-nil pointer to a number of the given type. -/
  | numPtr (t : NumType) (v : Int)
  /-- A non-nil slice of numbers of the given type. -/
  | nums (t : NumType) (vs : List Int)
  | bool (b : Bool)
  | string (s : Str)
  /-- A non-nil `*string`. -/
  | stringPtr (s : Str)
  /-- A non-nil `[]string`. -/
  | strings (ss : List Str)
  /-- A non-nil `[]byte` or `Bytes`. -/
  | bytes (b : List Nat)
  /-- A non-nil `[][]byte`. -/
  | bytesList (bs : List (List Nat))
  /-- A `time.Duration`, in nanoseconds. -/
  | duration (ns : Int)
  /-- A `[]time.Duration`. -/
  | durations (ns : List Int)
  /-- The `time.Time` of `time.Unix(sec, nsec).UTC()`. -/
  | time (sec nsec : Int)
  deriving DecidableEq, Repr

/-! ## Names and references (data_files.go, lines 42-44 and 82-137) -/

/-- The function `EntityName`. -/
def EntityName (entity : pgs.Entity) : Str :=
  TrimPrefix entity.FullyQualifiedName (".".toList ++ entity.PackageProtoName ++ ".".toList)

/-- The struct `Entity` (without its unexported `src`). -/
structure Entity where
  Name : Str := []
  Comment : Str := []
  deriving DecidableEq, Repr

/-- The function `BuildEntity`. -/
def BuildEntity (src : pgs.Entity) : Entity :=
  let comments := src.LeadingComments
  let comments := if comments = [] then src.TrailingComments else comments
  { Name := src.Name, Comment := cleanComments comments }

/-- The struct `Ref` (without its unexported `src`). -/
structure Ref where
  Package : Str := []
  Name : Str := []
  deriving DecidableEq, Repr

/-- The function `BuildRef`. -/
def BuildRef (src : pgs.Entity) : Ref :=
  let ref : Ref := { Name := EntityName src }
  if !src.BuildTarget then { ref with Package := src.PackageProtoName } else ref

/-! ## Enums (data_files.go, lines 139-170) -/

/-- The struct `EnumValue`. -/
structure EnumValue extends Entity where
  Value : Int := 0
  deriving DecidableEq, Repr

/-- The function `BuildEnumValue`. -/
def BuildEnumValue (src : pgs.EnumValue) : EnumValue :=
  { toEntity := BuildEntity src.toEntity, Value := src.Value }

/-- The struct `Enum`. -/
structure Enum extends Entity where
  Values : List EnumValue := []
  deriving DecidableEq, Repr

/-- The function `BuildEnum`. -/
def BuildEnum (src : pgs.Enum) : Enum :=
  let enum : Enum := { toEntity := BuildEntity src.toEntity }
  let enum := { enum with Name := EntityName src.toEntity }
  src.Values.foldl (fun enum value => { enum with Values := enum.Values ++ [BuildEnumValue value] }) enum

/-! ## The validation extension (protoc-gen-validate)

The generated Go messages of `validate.proto`. A value of a numeric Go type is
an `Int`; the Go type is named where the value is stored. -/

/-- The fields shared by the twelve numeric rule messages `FloatRules`,
`DoubleRules`, `Int32Rules`, ... `SFixed64Rules`. -/
structure validate.NumericRules where
  Const : Option Int := none
  Lt : Option Int := none
  Lte : Option Int := none
  Gt : Option Int := none
  Gte : Option Int := none
  In : Option (List Int) := none
  NotIn : Option (List Int) := none
  IgnoreEmpty : Option Bool := none
  deriving DecidableEq, Repr

/-- The method `GetIgnoreEmpty` of the numeric rule messages. -/
def validate.NumericRules.GetIgnoreEmpty (x : validate.NumericRules) : Bool :=
  x.IgnoreEmpty.getD false

/-- The message `BoolRules`. -/
structure validate.BoolRules where
  Const : Option Bool := none
  deriving DecidableEq, Repr

/-- The oneof `well_known` of `StringRules`. -/
inductive validate.StringRules_WellKnown where
  | Email (b : Bool) | Hostname (b : Bool) | Ip (b : Bool) | Ipv4 (b : Bool) | Ipv6 (b : Bool)
  | Uri (b : Bool) | UriRef (b : Bool) | Address (b : Bool) | Uuid (b : Bool)
  | WellKnownRegex (r : Int)
  deriving DecidableEq, Repr

/-- The message `StringRules`. -/
structure validate.StringRules where
  Const : Option Str := none
  Len : Option Nat := none
  MinLen : Option Nat := none
  MaxLen : Option Nat := none
  LenBytes : Option Nat := none
  MinBytes : Option Nat := none
  MaxBytes : Option Nat := none
  Pattern : Option Str := none
  Prefix : Option Str := none
  Suffix : Option Str := none
  Contains : Option Str := none
  NotContains : Option Str := none
  In : Option (List Str) := none
  NotIn : Option (List Str) := none
  WellKnown : Option validate.StringRules_WellKnown := none
  Strict : Option Bool := none
  IgnoreEmpty : Option Bool := none
  deriving DecidableEq, Repr

namespace validate.StringRules

def GetLen (x : validate.StringRules) : Nat := x.Len.getD 0
def GetMinLen (x : validate.StringRules) : Nat := x.MinLen.getD 0
def GetMaxLen (x : validate.StringRules) : Nat := x.MaxLen.getD 0
def GetLenBytes (x : validate.StringRules) : Nat := x.LenBytes.getD 0
def GetMinBytes (x : validate.StringRules) : Nat := x.MinBytes.getD 0
def GetMaxBytes (x : validate.StringRules) : Nat := x.MaxBytes.getD 0
def GetPattern (x : validate.StringRules) : Str := x.Pattern.getD []
def GetIgnoreEmpty (x : validate.StringRules) : Bool := x.IgnoreEmpty.getD false

def GetEmail (x : validate.StringRules) : Bool :=
  match x.WellKnown with
  | some (.Email b) => b
  | _ => false

def GetHostname (x : validate.StringRules) : Bool :=
  match x.WellKnown with
  | some (.Hostname b) => b
  | _ => false

def GetIp (x : validate.StringRules) : Bool :=
  match x.WellKnown with
  | some (.Ip b) => b
  | _ => false

def GetIpv4 (x : validate.StringRules) : Bool :=
  match x.WellKnown with
  | some (.Ipv4 b) => b
  | _ => false

def GetIpv6 (x : validate.StringRules) : Bool :=
  match x.WellKnown with
  | some (.Ipv6 b) => b
  | _ => false

def GetUri (x : validate.StringRules) : Bool :=
  match x.WellKnown with
  | some (.Uri b) => b
  | _ => false

def GetUriRef (x : validate.StringRules) : Bool :=
  match x.WellKnown with
  | some (.UriRef b) => b
  | _ => false

def GetAddress (x : validate.StringRules) : Bool :=
  match x.WellKnown with
  | some (.Address b) => b
  | _ => false

def GetUuid (x : validate.StringRules) : Bool :=
  match x.WellKnown with
  | some (.Uuid b) => b
  | _ => false

end validate.StringRules

/-- The oneof `well_known` of `BytesRules`. -/
inductive validate.BytesRules_WellKnown where
  | Ip (b : Bool) | Ipv4 (b : Bool) | Ipv6 (b : Bool)
  deriving DecidableEq, Repr

/-- The message `BytesRules`. -/
structure validate.BytesRules where
  Const : Option (List Nat) := none
  Len : Option Nat := none
  MinLen : Option Nat := none
  MaxLen : Option Nat := none
  Pattern : Option Str := none
  Prefix : Option (List Nat) := none
  Suffix : Option (List Nat) := none
  Contains : Option (List Nat) := none
  In : Option (List (List Nat)) := none
  NotIn : Option (List (List Nat)) := none
  WellKnown : Option validate.BytesRules_WellKnown := none
  IgnoreEmpty : Option Bool := none
  deriving DecidableEq, Repr

namespace validate.BytesRules

def GetLen (x : validate.BytesRules) : Nat := x.Len.getD 0
def GetMinLen (x : validate.BytesRules) : Nat := x.MinLen.getD 0
def GetMaxLen (x : validate.BytesRules) : Nat := x.MaxLen.getD 0
def GetPattern (x : validate.BytesRules) : Str := x.Pattern.getD []
def GetIgnoreEmpty (x : validate.BytesRules) : Bool := x.IgnoreEmpty.getD false

def GetIp (x : validate.BytesRules) : Bool :=
  match x.WellKnown with
  | some (.Ip b) => b
  | _ => false

def GetIpv4 (x : validate.BytesRules) : Bool :=
  match x.WellKnown with
  | some (.Ipv4 b) => b
  | _ => false

def GetIpv6 (x : validate.BytesRules) : Bool :=
  match x.WellKnown with
  | some (.Ipv6 b) => b
  | _ => false

end validate.BytesRules

/-- The message `EnumRules`. -/
structure validate.EnumRules where
  Const : Option Int := none
  DefinedOnly : Option Bool := none
  In : Option (List Int) := none
  NotIn : Option (List Int) := none
  deriving DecidableEq, Repr

def validate.EnumRules.GetDefinedOnly (x : validate.EnumRules) : Bool := x.DefinedOnly.getD false

/-- The message `MessageRules`. -/
structure validate.MessageRules where
  Skip : Option Bool := none
  Required : Option Bool := none
  deriving DecidableEq, Repr

def validate.MessageRules.GetSkip (x : validate.MessageRules) : Bool := x.Skip.getD false
def validate.MessageRules.GetRequired (x : validate.MessageRules) : Bool := x.Required.getD false

/-- The message `AnyRules`. -/
structure validate.AnyRules where
  Required : Option Bool := none
  In : Option (List Str) := none
  NotIn : Option (List Str) := none
  deriving DecidableEq, Repr

def validate.AnyRules.GetRequired (x : validate.AnyRules) : Bool := x.Required.getD false

/-- The message `google.protobuf.Duration`. -/
structure durationpb.Duration where
  Seconds : Int := 0
  Nanos : Int := 0
  deriving DecidableEq, Repr

/-- A 64-bit two's complement value, as Go arithmetic on `int64` wraps it. -/
def wrapInt64 (x : Int) : Int :=
  (x + 2 ^ 63) % 2 ^ 64 - 2 ^ 63

/-- The method `AsDuration` of `durationpb.Duration`: the duration in
nanoseconds, saturated when it does not fit an `int64`. -/
def durationpb.Duration.AsDuration (x : durationpb.Duration) : Int :=
  let secs := x.Seconds
  let nanos := x.Nanos
  let d := wrapInt64 (secs * 1000000000)
  let overflow := decide (Int.tdiv d 1000000000 ≠ secs)
  let d := wrapInt64 (d + nanos)
  let overflow := overflow || (decide (secs < 0) && decide (nanos < 0) && decide (d > 0))
  let overflow := overflow || (decide (secs > 0) && decide (nanos > 0) && decide (d < 0))
  if overflow && decide (secs < 0) then -(2 ^ 63)
  else if overflow && decide (secs > 0) then 2 ^ 63 - 1
  else d

/-- The message `google.protobuf.Timestamp`. -/
structure timestamppb.Timestamp where
  Seconds : Int := 0
  Nanos : Int := 0
  deriving DecidableEq, Repr

/-- The method `AsTime` of `timestamppb.Timestamp`: `time.Unix` of the seconds
and the nanoseconds, which brings the nanoseconds into the range from 0 to
999999999 and carries the rest into the seconds. The seconds are an integer
here; the carry of at most two seconds is not wrapped at 64 bits. -/
def timestamppb.Timestamp.AsTime (x : timestamppb.Timestamp) : GoValue :=
  let sec := x.Seconds
  let nsec := x.Nanos
  if nsec < 0 ∨ nsec ≥ 1000000000 then
    let n := Int.tdiv nsec 1000000000
    let sec := sec + n
    let nsec := nsec - n * 1000000000
    if nsec < 0 then .time (sec - 1) (nsec + 1000000000) else .time sec nsec
  else .time sec nsec

/-- The message `DurationRules`. -/
structure validate.DurationRules where
  Required : Option Bool := none
  Const : Option durationpb.Duration := none
  Lt : Option durationpb.Duration := none
  Lte : Option durationpb.Duration := none
  Gt : Option durationpb.Duration := none
  Gte : Option durationpb.Duration := none
  In : Option (List durationpb.Duration) := none
  NotIn : Option (List durationpb.Duration) := none
  deriving DecidableEq, Repr

/-- The message `TimestampRules`. -/
structure validate.TimestampRules where
  Required : Option Bool := none
  Const : Option timestamppb.Timestamp := none
  Lt : Option timestamppb.Timestamp := none
  Lte : Option timestamppb.Timestamp := none
  Gt : Option timestamppb.Timestamp := none
  Gte : Option timestamppb.Timestamp := none
  LtNow : Option Bool := none
  GtNow : Option Bool := none
  Within : Option durationpb.Duration := none
  deriving DecidableEq, Repr

def validate.TimestampRules.GetRequired (x : validate.TimestampRules) : Bool := x.Required.getD false
def validate.TimestampRules.GetLtNow (x : validate.TimestampRules) : Bool := x.LtNow.getD false
def validate.TimestampRules.GetGtNow (x : validate.TimestampRules) : Bool := x.GtNow.getD false

/-- The message `RepeatedRules`, over the type of its `items`. -/
structure validate.RepeatedRules (α : Type) where
  MinItems : Option Nat := none
  MaxItems : Option Nat := none
  Unique : Option Bool := none
  Items : Option α := none
  IgnoreEmpty : Option Bool := none

namespace validate.RepeatedRules

def GetMinItems {α : Type} (x : validate.RepeatedRules α) : Nat := x.MinItems.getD 0
def GetMaxItems {α : Type} (x : validate.RepeatedRules α) : Nat := x.MaxItems.getD 0
def GetUnique {α : Type} (x : validate.RepeatedRules α) : Bool := x.Unique.getD false
def GetItems {α : Type} (x : validate.RepeatedRules α) : Option α := x.Items
def GetIgnoreEmpty {α : Type} (x : validate.RepeatedRules α) : Bool := x.IgnoreEmpty.getD false

end validate.RepeatedRules

/-- The message `MapRules`, over the type of its `keys` and `values`. -/
structure validate.MapRules (α : Type) where
  MinPairs : Option Nat := none
  MaxPairs : Option Nat := none
  NoSparse : Option Bool := none
  Keys : Option α := none
  Values : Option α := none
  IgnoreEmpty : Option Bool := none

namespace validate.MapRules

def GetMinPairs {α : Type} (x : validate.MapRules α) : Nat := x.MinPairs.getD 0
def GetMaxPairs {α : Type} (x : validate.MapRules α) : Nat := x.MaxPairs.getD 0
def GetNoSparse {α : Type} (x : validate.MapRules α) : Bool := x.NoSparse.getD false
def GetKeys {α : Type} (x : validate.MapRules α) : Option α := x.Keys
def GetValues {α : Type} (x : validate.MapRules α) : Option α := x.Values
def GetIgnoreEmpty {α : Type} (x : validate.MapRules α) : Bool := x.IgnoreEmpty.getD false

end validate.MapRules

/-- The oneof `type` of the message `FieldRules`: at most one rule variant is
set. -/
inductive validate.FieldRules_Type (α : Type) where
  | Float (r : validate.NumericRules)
  | Double (r : validate.NumericRules)
  | Int32 (r : validate.NumericRules)
  | Int64 (r : validate.NumericRules)
  | Uint32 (r : validate.NumericRules)
  | Uint64 (r : validate.NumericRules)
  | Sint32 (r : validate.NumericRules)
  | Sint64 (r : validate.NumericRules)
  | Fixed32 (r : validate.NumericRules)
  | Fixed64 (r : validate.NumericRules)
  | Sfixed32 (r : validate.NumericRules)
  | Sfixed64 (r : validate.NumericRules)
  | Bool_ (r : validate.BoolRules)
  | String_ (r : validate.StringRules)
  | Bytes (r : validate.BytesRules)
  | Enum (r : validate.EnumRules)
  | Repeated (r : validate.RepeatedRules α)
  | Map (r : validate.MapRules α)
  | Any (r : validate.AnyRules)
  | Duration (r : validate.DurationRules)
  | Timestamp (r : validate.TimestampRules)

/-- The message `validate.FieldRules`: the field `message` and the oneof
`type`. -/
inductive validate.FieldRules where
  | mk (Message : Option validate.MessageRules)
      (Type_ : Option (validate.FieldRules_Type validate.FieldRules))

namespace validate.FieldRules

def Message : validate.FieldRules → Option validate.MessageRules
  | .mk m _ => m

def Type_ : validate.FieldRules → Option (validate.FieldRules_Type validate.FieldRules)
  | .mk _ t => t

def GetMessage (x : validate.FieldRules) : Option validate.MessageRules := x.Message

def GetFloat (x : validate.FieldRules) : Option validate.NumericRules :=
  match x.Type_ with
  | some (.Float r) => some r
  | _ => none

def GetDouble (x : validate.FieldRules) : Option validate.NumericRules :=
  match x.Type_ with
  | some (.Double r) => some r
  | _ => none

def GetInt32 (x : validate.FieldRules) : Option validate.NumericRules :=
  match x.Type_ with
  | some (.Int32 r) => some r
  | _ => none

def GetInt64 (x : validate.FieldRules) : Option validate.NumericRules :=
  match x.Type_ with
  | some (.Int64 r) => some r
  | _ => none

def GetUint32 (x : validate.FieldRules) : Option validate.NumericRules :=
  match x.Type_ with
  | some (.Uint32 r) => some r
  | _ => none

def GetUint64 (x : validate.FieldRules) : Option validate.NumericRules :=
  match x.Type_ with
  | some (.Uint64 r) => some r
  | _ => none

def GetSint32 (x : validate.FieldRules) : Option validate.NumericRules :=
  match x.Type_ with
  | some (.Sint32 r) => some r
  | _ => none

def GetSint64 (x : validate.FieldRules) : Option validate.NumericRules :=
  match x.Type_ with
  | some (.Sint64 r) => some r
  | _ => none

def GetFixed32 (x : validate.FieldRules) : Option validate.NumericRules :=
  match x.Type_ with
  | some (.Fixed32 r) => some r
  | _ => none

def GetFixed64 (x : validate.FieldRules) : Option validate.NumericRules :=
  match x.Type_ with
  | some (.Fixed64 r) => some r
  | _ => none

def GetSfixed32 (x : validate.FieldRules) : Option validate.NumericRules :=
  match x.Type_ with
  | some (.Sfixed32 r) => some r
  | _ => none

def GetSfixed64 (x : validate.FieldRules) : Option validate.NumericRules :=
  match x.Type_ with
  | some (.Sfixed64 r) => some r
  | _ => none

def GetBool (x : validate.FieldRules) : Option validate.BoolRules :=
  match x.Type_ with
  | some (.Bool_ r) => some r
  | _ => none

def GetString_ (x : validate.FieldRules) : Option validate.StringRules :=
  match x.Type_ with
  | some (.String_ r) => some r
  | _ => none

def GetBytes (x : validate.FieldRules) : Option validate.BytesRules :=
  match x.Type_ with
  | some (.Bytes r) => some r
  | _ => none

def GetEnum (x : validate.FieldRules) : Option validate.EnumRules :=
  match x.Type_ with
  | some (.Enum r) => some r
  | _ => none

def GetRepeated (x : validate.FieldRules) : Option (validate.RepeatedRules validate.FieldRules) :=
  match x.Type_ with
  | some (.Repeated r) => some r
  | _ => none

def GetMap (x : validate.FieldRules) : Option (validate.MapRules validate.FieldRules) :=
  match x.Type_ with
  | some (.Map r) => some r
  | _ => none

def GetAny (x : validate.FieldRules) : Option validate.AnyRules :=
  match x.Type_ with
  | some (.Any r) => some r
  | _ => none

def GetDuration (x : validate.FieldRules) : Option validate.DurationRules :=
  match x.Type_ with
  | some (.Duration r) => some r
  | _ => none

def GetTimestamp (x : validate.FieldRules) : Option validate.TimestampRules :=
  match x.Type_ with
  | some (.Timestamp r) => some r
  | _ => none

end validate.FieldRules

/-! ## Field rules (field_rules.go) -/

/-- The struct `FieldRules` of field_rules.go (lines 12-62). -/
structure FieldRules where
  MinItems : Nat := 0
  MaxItems : Nat := 0
  Unique : Bool := false
  MinPairs : Nat := 0
  MaxPairs : Nat := 0
  NoSparse : Bool := false
  DefinedOnly : Bool := false
  Skip : Bool := false
  Required : Bool := false
  Len : Nat := 0
  MinLen : Nat := 0
  MaxLen : Nat := 0
  LenBytes : Nat := 0
  MinBytes : Nat := 0
  MaxBytes : Nat := 0
  Pattern : Str := []
  Email : Bool := false
  Hostname : Bool := false
  URI : Bool := false
  URIRef : Bool := false
  Address : Bool := false
  UUID : Bool := false
  Prefix : GoValue := .null
  Suffix : GoValue := .null
  Contains : GoValue := .null
  NotContains : GoValue := .null
  IP : Bool := false
  IPv4 : Bool := false
  IPv6 : Bool := false
  LtNow : Bool := false
  GtNow : Bool := false
  Within : Int := 0
  Const : GoValue := .null
  Lt : GoValue := .null
  Lte : GoValue := .null
  Gt : GoValue := .null
  Gte : GoValue := .null
  In : GoValue := .null
  NotIn : GoValue := .null
  IgnoreEmpty : Bool := false
  deriving DecidableEq, Repr

namespace FieldRules

/-- The method `addFloatRules` (lines 87-110); the values are of Go type `float32`. -/
def addFloatRules (f : FieldRules) (src : validate.NumericRules) : FieldRules :=
  let f : FieldRules := match src.Const with
    | some v => { f with Const := .numPtr .float32 v }
    | none => f
  let f : FieldRules := match src.Lt with
    | some v => { f with Lt := .numPtr .float32 v }
    | none => f
  let f : FieldRules := match src.Lte with
    | some v => { f with Lte := .numPtr .float32 v }
    | none => f
  let f : FieldRules := match src.Gt with
    | some v => { f with Gt := .numPtr .float32 v }
    | none => f
  let f : FieldRules := match src.Gte with
    | some v => { f with Gte := .numPtr .float32 v }
    | none => f
  let f : FieldRules := match src.In with
    | some vs => { f with In := .nums .float32 vs }
    | none => f
  let f : FieldRules := match src.NotIn with
    | some vs => { f with NotIn := .nums .float32 vs }
    | none => f
  { f with IgnoreEmpty := src.GetIgnoreEmpty }

/-- The method `addDoubleRules` (lines 112-135); the values are of Go type `float64`. -/
def addDoubleRules (f : FieldRules) (src : validate.NumericRules) : FieldRules :=
  let f : FieldRules := match src.Const with
    | some v => { f with Const := .numPtr .float64 v }
    | none => f
  let f : FieldRules := match src.Lt with
    | some v => { f with Lt := .numPtr .float64 v }
    | none => f
  let f : FieldRules := match src.Lte with
    | some v => { f with Lte := .numPtr .float64 v }
    | none => f
  let f : FieldRules := match src.Gt with
    | some v => { f with Gt := .numPtr .float64 v }
    | none => f
  let f : FieldRules := match src.Gte with
    | some v => { f with Gte := .numPtr .float64 v }
    | none => f
  let f : FieldRules := match src.In with
    | some vs => { f with In := .nums .float64 vs }
    | none => f
  let f : FieldRules := match src.NotIn with
    | some vs => { f with NotIn := .nums .float64 vs }
    | none => f
  { f with IgnoreEmpty := src.GetIgnoreEmpty }

/-- The method `addInt32Rules` (lines 137-160); the values are of Go type `int32`. -/
def addInt32Rules (f : FieldRules) (src : validate.NumericRules) : FieldRules :=
  let f : FieldRules := match src.Const with
    | some v => { f with Const := .numPtr .int32 v }
    | none => f
  let f : FieldRules := match src.Lt with
    | some v => { f with Lt := .numPtr .int32 v }
    | none => f
  let f : FieldRules := match src.Lte with
    | some v => { f with Lte := .numPtr .int32 v }
    | none => f
  let f : FieldRules := match src.Gt with
    | some v => { f with Gt := .numPtr .int32 v }
    | none => f
  let f : FieldRules := match src.Gte with
    | some v => { f with Gte := .numPtr .int32 v }
    | none => f
  let f : FieldRules := match src.In with
    | some vs => { f with In := .nums .int32 vs }
    | none => f
  let f : FieldRules := match src.NotIn with
    | some vs => { f with NotIn := .nums .int32 vs }
    | none => f
  { f with IgnoreEmpty := src.GetIgnoreEmpty }

/-- The method `addInt64Rules` (lines 162-185); the values are of Go type `int64`. -/
def addInt64Rules (f : FieldRules) (src : validate.NumericRules) : FieldRules :=
  let f : FieldRules := match src.Const with
    | some v => { f with Const := .numPtr .int64 v }
    | none => f
  let f : FieldRules := match src.Lt with
    | some v => { f with Lt := .numPtr .int64 v }
    | none => f
  let f : FieldRules := match src.Lte with
    | some v => { f with Lte := .numPtr .int64 v }
    | none => f
  let f : FieldRules := match src.Gt with
    | some v => { f with Gt := .numPtr .int64 v }
    | none => f
  let f : FieldRules := match src.Gte with
    | some v => { f with Gte := .numPtr .int64 v }
    | none => f
  let f : FieldRules := match src.In with
    | some vs => { f with In := .nums .int64 vs }
    | none => f
  let f : FieldRules := match src.NotIn with
    | some vs => { f with NotIn := .nums .int64 vs }
    | none => f
  { f with IgnoreEmpty := src.GetIgnoreEmpty }

/-- The method `addUint32Rules` (lines 187-210); the values are of Go type `uint32`. -/
def addUint32Rules (f : FieldRules) (src : validate.NumericRules) : FieldRules :=
  let f : FieldRules := match src.Const with
    | some v => { f with Const := .numPtr .uint32 v }
    | none => f
  let f : FieldRules := match src.Lt with
    | some v => { f with Lt := .numPtr .uint32 v }
    | none => f
  let f : FieldRules := match src.Lte with
    | some v => { f with Lte := .numPtr .uint32 v }
    | none => f
  let f : FieldRules := match src.Gt with
    | some v => { f with Gt := .numPtr .uint32 v }
    | none => f
  let f : FieldRules := match src.Gte with
    | some v => { f with Gte := .numPtr .uint32 v }
    | none => f
  let f : FieldRules := match src.In with
    | some vs => { f with In := .nums .uint32 vs }
    | none => f
  let f : FieldRules := match src.NotIn with
    | some vs => { f with NotIn := .nums .uint32 vs }
    | none => f
  { f with IgnoreEmpty := src.GetIgnoreEmpty }

/-- The method `addUint64Rules` (lines 212-235); the values are of Go type `uint64`. -/
def addUint64Rules (f : FieldRules) (src : validate.NumericRules) : FieldRules :=
  let f : FieldRules := match src.Const with
    | some v => { f with Const := .numPtr .uint64 v }
    | none => f
  let f : FieldRules := match src.Lt with
    | some v => { f with Lt := .numPtr .uint64 v }
    | none => f
  let f : FieldRules := match src.Lte with
    | some v => { f with Lte := .numPtr .uint64 v }
    | none => f
  let f : FieldRules := match src.Gt with
    | some v => { f with Gt := .numPtr .uint64 v }
    | none => f
  let f : FieldRules := match src.Gte with
    | some v => { f with Gte := .numPtr .uint64 v }
    | none => f
  let f : FieldRules := match src.In with
    | some vs => { f with In := .nums .uint64 vs }
    | none => f
  let f : FieldRules := match src.NotIn with
    | some vs => { f with NotIn := .nums .uint64 vs }
    | none => f
  { f with IgnoreEmpty := src.GetIgnoreEmpty }

/-- The method `addSint32Rules` (lines 237-260); the values are of Go type `int32`. -/
def addSint32Rules (f : FieldRules) (src : validate.NumericRules) : FieldRules :=
  let f : FieldRules := match src.Const with
    | some v => { f with Const := .numPtr .int32 v }
    | none => f
  let f : FieldRules := match src.Lt with
    | some v => { f with Lt := .numPtr .int32 v }
    | none => f
  let f : FieldRules := match src.Lte with
    | some v => { f with Lte := .numPtr .int32 v }
    | none => f
  let f : FieldRules := match src.Gt with
    | some v => { f with Gt := .numPtr .int32 v }
    | none => f
  let f : FieldRules := match src.Gte with
    | some v => { f with Gte := .numPtr .int32 v }
    | none => f
  let f : FieldRules := match src.In with
    | some vs => { f with In := .nums .int32 vs }
    | none => f
  let f : FieldRules := match src.NotIn with
    | some vs => { f with NotIn := .nums .int32 vs }
    | none => f
  { f with IgnoreEmpty := src.GetIgnoreEmpty }

/-- The method `addSint64Rules` (lines 262-285); the values are of Go type `int64`. -/
def addSint64Rules (f : FieldRules) (src : validate.NumericRules) : FieldRules :=
  let f : FieldRules := match src.Const with
    | some v => { f with Const := .numPtr .int64 v }
    | none => f
  let f : FieldRules := match src.Lt with
    | some v => { f with Lt := .numPtr .int64 v }
    | none => f
  let f : FieldRules := match src.Lte with
    | some v => { f with Lte := .numPtr .int64 v }
    | none => f
  let f : FieldRules := match src.Gt with
    | some v => { f with Gt := .numPtr .int64 v }
    | none => f
  let f : FieldRules := match src.Gte with
    | some v => { f with Gte := .numPtr .int64 v }
    | none => f
  let f : FieldRules := match src.In with
    | some vs => { f with In := .nums .int64 vs }
    | none => f
  let f : FieldRules := match src.NotIn with
    | some vs => { f with NotIn := .nums .int64 vs }
    | none => f
  { f with IgnoreEmpty := src.GetIgnoreEmpty }

/-- The method `addFixed32Rules` (lines 287-310); the values are of Go type `uint32`. -/
def addFixed32Rules (f : FieldRules) (src : validate.NumericRules) : FieldRules :=
  let f : FieldRules := match src.Const with
    | some v => { f with Const := .numPtr .uint32 v }
    | none => f
  let f : FieldRules := match src.Lt with
    | some v => { f with Lt := .numPtr .uint32 v }
    | none => f
  let f : FieldRules := match src.Lte with
    | some v => { f with Lte := .numPtr .uint32 v }
    | none => f
  let f : FieldRules := match src.Gt with
    | some v => { f with Gt := .numPtr .uint32 v }
    | none => f
  let f : FieldRules := match src.Gte with
    | some v => { f with Gte := .numPtr .uint32 v }
    | none => f
  let f : FieldRules := match src.In with
    | some vs => { f with In := .nums .uint32 vs }
    | none => f
  let f : FieldRules := match src.NotIn with
    | some vs => { f with NotIn := .nums .uint32 vs }
    | none => f
  { f with IgnoreEmpty := src.GetIgnoreEmpty }

/-- The method `addFixed64Rules` (lines 312-335); the values are of Go type `uint64`. -/
def addFixed64Rules (f : FieldRules) (src : validate.NumericRules) : FieldRules :=
  let f : FieldRules := match src.Const with
    | some v => { f with Const := .numPtr .uint64 v }
    | none => f
  let f : FieldRules := match src.Lt with
    | some v => { f with Lt := .numPtr .uint64 v }
    | none => f
  let f : FieldRules := match src.Lte with
    | some v => { f with Lte := .numPtr .uint64 v }
    | none => f
  let f : FieldRules := match src.Gt with
    | some v => { f with Gt := .numPtr .uint64 v }
    | none => f
  let f : FieldRules := match src.Gte with
    | some v => { f with Gte := .numPtr .uint64 v }
    | none => f
  let f : FieldRules := match src.In with
    | some vs => { f with In := .nums .uint64 vs }
    | none => f
  let f : FieldRules := match src.NotIn with
    | some vs => { f with NotIn := .nums .uint64 vs }
    | none => f
  { f with IgnoreEmpty := src.GetIgnoreEmpty }

/-- The method `addSfixed32Rules` (lines 337-360); the values are of Go type `int32`. -/
def addSfixed32Rules (f : FieldRules) (src : validate.NumericRules) : FieldRules :=
  let f : FieldRules := match src.Const with
    | some v => { f with Const := .numPtr .int32 v }
    | none => f
  let f : FieldRules := match src.Lt with
    | some v => { f with Lt := .numPtr .int32 v }
    | none => f
  let f : FieldRules := match src.Lte with
    | some v => { f with Lte := .numPtr .int32 v }
    | none => f
  let f : FieldRules := match src.Gt with
    | some v => { f with Gt := .numPtr .int32 v }
    | none => f
  let f : FieldRules := match src.Gte with
    | some v => { f with Gte := .numPtr .int32 v }
    | none => f
  let f : FieldRules := match src.In with
    | some vs => { f with In := .nums .int32 vs }
    | none => f
  let f : FieldRules := match src.NotIn with
    | some vs => { f with NotIn := .nums .int32 vs }
    | none => f
  { f with IgnoreEmpty := src.GetIgnoreEmpty }

/-- The method `addSfixed64Rules` (lines 362-385); the values are of Go type `int64`. -/
def addSfixed64Rules (f : FieldRules) (src : validate.NumericRules) : FieldRules :=
  let f : FieldRules := match src.Const with
    | some v => { f with Const := .numPtr .int64 v }
    | none => f
  let f : FieldRules := match src.Lt with
    | some v => { f with Lt := .numPtr .int64 v }
    | none => f
  let f : FieldRules := match src.Lte with
    | some v => { f with Lte := .numPtr .int64 v }
    | none => f
  let f : FieldRules := match src.Gt with
    | some v => { f with Gt := .numPtr .int64 v }
    | none => f
  let f : FieldRules := match src.Gte with
    | some v => { f with Gte := .numPtr .int64 v }
    | none => f
  let f : FieldRules := match src.In with
    | some vs => { f with In := .nums .int64 vs }
    | none => f
  let f : FieldRules := match src.NotIn with
    | some vs => { f with NotIn := .nums .int64 vs }
    | none => f
  { f with IgnoreEmpty := src.GetIgnoreEmpty }

/-- The method `addBoolRules` (lines 387-391). -/
def addBoolRules (f : FieldRules) (src : validate.BoolRules) : FieldRules :=
  match src.Const with
  | some b => { f with Const := .bool b }
  | none => f

/-- The method `addStringRules` (lines 393-432). -/
def addStringRules (f : FieldRules) (src : validate.StringRules) : FieldRules :=
  let f : FieldRules := match src.Const with
    | some v => { f with Const := .string v }
    | none => f
  let f : FieldRules := { f with Len := src.GetLen }
  let f : FieldRules := { f with MinLen := src.GetMinLen }
  let f : FieldRules := { f with MaxLen := src.GetMaxLen }
  let f : FieldRules := { f with LenBytes := src.GetLenBytes }
  let f : FieldRules := { f with MinBytes := src.GetMinBytes }
  let f : FieldRules := { f with MaxBytes := src.GetMaxBytes }
  let f : FieldRules := { f with Pattern := src.GetPattern }
  let f : FieldRules := match src.Prefix with
    | some v => { f with Prefix := .stringPtr v }
    | none => f
  let f : FieldRules := match src.Suffix with
    | some v => { f with Suffix := .stringPtr v }
    | none => f
  let f : FieldRules := match src.Contains with
    | some v => { f with Contains := .stringPtr v }
    | none => f
  let f : FieldRules := match src.NotContains with
    | some v => { f with NotContains := .stringPtr v }
    | none => f
  let f : FieldRules := match src.In with
    | some vs => { f with In := .strings vs }
    | none => f
  let f : FieldRules := match src.NotIn with
    | some vs => { f with NotIn := .strings vs }
    | none => f
  let f : FieldRules := { f with IP := src.GetIp }
  let f : FieldRules := { f with IPv4 := src.GetIpv4 }
  let f : FieldRules := { f with IPv6 := src.GetIpv6 }
  let f : FieldRules := { f with Email := src.GetEmail }
  let f : FieldRules := { f with Hostname := src.GetHostname }
  let f : FieldRules := { f with URI := src.GetUri }
  let f : FieldRules := { f with URIRef := src.GetUriRef }
  let f : FieldRules := { f with Address := src.GetAddress }
  let f : FieldRules := { f with UUID := src.GetUuid }
  { f with IgnoreEmpty := src.GetIgnoreEmpty }

/-- The method `addBytesRules` (lines 434-461). -/
def addBytesRules (f : FieldRules) (src : validate.BytesRules) : FieldRules :=
  let f : FieldRules := match src.Const with
    | some v => { f with Const := .bytes v }
    | none => f
  let f : FieldRules := { f with Len := src.GetLen }
  let f : FieldRules := { f with MinLen := src.GetMinLen }
  let f : FieldRules := { f with MaxLen := src.GetMaxLen }
  let f : FieldRules := { f with Pattern := src.GetPattern }
  let f : FieldRules := match src.Prefix with
    | some v => { f with Prefix := .bytes v }
    | none => f
  let f : FieldRules := match src.Suffix with
    | some v => { f with Suffix := .bytes v }
    | none => f
  let f : FieldRules := match src.Contains with
    | some v => { f with Contains := .bytes v }
    | none => f
  let f : FieldRules := match src.In with
    | some vs => { f with In := .bytesList vs }
    | none => f
  let f : FieldRules := match src.NotIn with
    | some vs => { f with NotIn := .bytesList vs }
    | none => f
  let f : FieldRules := { f with IP := src.GetIp }
  let f : FieldRules := { f with IPv4 := src.GetIpv4 }
  let f : FieldRules := { f with IPv6 := src.GetIpv6 }
  { f with IgnoreEmpty := src.GetIgnoreEmpty }

/-- The method `addEnumRules` (lines 463-474). -/
def addEnumRules (f : FieldRules) (src : validate.EnumRules) : FieldRules :=
  let f : FieldRules := { f with DefinedOnly := src.GetDefinedOnly }
  let f : FieldRules := match src.Const with
    | some v => { f with Const := .num .int32 v }
    | none => f
  let f : FieldRules := match src.In with
    | some vs => { f with In := .nums .int32 vs }
    | none => f
  match src.NotIn with
  | some vs => { f with NotIn := .nums .int32 vs }
  | none => f

/-- The method `addMessageRules` (lines 476-479). -/
def addMessageRules (f : FieldRules) (src : validate.MessageRules) : FieldRules :=
  let f : FieldRules := { f with Skip := src.GetSkip }
  { f with Required := src.GetRequired }

/-- The method `addAnyRules` (lines 481-489). -/
def addAnyRules (f : FieldRules) (src : validate.AnyRules) : FieldRules :=
  let f : FieldRules := { f with Required := src.GetRequired }
  let f : FieldRules := match src.In with
    | some vs => { f with In := .strings vs }
    | none => f
  match src.NotIn with
  | some vs => { f with NotIn := .strings vs }
  | none => f

/-- The method `addDurationRules` (lines 491-521). -/
def addDurationRules (f : FieldRules) (src : validate.DurationRules) : FieldRules :=
  let f : FieldRules := match src.Const with
    | some v => { f with Const := .duration v.AsDuration }
    | none => f
  let f : FieldRules := match src.Lt with
    | some v => { f with Lt := .duration v.AsDuration }
    | none => f
  let f : FieldRules := match src.Lte with
    | some v => { f with Lte := .duration v.AsDuration }
    | none => f
  let f : FieldRules := match src.Gt with
    | some v => { f with Gt := .duration v.AsDuration }
    | none => f
  let f : FieldRules := match src.Gte with
    | some v => { f with Gte := .duration v.AsDuration }
    | none => f
  let f : FieldRules := match src.In with
    | some vs => { f with In := .durations (vs.map fun p => p.AsDuration) }
    | none => f
  match src.NotIn with
  | some vs => { f with NotIn := .durations (vs.map fun p => p.AsDuration) }
  | none => f

/-- The method `addTimestampRules` (lines 523-545). -/
def addTimestampRules (f : FieldRules) (src : validate.TimestampRules) : FieldRules :=
  let f : FieldRules := { f with Required := src.GetRequired }
  let f : FieldRules := match src.Const with
    | some v => { f with Const := v.AsTime }
    | none => f
  let f : FieldRules := match src.Lt with
    | some v => { f with Lt := v.AsTime }
    | none => f
  let f : FieldRules := match src.Lte with
    | some v => { f with Lte := v.AsTime }
    | none => f
  let f : FieldRules := match src.Gt with
    | some v => { f with Gt := v.AsTime }
    | none => f
  let f : FieldRules := match src.Gte with
    | some v => { f with Gte := v.AsTime }
    | none => f
  let f : FieldRules := { f with LtNow := src.GetLtNow }
  let f : FieldRules := { f with GtNow := src.GetGtNow }
  match src.Within with
  | some v => { f with Within := v.AsDuration }
  | none => f

/-- The method `FieldRules.AddFieldRules` (lines 547-611): the rule groups of
the extension are applied one after the other, each when it is set; the enum
and message groups also ask the type `t`. -/
def AddFieldRules (f : FieldRules) (src : Option validate.FieldRules) (t : PGSFieldType) :
    FieldRules :=
  match src with
  | none => f
  | some src =>
    let f : FieldRules := match src.GetFloat with
      | some rules => f.addFloatRules rules
      | none => f
    let f : FieldRules := match src.GetDouble with
      | some rules => f.addDoubleRules rules
      | none => f
    let f : FieldRules := match src.GetInt32 with
      | some rules => f.addInt32Rules rules
      | none => f
    let f : FieldRules := match src.GetInt64 with
      | some rules => f.addInt64Rules rules
      | none => f
    let f : FieldRules := match src.GetUint32 with
      | some rules => f.addUint32Rules rules
      | none => f
    let f : FieldRules := match src.GetUint64 with
      | some rules => f.addUint64Rules rules
      | none => f
    let f : FieldRules := match src.GetSint32 with
      | some rules => f.addSint32Rules rules
      | none => f
    let f : FieldRules := match src.GetSint64 with
      | some rules => f.addSint64Rules rules
      | none => f
    let f : FieldRules := match src.GetFixed32 with
      | some rules => f.addFixed32Rules rules
      | none => f
    let f : FieldRules := match src.GetFixed64 with
      | some rules => f.addFixed64Rules rules
      | none => f
    let f : FieldRules := match src.GetSfixed32 with
      | some rules => f.addSfixed32Rules rules
      | none => f
    let f : FieldRules := match src.GetSfixed64 with
      | some rules => f.addSfixed64Rules rules
      | none => f
    let f : FieldRules := match src.GetBool with
      | some rules => f.addBoolRules rules
      | none => f
    let f : FieldRules := match src.GetString_ with
      | some rules => f.addStringRules rules
      | none => f
    let f : FieldRules := match src.GetBytes with
      | some rules => f.addBytesRules rules
      | none => f
    let f : FieldRules := match src.GetEnum with
      | some rules => if t.IsEnum then f.addEnumRules rules else f
      | none => f
    let f : FieldRules := match src.GetMessage with
      | some rules => if t.IsEmbed then f.addMessageRules rules else f
      | none => f
    let f : FieldRules := match src.GetAny with
      | some rules => f.addAnyRules rules
      | none => f
    let f : FieldRules := match src.GetDuration with
      | some rules => f.addDurationRules rules
      | none => f
    match src.GetTimestamp with
    | some rules => f.addTimestampRules rules
    | none => f

end FieldRules

/-! ## Field types and defaults (data_files.go, lines 172-328) -/

/-- The struct `FieldTypeElem`; its field `Type` is `Type_` here. -/
structure FieldTypeElem where
  Type_ : Str := []
  Enum : Ref := {}
  Message : Ref := {}
  Rules : FieldRules := {}
  deriving DecidableEq, Repr

/-- The function `ProtoTypeString`; `none` is its panic. -/
def ProtoTypeString (t : pgs.ProtoType) : Option Str :=
  match t with
  | .DoubleT => some "double".toList
  | .FloatT => some "float".toList
  | .Int64T => some "int64".toList
  | .UInt64T => some "uint64".toList
  | .Int32T => some "int32".toList
  | .Fixed64T => some "fixed64".toList
  | .Fixed32T => some "fixed32".toList
  | .BoolT => some "bool".toList
  | .StringT => some "string".toList
  | .BytesT => some "bytes".toList
  | .UInt32T => some "uint32".toList
  | .SFixed32 => some "sfixed32".toList
  | .SFixed64 => some "sfixed64".toList
  | .SInt32 => some "sint32".toList
  | .SInt64 => some "sint64".toList
  | _ => none

/-- The function `ProtoTypeDefault`; `none` is its panic. -/
def ProtoTypeDefault (t : pgs.ProtoType) : Option GoValue :=
  match t with
  | .DoubleT => some (.num .float64 0)
  | .FloatT => some (.num .float32 0)
  | .Int64T => some (.num .int64 0)
  | .UInt64T => some (.num .uint64 0)
  | .Int32T => some (.num .int32 0)
  | .Fixed64T => some (.num .uint64 0)
  | .Fixed32T => some (.num .uint32 0)
  | .BoolT => some (.bool false)
  | .StringT => some (.string [])
  | .BytesT => some (.bytes [])
  | .UInt32T => some (.num .uint32 0)
  | .SFixed32 => some (.num .int32 0)
  | .SFixed64 => some (.num .int64 0)
  | .SInt32 => some (.num .int32 0)
  | .SInt64 => some (.num .int64 0)
  | _ => none

/-- The function `BuildFieldTypeElem`. -/
def BuildFieldTypeElem (src : PGSFieldType) : Option FieldTypeElem :=
  let fieldTypeElem : FieldTypeElem := {}
  if src.IsEnum then
    some { fieldTypeElem with Enum := BuildRef src.Enum.toEntity }
  else if src.IsEmbed then
    some { fieldTypeElem with Message := BuildRef src.Embed.toEntity }
  else
    (ProtoTypeString src.ProtoType).map fun name => { fieldTypeElem with Type_ := name }

/-- The struct `FieldType`. -/
structure FieldType extends FieldTypeElem where
  Repeated : Option FieldTypeElem := none
  MapKey : Option FieldTypeElem := none
  MapValue : Option FieldTypeElem := none
  deriving DecidableEq, Repr

/-- The function `BuildFieldType`. -/
def BuildFieldType (src : pgs.FieldType) : Option FieldType :=
  let fieldType : FieldType := {}
  if src.IsRepeated then do
    let elem ← BuildFieldTypeElem src.Element
    pure { fieldType with Repeated := some elem }
  else if src.IsMap then do
    let key ← BuildFieldTypeElem src.Key
    let fieldType : FieldType := { fieldType with MapKey := some key }
    let elem ← BuildFieldTypeElem src.Element
    pure { fieldType with MapValue := some elem }
  else do
    let base ← BuildFieldTypeElem src.toPGSFieldType
    pure { fieldType with toFieldTypeElem := base }

/-- The function `BuildFieldDefault`; `none` is a panic (the index 0 of an empty
`Values()`, or the panic of `ProtoTypeDefault`). -/
def BuildFieldDefault (src : pgs.FieldType) : Option GoValue :=
  if src.IsRepeated then some .emptySeq
  else if src.IsMap then some .emptyMap
  else if src.IsEnum then
    src.Enum.Values[0]?.map fun value => .string value.Name
  else if src.IsEmbed then
    if src.Embed.IsWellKnown && HasSuffix src.Embed.WellKnownType "Value".toList then
      some .null
    else if src.Embed.WellKnownType = pgs.AnyWKT then some .null
    else if src.Embed.WellKnownType = pgs.DurationWKT then some (.string "0s".toList)
    else if src.Embed.WellKnownType = pgs.TimestampWKT then
      some (.string "0001-01-01T00:00:00Z".toList)
    else some .emptyMap
  else ProtoTypeDefault src.ProtoType

/-! ## Fields, oneofs and messages (data_files.go, lines 330-388) -/

/-- A `pgs.Field`: an entity with `Type()` and the validation extension that
`Extension(validate.E_Rules, _)` finds, if any. -/
structure pgs.Field extends pgs.Entity where
  Type_ : pgs.FieldType
  Rules : Option validate.FieldRules := none

/-- A `pgs.OneOf`: an entity and `Fields()`. -/
structure pgs.OneOf extends pgs.Entity where
  Fields : List pgs.Field := []

/-- A `pgs.Message`: an entity with its well-known type, `IsMapEntry()`,
`Fields()` and `OneOfs()`. -/
structure pgs.Message extends pgs.Embed where
  IsMapEntry : Bool := false
  Fields : List pgs.Field := []
  OneOfs : List pgs.OneOf := []

/-- The struct `Field`. -/
structure Field extends Entity, FieldType where
  src : pgs.Field
  Default : GoValue

/-- The method `Field.AddFieldRules` (field_rules.go, lines 64-85). -/
def Field.AddFieldRules (f : Field) (src : Option validate.FieldRules) : Field :=
  match src with
  | none => f
  | some src =>
    let fieldType := f.src.Type_
    let f : Field :=
      match src.GetRepeated, f.Repeated with
      | some rules, some repeated =>
        let f : Field := { f with Rules := { f.Rules with MinItems := rules.GetMinItems } }
        let f : Field := { f with Rules := { f.Rules with MaxItems := rules.GetMaxItems } }
        let f : Field := { f with Rules := { f.Rules with Unique := rules.GetUnique } }
        let elem : FieldTypeElem :=
          { repeated with Rules := repeated.Rules.AddFieldRules rules.GetItems fieldType.Element }
        let f : Field := { f with Repeated := some elem }
        { f with Rules := { f.Rules with IgnoreEmpty := rules.GetIgnoreEmpty } }
      | _, _ => f
    let f : Field :=
      match src.GetMap, f.MapKey, f.MapValue with
      | some rules, some mapKey, some mapValue =>
        let f : Field := { f with Rules := { f.Rules with MinPairs := rules.GetMinPairs } }
        let f : Field := { f with Rules := { f.Rules with MaxPairs := rules.GetMaxPairs } }
        let f : Field := { f with Rules := { f.Rules with NoSparse := rules.GetNoSparse } }
        let key : FieldTypeElem :=
          { mapKey with Rules := mapKey.Rules.AddFieldRules rules.GetKeys fieldType.Key }
        let f : Field := { f with MapKey := some key }
        let elem : FieldTypeElem :=
          { mapValue with Rules := mapValue.Rules.AddFieldRules rules.GetValues fieldType.Element }
        let f : Field := { f with MapValue := some elem }
        { f with Rules := { f.Rules with IgnoreEmpty := rules.GetIgnoreEmpty } }
      | _, _, _ => f
    { f with Rules := f.Rules.AddFieldRules (some src) fieldType.toPGSFieldType }

/-- The function `BuildField`; `none` is a panic of `BuildFieldType` or of
`BuildFieldDefault`. -/
def BuildField (src : pgs.Field) : Option Field := do
  let fieldType ← BuildFieldType src.Type_
  let default ← BuildFieldDefault src.Type_
  let field : Field :=
    { toEntity := BuildEntity src.toEntity, toFieldType := fieldType, Default := default,
      src := src }
  match src.Rules with
  | some fieldRules => pure (field.AddFieldRules (some fieldRules))
  | none => pure field

/-- The struct `OneOf`. -/
structure OneOf extends Entity where
  FieldNames : List Str := []
  deriving DecidableEq, Repr

/-- The function `BuildOneOf`. -/
def BuildOneOf (src : pgs.OneOf) : OneOf :=
  let oneof : OneOf := { toEntity := BuildEntity src.toEntity }
  src.Fields.foldl (fun oneof field => { oneof with FieldNames := oneof.FieldNames ++ [field.Name] })
    oneof

/-- The struct `Message`. -/
structure Message extends Entity where
  Fields : List Field := []
  OneOfs : List OneOf := []

/-- The function `BuildMessage`; `none` is a panic of `BuildField`. -/
def BuildMessage (src : pgs.Message) : Option Message :=
  let message : Message := { toEntity := BuildEntity src.toEntity }
  let message : Message := { message with Name := EntityName src.toEntity }
  match src.Fields.mapM BuildField with
  | none => none
  | some fields =>
    let message : Message := { message with Fields := message.Fields ++ fields }
    some (src.OneOfs.foldl
      (fun message oneof => { message with OneOfs := message.OneOfs ++ [BuildOneOf oneof] })
      message)

/-! ## HTTP rules (http_rules.go) and methods (data_files.go, lines 390-421) -/

/-- The message `google.api.CustomHttpPattern`. -/
structure annotations.CustomHttpPattern where
  Kind : Str := []
  Path : Str := []
  deriving DecidableEq, Repr

/-- The oneof `pattern` of the message `google.api.HttpRule`. -/
inductive annotations.HttpRule_Pattern where
  | Get (s : Str)
  | Put (s : Str)
  | Post (s : Str)
  | Delete (s : Str)
  | Patch (s : Str)
  | Custom (c : Option annotations.CustomHttpPattern)
  deriving DecidableEq, Repr

/-- The methods `GetKind` and `GetPath` of a `*CustomHttpPattern`, which answer
the empty string on a nil pointer. -/
def annotations.GetKind (c : Option annotations.CustomHttpPattern) : Str :=
  match c with
  | some c => c.Kind
  | none => []

def annotations.GetPath (c : Option annotations.CustomHttpPattern) : Str :=
  match c with
  | some c => c.Path
  | none => []

/-- The message `google.api.HttpRule`: the oneof `pattern`, `body`,
`response_body` and `additional_bindings` (whose entries are not nil). -/
inductive annotations.HttpRule where
  | mk (Pattern : Option annotations.HttpRule_Pattern) (Body : Str) (ResponseBody : Str)
      (AdditionalBindings : List annotations.HttpRule)

/-- The struct `HTTPRule`. -/
structure HTTPRule where
  Method : Str := []
  Path : Str := []
  Input : Str := []
  InputMessage : Str := []
  Output : Str := []
  OutputMessage : Str := []
  deriving DecidableEq, Repr

/-- A `pgs.Method`: an entity with `Input()`, `Output()`, the streaming flags
and the HTTP extension that `Extension(annotations.E_Http, _)` finds, if any. -/
structure pgs.Method extends pgs.Entity where
  Input : pgs.Message
  Output : pgs.Message
  ClientStreaming : Bool := false
  ServerStreaming : Bool := false
  Http : Option annotations.HttpRule := none

/-- The struct `Stream`. -/
structure Stream extends Ref where
  Stream : Bool := false
  deriving DecidableEq, Repr

/-- The struct `Method`. -/
structure Method extends Entity where
  src : pgs.Method
  Input : Stream
  Output : Stream
  HTTP : List HTTPRule := []

/-- The loops of `AddHTTPRules` over the fields of a message: the fully
qualified name of the first field whose name is `body`, written over
`current`. -/
def findBodyField (fields : List pgs.Field) (body : Str) (current : Str) : Str :=
  match fields with
  | [] => current
  | field :: rest =>
    if field.Name = body then field.FullyQualifiedName else findBodyField rest body current

/-- The rule that `Method.AddHTTPRules` builds for one binding (http_rules.go,
lines 21-53). -/
def buildHTTPRule (m : Method) (pattern : Option annotations.HttpRule_Pattern)
    (body responseBody : Str) : HTTPRule :=
  let httpRule : HTTPRule := {}
  let httpRule : HTTPRule :=
    if body ≠ [] ∧ body ≠ "*".toList then
      let httpRule : HTTPRule := { httpRule with Input := body }
      { httpRule with InputMessage := findBodyField m.src.Input.Fields body httpRule.InputMessage }
    else httpRule
  let httpRule : HTTPRule :=
    if responseBody ≠ [] ∧ responseBody ≠ "*".toList then
      let httpRule : HTTPRule := { httpRule with Output := responseBody }
      { httpRule with
        OutputMessage := findBodyField m.src.Output.Fields responseBody httpRule.OutputMessage }
    else httpRule
  match pattern with
  | some (.Get s) => { httpRule with Method := "GET".toList, Path := s }
  | some (.Put s) => { httpRule with Method := "PUT".toList, Path := s }
  | some (.Post s) => { httpRule with Method := "POST".toList, Path := s }
  | some (.Delete s) => { httpRule with Method := "DELETE".toList, Path := s }
  | some (.Patch s) => { httpRule with Method := "PATCH".toList, Path := s }
  | some (.Custom c) =>
    { httpRule with Method := annotations.GetKind c, Path := annotations.GetPath c }
  | none => httpRule

mutual

/-- The method `Method.AddHTTPRules` on a binding that is not nil. -/
def Method.addHTTPRule (m : Method) : annotations.HttpRule → Method
  | .mk pattern body responseBody additionalBindings =>
    let httpRule := buildHTTPRule m pattern body responseBody
    let m : Method := { m with HTTP := m.HTTP ++ [httpRule] }
    Method.addHTTPRuleList m additionalBindings

/-- The loop of `Method.AddHTTPRules` over the additional bindings. -/
def Method.addHTTPRuleList (m : Method) : List annotations.HttpRule → Method
  | [] => m
  | additional :: rest => Method.addHTTPRuleList (Method.addHTTPRule m additional) rest

end

/-- The method `Method.AddHTTPRules` (http_rules.go, lines 17-58). -/
def Method.AddHTTPRules (m : Method) (src : Option annotations.HttpRule) : Method :=
  match src with
  | none => m
  | some src => m.addHTTPRule src

/-- The function `BuildMethod`. -/
def BuildMethod (src : pgs.Method) : Method :=
  let method : Method :=
    { toEntity := BuildEntity src.toEntity
      src := src
      Input := { toRef := BuildRef src.Input.toEntity, Stream := src.ClientStreaming }
      Output := { toRef := BuildRef src.Output.toEntity, Stream := src.ServerStreaming } }
  match src.Http with
  | some httpRules => method.AddHTTPRules (some httpRules)
  | none => method

/-! ## Services (data_files.go, lines 423-441, and map_slice.go) -/

/-- The struct `MapItem`, over the type of its value. -/
structure MapItem (α : Type) where
  Key : Str
  Value : α

/-- The type `MapSlice`, over the type of its values. -/
abbrev MapSlice (α : Type) := List (MapItem α)

/-- A `pgs.Service`: an entity and `Methods()`. -/
structure pgs.Service extends pgs.Entity where
  Methods : List pgs.Method := []

/-- The struct `Service`. -/
structure Service extends Entity where
  Methods : MapSlice Method := []

/-- The function `BuildService`. -/
def BuildService (src : pgs.Service) : Service :=
  let service : Service := { toEntity := BuildEntity src.toEntity }
  src.Methods.foldl
    (fun service method =>
      { service with
        Methods := service.Methods ++ [{ Key := method.Name, Value := BuildMethod method }] })
    service

/-! ## Ordered serialization (map_slice.go, lines 15-41) -/

/-- The struct `yaml.MapItem`, over the type of its value. -/
structure yaml.MapItem (α : Type) where
  Key : Str
  Value : α

/-- The method `MapSlice.MarshalYAML`: the `yaml.MapSlice` of `len(m)` items
whose item `i` is made of the key and the value of `m[i]`; its error is always
nil. -/
def MapSlice.MarshalYAML {α : Type} (m : MapSlice α) : List (yaml.MapItem α) :=
  m.map fun v => { Key := v.Key, Value := v.Value }

/-- A write on a `jsoniter.Stream`, over the type of the values written. -/
inductive jsoniter.Write (α : Type) where
  | ObjectStart
  | More
  | ObjectField (field : Str)
  | Val (val : α)
  | ObjectEnd

/-- The loop of `MapSlice.MarshalJSON` from the index `i` on: the writes on the
stream. -/
def MapSlice.marshalJSONLoop {α : Type} (stream : List (jsoniter.Write α)) (i : Nat) :
    List (MapItem α) → List (jsoniter.Write α)
  | [] => stream
  | v :: rest =>
    let stream := if i > 0 then stream ++ [.More] else stream
    let stream := stream ++ [.ObjectField v.Key]
    let stream := stream ++ [.Val v.Value]
    MapSlice.marshalJSONLoop stream (i + 1) rest

/-- The method `MapSlice.MarshalJSON`: the writes on the borrowed stream, whose
buffer is returned; its error is always nil. -/
def MapSlice.MarshalJSON {α : Type} (m : MapSlice α) : List (jsoniter.Write α) :=
  let stream : List (jsoniter.Write α) := []
  let stream := stream ++ [.ObjectStart]
  let stream := MapSlice.marshalJSONLoop stream 0 m
  stream ++ [.ObjectEnd]

/-! ## The schema walker (data_files.go, lines 14-80) -/

/-- A `pgs.File`: `BuildTarget()`, `AllEnums()`, `AllMessages()` and
`Services()`. -/
structure pgs.File where
  BuildTarget : Bool
  AllEnums : List pgs.Enum := []
  AllMessages : List pgs.Message := []
  Services : List pgs.Service := []

/-- A `pgs.Package`: `ProtoName()` and `Files()`. -/
structure pgs.Package where
  ProtoName : Str
  Files : List pgs.File := []

/-- The records that `generatePackage` hands to `EncodeData`. -/
inductive Data where
  | Enum (enum : Enum)
  | Message (message : Message)
  | Service (service : Service)

/-- The interface `Encoder`: `FileExtension()` and `EncodeData`, which answers
the content or the text of its error. -/
structure Encoder where
  FileExtension : Str
  EncodeData : Data → Except Str Str

/-- A call of `generatePackage` on the embedded `pgs.ModuleBase`. The path of
`OverwriteCustomFile` is kept as the elements given to `JoinPath`. -/
inductive ModuleCall where
  | AddError (message : Str)
  | OverwriteCustomFile (path : List Str) (content : Str) (perm : Nat)
  deriving DecidableEq, Repr

/-- The struct `DataFilesModule`: its encoder, and its `pgs.ModuleBase` as the
calls made on it so far, in order. -/
structure DataFilesModule where
  encoder : Encoder
  calls : List ModuleCall := []

/-- The method `AddError` of `pgs.ModuleBase`. -/
def DataFilesModule.AddError (m : DataFilesModule) (message : Str) : DataFilesModule :=
  { m with calls := m.calls ++ [.AddError message] }

/-- The method `OverwriteCustomFile` of `pgs.ModuleBase`. -/
def DataFilesModule.OverwriteCustomFile (m : DataFilesModule) (path : List Str) (content : Str)
    (perm : Nat) : DataFilesModule :=
  { m with calls := m.calls ++ [.OverwriteCustomFile path content perm] }

/-- The loop of `generatePackage` over the enums of a file (lines 52-59). -/
def DataFilesModule.generateEnums (m : DataFilesModule) (basePath : List Str) :
    List pgs.Enum → DataFilesModule
  | [] => m
  | enum :: rest =>
    let m : DataFilesModule :=
      match m.encoder.EncodeData (.Enum (BuildEnum enum)) with
      | .error err => m.AddError err
      | .ok content =>
        let filename := EntityName enum.toEntity ++ ".".toList ++ m.encoder.FileExtension
        m.OverwriteCustomFile (basePath ++ ["enums".toList, filename]) content 0o644
    DataFilesModule.generateEnums m basePath rest

/-- The loop of `generatePackage` over the messages of a file (lines 60-70);
`none` is a panic of `BuildMessage`. -/
def DataFilesModule.generateMessages (m : DataFilesModule) (basePath : List Str) :
    List pgs.Message → Option DataFilesModule
  | [] => some m
  | message :: rest =>
    if message.IsMapEntry then DataFilesModule.generateMessages m basePath rest
    else
      match BuildMessage message with
      | none => none
      | some built =>
        let m : DataFilesModule :=
          match m.encoder.EncodeData (.Message built) with
          | .error err => m.AddError err
          | .ok content =>
            let filename :=
              EntityName message.toEntity ++ ".".toList ++ m.encoder.FileExtension
            m.OverwriteCustomFile (basePath ++ ["messages".toList, filename]) content 0o644
        DataFilesModule.generateMessages m basePath rest

/-- The loop of `generatePackage` over the services of a file (lines 71-78). -/
def DataFilesModule.generateServices (m : DataFilesModule) (basePath : List Str) :
    List pgs.Service → DataFilesModule
  | [] => m
  | service :: rest =>
    let m : DataFilesModule :=
      match m.encoder.EncodeData (.Service (BuildService service)) with
      | .error err => m.AddError err
      | .ok content =>
        let filename := EntityName service.toEntity ++ ".".toList ++ m.encoder.FileExtension
        m.OverwriteCustomFile (basePath ++ ["services".toList, filename]) content 0o644
    DataFilesModule.generateServices m basePath rest

/-- The loop of `generatePackage` over the files of the package (lines 48-79). -/
def DataFilesModule.generateFiles (m : DataFilesModule) (basePath : List Str) :
    List pgs.File → Option DataFilesModule
  | [] => some m
  | file :: rest =>
    if !file.BuildTarget then DataFilesModule.generateFiles m basePath rest
    else
      let m := m.generateEnums basePath file.AllEnums
      match m.generateMessages basePath file.AllMessages with
      | none => none
      | some m =>
        let m := m.generateServices basePath file.Services
        DataFilesModule.generateFiles m basePath rest

/-- The method `DataFilesModule.generatePackage`; `none` is a panic. -/
def DataFilesModule.generatePackage (m : DataFilesModule) (pkg : pgs.Package) :
    Option DataFilesModule :=
  let basePath := ["api".toList, pkg.ProtoName]
  m.generateFiles basePath pkg.Files

/-! ## Example inputs -/

/-- An entity of the package `pkg`, in a file that is generated. -/
def exEntity (name fqn : String) : pgs.Entity :=
  { Name := name.toList, FullyQualifiedName := fqn.toList, PackageProtoName := "pkg".toList,
    BuildTarget := true }

/-- A message of the package `google.protobuf`, in a file that is only
imported, with its well-known type. -/
def exWellKnown (name : String) : pgs.Embed :=
  { Name := name.toList, FullyQualifiedName := ".google.protobuf.".toList ++ name.toList,
    PackageProtoName := "google.protobuf".toList, BuildTarget := false, IsWellKnown := true,
    WellKnownType := name.toList }

/-- The message `pkg.Foo`, which is not a well-known type. -/
def exFoo : pgs.Embed :=
  { exEntity "Foo" ".pkg.Foo" with }

/-- The enum `pkg.Kind`, whose first declared value `FOO_UNSPECIFIED` has the
number 1 and whose second value has the number 0. -/
def exKind : pgs.Enum :=
  { exEntity "Kind" ".pkg.Kind" with
    Values := [
      { exEntity "FOO_UNSPECIFIED" ".pkg.FOO_UNSPECIFIED" with Value := 1 },
      { exEntity "FOO_ZERO" ".pkg.FOO_ZERO" with Value := 0 }] }

/-- The type of a scalar of the given kind. -/
def exScalarElem (t : pgs.ProtoType) : PGSFieldType :=
  { ProtoType := t, IsEmbed := false, IsEnum := false, Enum := { exEntity "" "" with },
    Embed := { exEntity "" "" with } }

/-- The type of an enum `e`. -/
def exEnumElem (e : pgs.Enum) : PGSFieldType :=
  { exScalarElem .EnumT with IsEnum := true, Enum := e }

/-- The type of an embedded message `m`. -/
def exEmbedElem (m : pgs.Embed) : PGSFieldType :=
  { exScalarElem .MessageT with IsEmbed := true, Embed := m }

/-- The type of a singular field of type `t`. -/
def exSingular (t : PGSFieldType) : pgs.FieldType :=
  { t with
    IsRepeated := false
    IsMap := false
    Element := exScalarElem .GroupT
    Key := exScalarElem .GroupT }

/-- The type of a repeated field with elements of type `el`. -/
def exRepeated (t : pgs.ProtoType) (el : PGSFieldType) : pgs.FieldType :=
  { exScalarElem t with
    IsRepeated := true
    IsMap := false
    Element := el
    Key := exScalarElem .GroupT }

/-- The type of a map field with keys of type `key` and values of type `el`. -/
def exMap (key el : PGSFieldType) : pgs.FieldType :=
  { exScalarElem .MessageT with IsRepeated := false, IsMap := true, Element := el, Key := key }

/-- A message `Foo` of a file that declares no package and is only imported. -/
def exNoPackage : pgs.Entity :=
  { Name := "Foo".toList, FullyQualifiedName := ".Foo".toList, PackageProtoName := [],
    BuildTarget := false }

/-- A message `pkg.Foo` of a file that is only imported. -/
def exImported : pgs.Entity :=
  { Name := "Foo".toList, FullyQualifiedName := ".pkg.Foo".toList,
    PackageProtoName := "pkg".toList, BuildTarget := false }

/-- The string field `name` of the message `pkg.Msg`. -/
def exNameField : pgs.Field :=
  { exEntity "name" ".pkg.Msg.name" with Type_ := exSingular (exScalarElem .StringT) }

/-- The message `pkg.Outer.Msg` with the field `name` and a oneof. -/
def exMsg : pgs.Message :=
  { exEntity "Msg" ".pkg.Outer.Msg" with
    Fields := [exNameField]
    OneOfs := [{ exEntity "choice" ".pkg.Outer.Msg.choice" with Fields := [exNameField] }] }

/-- The method `pkg.Svc.Get`. -/
def exMethod : pgs.Method :=
  { exEntity "Get" ".pkg.Svc.Get" with Input := exMsg, Output := exMsg }

/-- The validation rules `repeated: (min_items: 1, items: (string: (max_len:
10)))`. -/
def exRepeatedRules : validate.FieldRules :=
  .mk none (some (.Repeated
    { MinItems := some 1
      Items := some (.mk none (some (.String_ { MaxLen := some 10 }))) }))

/-- A repeated string field `tags` of the message `pkg.Msg` with the rules
`exRepeatedRules`. -/
def exTagsField : pgs.Field :=
  { exEntity "tags" ".pkg.Msg.tags" with
    Type_ := exRepeated .StringT (exScalarElem .StringT)
    Rules := some exRepeatedRules }

/-- The validation rules `string: (max_len: 10)`. -/
def exStringRules : validate.FieldRules :=
  .mk none (some (.String_ { MaxLen := some 10 }))

/-- The validation rules `int32: (const: 5)`. -/
def exInt32Rules : validate.FieldRules :=
  .mk none (some (.Int32 { Const := some 5 }))

/-- The nested message `p.Outer.Inner`. -/
def exInner : pgs.Entity :=
  { Name := "Inner".toList, FullyQualifiedName := ".p.Outer.Inner".toList,
    PackageProtoName := "p".toList, BuildTarget := true }

/-! ## Reference definitions for the HTTP flattening -/

mutual

/-- The depth-first pre-order flattening of a binding, as the specification
words it: the rule of the binding, then the flattened rules of its additional
bindings in declaration order. -/
def flattenBinding (m : Method) : annotations.HttpRule → List HTTPRule
  | .mk pattern body responseBody additionalBindings =>
    buildHTTPRule m pattern body responseBody :: flattenBindings m additionalBindings

/-- The flattening of a list of bindings, one after the other. -/
def flattenBindings (m : Method) : List annotations.HttpRule → List HTTPRule
  | [] => []
  | additional :: rest => flattenBinding m additional ++ flattenBindings m rest

end

mutual

/-- The number of bindings in the tree rooted at a binding. -/
def countBinding : annotations.HttpRule → Nat
  | .mk _ _ _ additionalBindings => 1 + countBindings additionalBindings

/-- The number of bindings in the trees rooted at the bindings of a list. -/
def countBindings : List annotations.HttpRule → Nat
  | [] => 0
  | additional :: rest => countBinding additional + countBindings rest

end

/-- A primary binding `GET /v1/x` with one additional binding `POST /v1/y`. -/
def exHttpRule : annotations.HttpRule :=
  .mk (some (.Get "/v1/x".toList)) [] [] [.mk (some (.Post "/v1/y".toList)) [] [] []]

/-- The method `pkg.Svc.Get` with the binding `exHttpRule`. -/
def exHttpMethod : pgs.Method :=
  { exMethod with Http := some exHttpRule }

/-- A method of the package `pkg` whose input and output message is
`exMsg`, with the field `name`. -/
def exBodyMethod : Method :=
  BuildMethod exMethod

/-- The object entries that a sequence of writes emits: each object field with
the value written right after it, in the order of the writes. -/
def jsoniter.entries {α : Type} : List (jsoniter.Write α) → List (Str × α)
  | [] => []
  | .ObjectField field :: .Val val :: rest => (field, val) :: jsoniter.entries rest
  | _ :: rest => jsoniter.entries rest

/-- A service of the package `pkg` whose methods are declared with the given
names, in this order. -/
def exService (names : List String) : pgs.Service :=
  { exEntity "Svc" ".pkg.Svc" with
    Methods := names.map fun name =>
      { exEntity name (".pkg.Svc." ++ name) with Input := exMsg, Output := exMsg } }

/-- The fifteen scalar kinds. -/
def scalarKinds : List pgs.ProtoType :=
  [.DoubleT, .FloatT, .Int32T, .Int64T, .UInt32T, .UInt64T, .SInt32, .SInt64, .Fixed32T,
    .Fixed64T, .SFixed32, .SFixed64, .BoolT, .StringT, .BytesT]

/-- The number of variants of a `FieldTypeElem` that are populated: its scalar
type name, its enum reference, its message reference. -/
def FieldTypeElem.populated (e : FieldTypeElem) : Nat :=
  (if e.Type_ = [] then 0 else 1) + (if e.Enum = {} then 0 else 1)
    + (if e.Message = {} then 0 else 1)

/-- The enum or the message that a type refers to has a name that is not
empty. -/
def RefNamed (t : PGSFieldType) : Prop :=
  (t.IsEnum = true → EntityName t.Enum.toEntity ≠ []) ∧
    (t.IsEmbed = true → EntityName t.Embed.toEntity ≠ [])

instance (t : PGSFieldType) : Decidable (RefNamed t) :=
  inferInstanceAs (Decidable (_ ∧ _))

/-! ## Reference definitions for the schema walker -/

/-- An entity that the walker visits. -/
inductive Visited where
  | Enum (enum : pgs.Enum)
  | Message (message : pgs.Message)
  | Service (service : pgs.Service)

/-- The entities of a file in the order of the walk: its enums, its messages
that are not map entries, its services. -/
def fileEntities (file : pgs.File) : List Visited :=
  file.AllEnums.map .Enum
    ++ (file.AllMessages.filter fun message => !message.IsMapEntry).map .Message
    ++ file.Services.map .Service

/-- The entities of the build-target files of a list of files, in file
order. -/
def filesEntities (files : List pgs.File) : List Visited :=
  ((files.filter fun file => file.BuildTarget).map fileEntities).flatten

/-- The one outcome of encoding a record: the artifact
`<basePath>/<category>/<name>.<extension>` with the content when the encoder
succeeds, the diagnostic when it fails. -/
def encodeOutcome (encoder : Encoder) (basePath : List Str) (category name : Str)
    (data : Data) : ModuleCall :=
  match encoder.EncodeData data with
  | .error err => .AddError err
  | .ok content =>
    .OverwriteCustomFile (basePath ++ [category, name ++ ".".toList ++ encoder.FileExtension])
      content 0o644

/-- The outcome of a visited entity; `none` when its record cannot be built. -/
def outcome (encoder : Encoder) (basePath : List Str) : Visited → Option ModuleCall
  | .Enum enum =>
    some (encodeOutcome encoder basePath "enums".toList (EntityName enum.toEntity)
      (.Enum (BuildEnum enum)))
  | .Message message =>
    (BuildMessage message).map fun built =>
      encodeOutcome encoder basePath "messages".toList (EntityName message.toEntity)
        (.Message built)
  | .Service service =>
    some (encodeOutcome encoder basePath "services".toList (EntityName service.toEntity)
      (.Service (BuildService service)))

/-- The outcomes of a list of entities, one per entity and in their order;
`none` when one of the records cannot be built. -/
def outcomes (encoder : Encoder) (basePath : List Str) : List Visited → Option (List ModuleCall)
  | [] => some []
  | entity :: rest =>
    match outcome encoder basePath entity with
    | none => none
    | some call => (outcomes encoder basePath rest).map fun calls => call :: calls

/-- The module after further calls. -/
def DataFilesModule.appendCalls (m : DataFilesModule) (calls : List ModuleCall) :
    DataFilesModule :=
  { m with calls := m.calls ++ calls }

/-- An encoder to JSON that cannot encode messages. -/
def exEncoder : Encoder :=
  { FileExtension := "json".toList
    EncodeData := fun data =>
      match data with
      | .Enum _ => .ok "enum".toList
      | .Message _ => .error "unsupported".toList
      | .Service _ => .ok "service".toList }

/-- A map-entry message of the package `pkg`. -/
def exMapEntry : pgs.Message :=
  { exEntity "TagsEntry" ".pkg.Msg.TagsEntry" with IsMapEntry := true }

/-- A package with a build-target file (an enum, a message, a map-entry message
and a service) between two files that are only imported. -/
def exPackage : pgs.Package :=
  { ProtoName := "pkg".toList
    Files := [
      { BuildTarget := false, AllEnums := [exKind], AllMessages := [exMsg] },
      { BuildTarget := true
        AllEnums := [exKind]
        AllMessages := [exMapEntry, exMsg]
        Services := [exService ["A"]] },
      { BuildTarget := false, Services := [exService ["B"]] }] }

/-- An encoder to JSON that encodes every record. -/
def exEncoderOk : Encoder :=
  { FileExtension := "json".toList
    EncodeData := fun data =>
      match data with
      | .Enum _ => .ok "enum".toList
      | .Message _ => .ok "message".toList
      | .Service _ => .ok "service".toList }

/-- A package whose files are only imported. -/
def exImportedPackage : pgs.Package :=
  { ProtoName := "pkg".toList
    Files := [{ BuildTarget := false, AllEnums := [exKind], AllMessages := [exMsg] }] }

/-! ## Reference definition for the numeric rules -/

/-- The one comparison extractor of the numeric rules, as the specification
words it, over the Go type `t` of the values: `Const`, `Lt`, `Lte`, `Gt`, `Gte`,
`In` and `NotIn` take the value of the source when the source has it and keep
their value otherwise, `IgnoreEmpty` takes the flag of the source, and no other
field changes. -/
def addNumericRules (t : NumType) (f : FieldRules) (src : validate.NumericRules) : FieldRules :=
  { f with
    Const := match src.Const with
      | some v => .numPtr t v
      | none => f.Const
    Lt := match src.Lt with
      | some v => .numPtr t v
      | none => f.Lt
    Lte := match src.Lte with
      | some v => .numPtr t v
      | none => f.Lte
    Gt := match src.Gt with
      | some v => .numPtr t v
      | none => f.Gt
    Gte := match src.Gte with
      | some v => .numPtr t v
      | none => f.Gte
    In := match src.In with
      | some vs => .nums t vs
      | none => f.In
    NotIn := match src.NotIn with
      | some vs => .nums t vs
      | none => f.NotIn
    IgnoreEmpty := src.GetIgnoreEmpty }

/-- The type of a singular field of an enum without values. -/
def exEmptyEnumField : pgs.FieldType :=
  exSingular (exEnumElem { exEntity "Empty" ".pkg.Empty" with })

/-- The validation rules `enum: (defined_only: true)` with `message:
(required: true)`. -/
def exEnumMessageRules : validate.FieldRules :=
  .mk (some { Required := some true }) (some (.Enum { DefinedOnly := some true }))

/-- The rule groups that `FieldRules.AddFieldRules` applies after the message
group (lines 602-610): any, duration and timestamp. -/
def validate.afterMessage {α : Type} : Option (validate.FieldRules_Type α) → Bool
  | some (.Any _) => true
  | some (.Duration _) => true
  | some (.Timestamp _) => true
  | _ => false

/-- The validation rules `enum: (defined_only: true, const: 1, in: [1, 2],
not_in: [3])` with `message: (skip: true, required: true)`. -/
def exEnumFullRules : validate.FieldRules :=
  .mk (some { Skip := some true, Required := some true })
    (some (.Enum
      { DefinedOnly := some true, Const := some 1, In := some [1, 2], NotIn := some [3] }))

/-- The validation rules `any: (in: ["a"])` with `message: (skip: true,
required: true)`. -/
def exAnyMessageRules : validate.FieldRules :=
  .mk (some { Skip := some true, Required := some true })
    (some (.Any { In := some ["a".toList] }))

/-! ## Theorems -/

theorem hasPrefix_space_cons (c : Char) (cs : Str) :
    HasPrefix (c :: cs) [' '] = decide (c = ' ') := by
  by_cases h : c = ' '
  · subst h
    simp [HasPrefix, List.isPrefixOf]
  · have h2 : ¬ ' ' = c := fun e => h e.symm
    simp [HasPrefix, List.isPrefixOf, h, h2]

theorem hasLeadingSpace_eq_all (ls : List Str) :
    hasLeadingSpace ls = ls.all fun l => l.isEmpty || l.head? == some ' ' := by
  induction ls with
  | nil => rfl
  | cons l rest ih =>
    cases l with
    | nil => simp [hasLeadingSpace, ih]
    | cons c cs =>
      by_cases h : c = ' '
      · subst h
        simp [hasLeadingSpace, hasPrefix_space_cons, ih]
      · simp [hasLeadingSpace, hasPrefix_space_cons, h]

theorem trimPrefix_space (l : Str) : TrimPrefix l " ".toList = stripOneSpace l := by
  cases l with
  | nil => rfl
  | cons c cs =>
    by_cases h : c = ' '
    · subst h
      simp [TrimPrefix, hasPrefix_space_cons, stripOneSpace]
    · have hs : stripOneSpace (c :: cs) = c :: cs := by
        unfold stripOneSpace
        split
        · rename_i heq
          exact absurd (List.cons.inj heq).1 h
        · rfl
      simp [TrimPrefix, hasPrefix_space_cons, h, hs]

/-- C1: `cleanComments` equals the all-or-nothing reference definition on every
comment text, and the lines " note", "more" give " note\nmore". -/
theorem cleanComments_eq_spec :
    (∀ c : Str, cleanComments c = cleanCommentsSpec c) ∧
      cleanComments " note\nmore".toList = " note\nmore".toList := by
  refine ⟨fun c => ?_, by decide⟩
  have hmap : (Split c '\n').map (fun line => TrimPrefix line " ".toList)
      = (Split c '\n').map stripOneSpace :=
    List.map_congr_left fun l _ => trimPrefix_space l
  unfold cleanComments cleanCommentsSpec
  simp only [hasLeadingSpace_eq_all, hmap]
  cases (Split c '\n').all fun l => l.isEmpty || l.head? == some ' ' <;> simp

/-! ### Defaults -/

/-- C4: on a singular embedded-message field, `BuildFieldDefault` returns null
when the message is a well-known type whose name ends in "Value" or is the Any
well-known type, "0s" when it is Duration and "0001-01-01T00:00:00Z" when it is
Timestamp. -/
theorem BuildFieldDefault_wellKnown (src : pgs.FieldType) (hrep : src.IsRepeated = false)
    (hmap : src.IsMap = false) (henum : src.IsEnum = false) (hembed : src.IsEmbed = true) :
    (src.Embed.IsWellKnown = true → HasSuffix src.Embed.WellKnownType "Value".toList = true →
        BuildFieldDefault src = some .null) ∧
      (src.Embed.WellKnownType = pgs.AnyWKT → BuildFieldDefault src = some .null) ∧
      (src.Embed.WellKnownType = pgs.DurationWKT →
        BuildFieldDefault src = some (.string "0s".toList)) ∧
      (src.Embed.WellKnownType = pgs.TimestampWKT →
        BuildFieldDefault src = some (.string "0001-01-01T00:00:00Z".toList)) := by
  refine ⟨?_, ?_, ?_, ?_⟩
  · intro hwk hsuf
    simp only [BuildFieldDefault, hrep, hmap, henum, hembed, hwk, hsuf]
    rfl
  · intro h
    have hs : HasSuffix pgs.AnyWKT "Value".toList = false := by decide
    simp only [BuildFieldDefault, hrep, hmap, henum, hembed, h, hs]
    simp
  · intro h
    have hs : HasSuffix pgs.DurationWKT "Value".toList = false := by decide
    have h1 : pgs.DurationWKT ≠ pgs.AnyWKT := by decide
    simp only [BuildFieldDefault, hrep, hmap, henum, hembed, h, hs]
    simp [h1]
  · intro h
    have hs : HasSuffix pgs.TimestampWKT "Value".toList = false := by decide
    have h1 : pgs.TimestampWKT ≠ pgs.AnyWKT := by decide
    have h2 : pgs.TimestampWKT ≠ pgs.DurationWKT := by decide
    simp only [BuildFieldDefault, hrep, hmap, henum, hembed, h, hs]
    simp [h1, h2]

/-- C4, at the fields of type `Int32Value`, `Any`, `Duration` and `Timestamp`. -/
theorem BuildFieldDefault_wellKnown_witness :
    BuildFieldDefault (exSingular (exEmbedElem (exWellKnown "Int32Value"))) = some .null ∧
      BuildFieldDefault (exSingular (exEmbedElem (exWellKnown "Any"))) = some .null ∧
      BuildFieldDefault (exSingular (exEmbedElem (exWellKnown "Duration")))
        = some (.string "0s".toList) ∧
      BuildFieldDefault (exSingular (exEmbedElem (exWellKnown "Timestamp")))
        = some (.string "0001-01-01T00:00:00Z".toList) :=
  ⟨(BuildFieldDefault_wellKnown (exSingular (exEmbedElem (exWellKnown "Int32Value")))
      rfl rfl rfl rfl).1 rfl (by decide),
    (BuildFieldDefault_wellKnown (exSingular (exEmbedElem (exWellKnown "Any")))
      rfl rfl rfl rfl).2.1 rfl,
    (BuildFieldDefault_wellKnown (exSingular (exEmbedElem (exWellKnown "Duration")))
      rfl rfl rfl rfl).2.2.1 rfl,
    (BuildFieldDefault_wellKnown (exSingular (exEmbedElem (exWellKnown "Timestamp")))
      rfl rfl rfl rfl).2.2.2 rfl⟩

/-- C5: on a singular enum field whose enum declares at least one value,
`BuildFieldDefault` returns the name of the first declared value, whatever
numbers the values carry. -/
theorem BuildFieldDefault_enum (src : pgs.FieldType) (first : pgs.EnumValue)
    (others : List pgs.EnumValue) (hrep : src.IsRepeated = false) (hmap : src.IsMap = false)
    (henum : src.IsEnum = true) (hvalues : src.Enum.Values = first :: others) :
    BuildFieldDefault src = some (.string first.Name) := by
  simp [BuildFieldDefault, hrep, hmap, henum, hvalues]

/-- C5, at an enum whose first value `FOO_UNSPECIFIED` has the number 1 and
whose second value has the number 0. -/
theorem BuildFieldDefault_enum_witness :
    BuildFieldDefault (exSingular (exEnumElem exKind))
      = some (.string "FOO_UNSPECIFIED".toList) :=
  BuildFieldDefault_enum (exSingular (exEnumElem exKind)) _ _ rfl rfl rfl rfl

/-- C6: `BuildFieldDefault` returns the empty sequence for every repeated field
and the empty mapping for every map field (a type that answers `IsMap()` and
not `IsRepeated()`, as the map types of pgs do), whatever the element, key and
value types are. -/
theorem BuildFieldDefault_container (src : pgs.FieldType) :
    (src.IsRepeated = true → BuildFieldDefault src = some .emptySeq) ∧
      (src.IsRepeated = false → src.IsMap = true → BuildFieldDefault src = some .emptyMap) := by
  constructor
  · intro hrep
    simp [BuildFieldDefault, hrep]
  · intro hrep hmap
    simp [BuildFieldDefault, hrep, hmap]

/-- C6, at a repeated enum, a repeated Timestamp, a repeated string and a map
from strings to messages. -/
theorem BuildFieldDefault_container_witness :
    BuildFieldDefault (exRepeated .EnumT (exEnumElem exKind)) = some .emptySeq ∧
      BuildFieldDefault (exRepeated .MessageT (exEmbedElem (exWellKnown "Timestamp")))
        = some .emptySeq ∧
      BuildFieldDefault (exRepeated .StringT (exScalarElem .StringT)) = some .emptySeq ∧
      BuildFieldDefault (exMap (exScalarElem .StringT) (exEmbedElem exFoo)) = some .emptyMap :=
  ⟨(BuildFieldDefault_container (exRepeated .EnumT (exEnumElem exKind))).1 rfl,
    (BuildFieldDefault_container
      (exRepeated .MessageT (exEmbedElem (exWellKnown "Timestamp")))).1 rfl,
    (BuildFieldDefault_container (exRepeated .StringT (exScalarElem .StringT))).1 rfl,
    (BuildFieldDefault_container (exMap (exScalarElem .StringT) (exEmbedElem exFoo))).2 rfl rfl⟩

/-- C7: on a singular field that is neither an enum nor an embedded message,
`BuildFieldDefault` returns `ProtoTypeDefault` of its kind, which is the
numeric zero for the twelve numeric kinds, false for bool, the empty string for
string and the empty byte sequence for bytes. -/
theorem BuildFieldDefault_scalar (src : pgs.FieldType) (hrep : src.IsRepeated = false)
    (hmap : src.IsMap = false) (henum : src.IsEnum = false) (hembed : src.IsEmbed = false) :
    BuildFieldDefault src = ProtoTypeDefault src.ProtoType ∧
      ProtoTypeDefault .DoubleT = some (.num .float64 0) ∧
      ProtoTypeDefault .FloatT = some (.num .float32 0) ∧
      ProtoTypeDefault .Int32T = some (.num .int32 0) ∧
      ProtoTypeDefault .Int64T = some (.num .int64 0) ∧
      ProtoTypeDefault .UInt32T = some (.num .uint32 0) ∧
      ProtoTypeDefault .UInt64T = some (.num .uint64 0) ∧
      ProtoTypeDefault .SInt32 = some (.num .int32 0) ∧
      ProtoTypeDefault .SInt64 = some (.num .int64 0) ∧
      ProtoTypeDefault .Fixed32T = some (.num .uint32 0) ∧
      ProtoTypeDefault .Fixed64T = some (.num .uint64 0) ∧
      ProtoTypeDefault .SFixed32 = some (.num .int32 0) ∧
      ProtoTypeDefault .SFixed64 = some (.num .int64 0) ∧
      ProtoTypeDefault .BoolT = some (.bool false) ∧
      ProtoTypeDefault .StringT = some (.string []) ∧
      ProtoTypeDefault .BytesT = some (.bytes []) := by
  refine ⟨?_, rfl, rfl, rfl, rfl, rfl, rfl, rfl, rfl, rfl, rfl, rfl, rfl, rfl, rfl, rfl⟩
  simp [BuildFieldDefault, hrep, hmap, henum, hembed]

/-- C7, at an int32 field, whose default is 0. -/
theorem BuildFieldDefault_scalar_witness :
    BuildFieldDefault (exSingular (exScalarElem .Int32T)) = some (.num .int32 0) :=
  (BuildFieldDefault_scalar (exSingular (exScalarElem .Int32T)) rfl rfl rfl rfl).1

/-- C8, as stated, fails: the field of type `google.protobuf.Value` is a
singular embedded-message field whose message is none of the nine scalar
wrappers, nor Any, Duration or Timestamp, and its default is null, not the
empty structure. The same holds for `ListValue`. -/
theorem BuildFieldDefault_value_null :
    (exSingular (exEmbedElem (exWellKnown "Value"))).IsRepeated = false ∧
      (exSingular (exEmbedElem (exWellKnown "Value"))).IsMap = false ∧
      (exSingular (exEmbedElem (exWellKnown "Value"))).IsEnum = false ∧
      (exSingular (exEmbedElem (exWellKnown "Value"))).IsEmbed = true ∧
      (exWellKnown "Value").WellKnownType ∉
        ["DoubleValue", "FloatValue", "Int32Value", "Int64Value", "UInt32Value", "UInt64Value",
          "BoolValue", "StringValue", "BytesValue", "Any", "Duration", "Timestamp"].map
          String.toList ∧
      BuildFieldDefault (exSingular (exEmbedElem (exWellKnown "Value"))) = some .null ∧
      BuildFieldDefault (exSingular (exEmbedElem (exWellKnown "ListValue"))) = some .null ∧
      BuildFieldDefault (exSingular (exEmbedElem (exWellKnown "Value"))) ≠ some .emptyMap := by
  decide

/-- C8, amended: on a singular embedded-message field whose message is not a
well-known type with a name ending in "Value", and is not Any, Duration or
Timestamp, `BuildFieldDefault` returns the empty structure. -/
theorem BuildFieldDefault_message (src : pgs.FieldType) (hrep : src.IsRepeated = false)
    (hmap : src.IsMap = false) (henum : src.IsEnum = false) (hembed : src.IsEmbed = true)
    (hvalue : ¬ (src.Embed.IsWellKnown = true ∧
      HasSuffix src.Embed.WellKnownType "Value".toList = true))
    (hany : src.Embed.WellKnownType ≠ pgs.AnyWKT)
    (hduration : src.Embed.WellKnownType ≠ pgs.DurationWKT)
    (htimestamp : src.Embed.WellKnownType ≠ pgs.TimestampWKT) :
    BuildFieldDefault src = some .emptyMap := by
  have hv : (src.Embed.IsWellKnown && HasSuffix src.Embed.WellKnownType "Value".toList) = false := by
    cases h1 : src.Embed.IsWellKnown <;> cases h2 : HasSuffix src.Embed.WellKnownType "Value".toList
      <;> simp_all
  simp only [BuildFieldDefault, hrep, hmap, henum, hembed, hv]
  simp [hany, hduration, htimestamp]

/-- C8 amended, at an ordinary message and at the well-known types `Empty` and
`Struct`. -/
theorem BuildFieldDefault_message_witness :
    BuildFieldDefault (exSingular (exEmbedElem exFoo)) = some .emptyMap ∧
      BuildFieldDefault (exSingular (exEmbedElem (exWellKnown "Empty"))) = some .emptyMap ∧
      BuildFieldDefault (exSingular (exEmbedElem (exWellKnown "Struct"))) = some .emptyMap :=
  ⟨BuildFieldDefault_message (exSingular (exEmbedElem exFoo)) rfl rfl rfl rfl
      (by decide) (by decide) (by decide) (by decide),
    BuildFieldDefault_message (exSingular (exEmbedElem (exWellKnown "Empty"))) rfl rfl rfl rfl
      (by decide) (by decide) (by decide) (by decide),
    BuildFieldDefault_message (exSingular (exEmbedElem (exWellKnown "Struct"))) rfl rfl rfl rfl
      (by decide) (by decide) (by decide) (by decide)⟩

/-! ### References and names -/

/-- C9, as stated, fails: a message of an imported file that declares no
package is not a build target, and the package of its reference is empty. -/
theorem BuildRef_package_not_iff :
    ¬ ((BuildRef exNoPackage).Package = [] ↔ exNoPackage.BuildTarget = true) := by
  decide

/-- C9, amended: the package of `BuildRef e` is empty if and only if `e` is a
build target or the package proto name of `e` is empty; it is empty for a build
target and the package proto name of `e` otherwise; the name of the reference
is `EntityName e`. -/
theorem BuildRef_package (e : pgs.Entity) :
    ((BuildRef e).Package = [] ↔ (e.BuildTarget = true ∨ e.PackageProtoName = [])) ∧
      (BuildRef e).Package = (if e.BuildTarget then [] else e.PackageProtoName) ∧
      (BuildRef e).Name = EntityName e := by
  cases h : e.BuildTarget <;> simp [BuildRef, h]

theorem BuildRef_name_eq (e : pgs.Entity) : (BuildRef e).Name = EntityName e := by
  cases h : e.BuildTarget <;> simp [BuildRef, h]

theorem foldl_enum_entity (values : List pgs.EnumValue) (enum : Enum) :
    (values.foldl
      (fun (enum : Enum) value => { enum with Values := enum.Values ++ [BuildEnumValue value] })
      enum).toEntity = enum.toEntity := by
  induction values generalizing enum with
  | nil => rfl
  | cons v vs ih => rw [List.foldl_cons, ih]

theorem foldl_oneof_entity (fields : List pgs.Field) (oneof : OneOf) :
    (fields.foldl
      (fun (oneof : OneOf) field => { oneof with FieldNames := oneof.FieldNames ++ [field.Name] })
      oneof).toEntity = oneof.toEntity := by
  induction fields generalizing oneof with
  | nil => rfl
  | cons v vs ih => rw [List.foldl_cons, ih]

theorem foldl_message_entity (oneofs : List pgs.OneOf) (message : Message) :
    (oneofs.foldl
      (fun (message : Message) oneof =>
        { message with OneOfs := message.OneOfs ++ [BuildOneOf oneof] })
      message).toEntity = message.toEntity := by
  induction oneofs generalizing message with
  | nil => rfl
  | cons v vs ih => rw [List.foldl_cons, ih]

theorem foldl_service_entity (methods : List pgs.Method) (service : Service) :
    (methods.foldl
      (fun (service : Service) method =>
        { service with
          Methods := service.Methods ++ [{ Key := method.Name, Value := BuildMethod method }] })
      service).toEntity = service.toEntity := by
  induction methods generalizing service with
  | nil => rfl
  | cons v vs ih => rw [List.foldl_cons, ih]

mutual

theorem addHTTPRule_entity (m : Method) :
    ∀ src : annotations.HttpRule, (m.addHTTPRule src).toEntity = m.toEntity
  | .mk pattern body responseBody additionalBindings => by
    rw [Method.addHTTPRule, addHTTPRuleList_entity _ additionalBindings]

theorem addHTTPRuleList_entity (m : Method) :
    ∀ bindings : List annotations.HttpRule, (m.addHTTPRuleList bindings).toEntity = m.toEntity
  | [] => by rw [Method.addHTTPRuleList]
  | additional :: rest => by
    rw [Method.addHTTPRuleList, addHTTPRuleList_entity _ rest, addHTTPRule_entity _ additional]

end

theorem BuildMethod_entity (src : pgs.Method) :
    (BuildMethod src).toEntity = BuildEntity src.toEntity := by
  unfold BuildMethod
  cases src.Http with
  | none => rfl
  | some r => simp only [Method.AddHTTPRules, addHTTPRule_entity]

theorem AddFieldRules_entity (f : Field) (src : Option validate.FieldRules) :
    (f.AddFieldRules src).toEntity = f.toEntity := by
  unfold Field.AddFieldRules
  cases src with
  | none => rfl
  | some src =>
    simp only
    split <;> split <;> rfl

theorem BuildField_name (src : pgs.Field) (f : Field) (h : BuildField src = some f) :
    f.Name = src.Name := by
  unfold BuildField at h
  cases h1 : BuildFieldType src.Type_ with
  | none => simp [h1] at h
  | some fieldType =>
    cases h2 : BuildFieldDefault src.Type_ with
    | none => simp [h1, h2] at h
    | some default =>
      cases h3 : src.Rules with
      | none =>
        simp [h1, h2, h3] at h
        rw [← h]
        rfl
      | some rules =>
        simp [h1, h2, h3] at h
        rw [← h]
        show (Field.AddFieldRules _ _).toEntity.Name = _
        rw [AddFieldRules_entity]
        rfl

theorem BuildMessage_name (src : pgs.Message) (m : Message) (h : BuildMessage src = some m) :
    m.Name = EntityName src.toEntity := by
  unfold BuildMessage at h
  cases h1 : src.Fields.mapM BuildField with
  | none =>
    rw [h1] at h
    exact absurd h (by simp)
  | some fields =>
    rw [h1] at h
    have h2 := congrArg (fun o => o.map fun (m : Message) => m.toEntity) h
    simp only [Option.map_some', foldl_message_entity, Option.some.injEq] at h2
    rw [← h2]

/-- C10, as stated, fails: the record that `BuildField` produces for the field
`name` of the message `pkg.Msg` is named `name`, the bare local identifier,
while `EntityName` of the field is `Msg.name`; the record of `BuildMethod` for
the method `pkg.Svc.Get` is named `Get`, not `Svc.Get`. -/
theorem BuildField_name_not_entityName :
    (BuildField exNameField).map (fun f => f.Name) = some "name".toList ∧
      EntityName exNameField.toEntity = "Msg.name".toList ∧
      (BuildMethod exMethod).Name = "Get".toList ∧
      EntityName exMethod.toEntity = "Svc.Get".toList := by
  decide

/-- C10, amended: the records of `BuildEnum` and `BuildMessage` are named
`EntityName src`, the package-relative dotted path; the records of
`BuildEnumValue`, `BuildField`, `BuildOneOf`, `BuildService` and `BuildMethod`
are named `src.Name()`, the local identifier. -/
theorem builders_name :
    (∀ src : pgs.Enum, (BuildEnum src).Name = EntityName src.toEntity) ∧
      (∀ (src : pgs.Message) (m : Message), BuildMessage src = some m →
        m.Name = EntityName src.toEntity) ∧
      (∀ src : pgs.EnumValue, (BuildEnumValue src).Name = src.Name) ∧
      (∀ (src : pgs.Field) (f : Field), BuildField src = some f → f.Name = src.Name) ∧
      (∀ src : pgs.OneOf, (BuildOneOf src).Name = src.Name) ∧
      (∀ src : pgs.Service, (BuildService src).Name = src.Name) ∧
      (∀ src : pgs.Method, (BuildMethod src).Name = src.Name) := by
  refine ⟨?_, BuildMessage_name, fun _ => rfl, BuildField_name, ?_, ?_, ?_⟩
  · intro src
    simp only [BuildEnum, foldl_enum_entity]
  · intro src
    simp only [BuildOneOf, foldl_oneof_entity]
    rfl
  · intro src
    simp only [BuildService, foldl_service_entity]
    rfl
  · intro src
    show (BuildMethod src).toEntity.Name = _
    rw [BuildMethod_entity]
    rfl

/-- C10 amended, at the message `pkg.Outer.Msg` and its field `name`, which
both build: the message is named `Outer.Msg` and the field `name`. -/
theorem builders_name_witness :
    (BuildMessage exMsg).map (fun m => m.Name) = some "Outer.Msg".toList ∧
      (BuildField exNameField).map (fun f => f.Name) = some "name".toList := by
  have hm : (BuildMessage exMsg).isSome = true := by decide
  have hf : (BuildField exNameField).isSome = true := by decide
  obtain ⟨m, hm⟩ := Option.isSome_iff_exists.mp hm
  obtain ⟨f, hf⟩ := Option.isSome_iff_exists.mp hf
  have h1 := builders_name.2.1 exMsg m hm
  have h2 := builders_name.2.2.2.1 exNameField f hf
  rw [hm, hf, Option.map_some', Option.map_some', h1, h2]
  decide

/-! ### Validation rules -/

theorem AddFieldRules_repeated_variant (f : FieldRules) (msg : Option validate.MessageRules)
    (r : validate.RepeatedRules validate.FieldRules) (t : PGSFieldType) :
    f.AddFieldRules (some (.mk msg (some (.Repeated r)))) t
      = match msg with
        | some rules => if t.IsEmbed then f.addMessageRules rules else f
        | none => f := by
  cases msg <;> rfl

theorem AddFieldRules_string_variant (f : FieldRules) (msg : Option validate.MessageRules)
    (r : validate.StringRules) (t : PGSFieldType) :
    f.AddFieldRules (some (.mk msg (some (.String_ r)))) t
      = match msg with
        | some rules =>
          if t.IsEmbed then (f.addStringRules r).addMessageRules rules else f.addStringRules r
        | none => f.addStringRules r := by
  cases msg <;> rfl

theorem addStringRules_proj (f : FieldRules) (r : validate.StringRules) :
    (f.addStringRules r).MaxLen = r.GetMaxLen ∧ (f.addStringRules r).MinItems = f.MinItems := by
  unfold FieldRules.addStringRules
  cases r.Const <;> cases r.Prefix <;> cases r.Suffix <;> cases r.Contains <;>
    cases r.NotContains <;> cases r.In <;> cases r.NotIn <;> exact ⟨rfl, rfl⟩

theorem Field_AddFieldRules_repeated (f : Field) (e : FieldTypeElem)
    (msg : Option validate.MessageRules) (r : validate.RepeatedRules validate.FieldRules)
    (hrep : f.Repeated = some e) :
    (f.AddFieldRules (some (.mk msg (some (.Repeated r))))).Repeated
        = some { e with Rules := e.Rules.AddFieldRules r.GetItems f.src.Type_.Element } ∧
      (f.AddFieldRules (some (.mk msg (some (.Repeated r))))).Rules
        = FieldRules.AddFieldRules
            { f.Rules with
              MinItems := r.GetMinItems
              MaxItems := r.GetMaxItems
              Unique := r.GetUnique
              IgnoreEmpty := r.GetIgnoreEmpty }
            (some (.mk msg (some (.Repeated r)))) f.src.Type_.toPGSFieldType := by
  constructor <;>
    simp only [Field.AddFieldRules, validate.FieldRules.GetRepeated, validate.FieldRules.GetMap,
      validate.FieldRules.Type_, hrep]

/-- C2: for a repeated string field whose extension carries repeated rules
with `min_items = n` and, as their items rule, string rules with `max_len = k`,
the field is built, `Rules.MinItems = n` is at the level of the field, and
`Rules.MaxLen = k` is on the repeated element only: the `MaxLen` of the field
is 0 and the `MinItems` of the element is 0. -/
theorem AddFieldRules_scoping (src : pgs.Field) (msg msgItems : Option validate.MessageRules)
    (r : validate.RepeatedRules validate.FieldRules) (sr : validate.StringRules) (n k : Nat)
    (hrep : src.Type_.IsRepeated = true)
    (helEnum : src.Type_.Element.IsEnum = false)
    (helEmbed : src.Type_.Element.IsEmbed = false)
    (helType : src.Type_.Element.ProtoType = .StringT)
    (hrules : src.Rules = some (.mk msg (some (.Repeated r))))
    (hmin : r.MinItems = some n)
    (hitems : r.Items = some (.mk msgItems (some (.String_ sr))))
    (hmax : sr.MaxLen = some k) :
    ∃ f e, BuildField src = some f ∧ f.Repeated = some e ∧
      f.Rules.MinItems = n ∧ f.Rules.MaxLen = 0 ∧ e.Rules.MaxLen = k ∧ e.Rules.MinItems = 0 := by
  have hel : BuildFieldTypeElem src.Type_.Element
      = some { Type_ := "string".toList } := by
    simp [BuildFieldTypeElem, helEnum, helEmbed, helType, ProtoTypeString]
  have hty : BuildFieldType src.Type_
      = some { Repeated := some { Type_ := "string".toList } } := by
    simp [BuildFieldType, hrep, hel]
  have hdef : BuildFieldDefault src.Type_ = some .emptySeq := by
    simp [BuildFieldDefault, hrep]
  have hbuild : BuildField src = some (Field.AddFieldRules
      { toEntity := BuildEntity src.toEntity
        toFieldType := { Repeated := some { Type_ := "string".toList } }
        Default := .emptySeq
        src := src }
      (some (.mk msg (some (.Repeated r))))) := by
    simp only [BuildField, hty, hdef, hrules, Option.bind_eq_bind, Option.some_bind, pure]
  obtain ⟨h1, h2⟩ := Field_AddFieldRules_repeated
    { toEntity := BuildEntity src.toEntity
      toFieldType := { Repeated := some { Type_ := "string".toList } }
      Default := .emptySeq
      src := src } { Type_ := "string".toList } msg r rfl
  refine ⟨_, _, hbuild, h1, ?_, ?_, ?_, ?_⟩
  · rw [h2, AddFieldRules_repeated_variant]
    cases msg with
    | none => simp [validate.RepeatedRules.GetMinItems, hmin]
    | some m =>
      cases src.Type_.IsEmbed <;>
        simp [validate.RepeatedRules.GetMinItems, hmin, FieldRules.addMessageRules]
  · rw [h2, AddFieldRules_repeated_variant]
    cases msg with
    | none => rfl
    | some m => cases src.Type_.IsEmbed <;> rfl
  · simp only [validate.RepeatedRules.GetItems, hitems, AddFieldRules_string_variant, helEmbed]
    cases msgItems <;>
      simp [(addStringRules_proj _ sr).1, validate.StringRules.GetMaxLen, hmax]
  · simp only [validate.RepeatedRules.GetItems, hitems, AddFieldRules_string_variant, helEmbed]
    cases msgItems <;> simp [(addStringRules_proj _ sr).2]

/-- C2, at `n = 1` and `k = 10`: the repeated string field `tags` with the rules
`repeated: (min_items: 1, items: (string: (max_len: 10)))`. -/
theorem AddFieldRules_scoping_witness :
    ∃ f e, BuildField exTagsField = some f ∧ f.Repeated = some e ∧
      f.Rules.MinItems = 1 ∧ f.Rules.MaxLen = 0 ∧ e.Rules.MaxLen = 10 ∧ e.Rules.MinItems = 0 :=
  AddFieldRules_scoping exTagsField none none _ _ 1 10 rfl rfl rfl rfl rfl rfl rfl rfl

/-- C3, as stated, fails: string rules with `max_len = 10` given to
`FieldRules.AddFieldRules` with the type of an int32 field change the empty
Rules record (its `MaxLen` becomes 10), and int32 rules with `const = 5` given
with the type of a string field change it too. -/
theorem AddFieldRules_other_kind_changes :
    FieldRules.AddFieldRules {} (some exStringRules) (exScalarElem .Int32T) ≠ {} ∧
      (FieldRules.AddFieldRules {} (some exStringRules) (exScalarElem .Int32T)).MaxLen = 10 ∧
      FieldRules.AddFieldRules {} (some exInt32Rules) (exScalarElem .StringT) ≠ {} ∧
      (FieldRules.AddFieldRules {} (some exInt32Rules) (exScalarElem .StringT)).Const
        = .numPtr .int32 5 := by
  refine ⟨fun h => ?_, by decide, fun h => ?_, by decide⟩
  · exact absurd (congrArg FieldRules.MaxLen h) (by decide)
  · exact absurd (congrArg FieldRules.Const h) (by decide)

/-- C3, amended: `FieldRules.AddFieldRules` applies the scalar-kind rule variant
that is set in the extension without asking the type `t` for its base type: the
result is the same for two types that agree on `IsEnum()` and `IsEmbed()`, and
for every record, every type `t` and every extension that sets one scalar-kind
variant and no message rules, the result is what the adder of that variant
gives. -/
theorem AddFieldRules_scalar_variant (f : FieldRules) (t : PGSFieldType) :
    (∀ (src : Option validate.FieldRules) (u : PGSFieldType), t.IsEnum = u.IsEnum →
        t.IsEmbed = u.IsEmbed → f.AddFieldRules src t = f.AddFieldRules src u) ∧
      (∀ r, f.AddFieldRules (some (.mk none (some (.Float r)))) t = f.addFloatRules r) ∧
      (∀ r, f.AddFieldRules (some (.mk none (some (.Double r)))) t = f.addDoubleRules r) ∧
      (∀ r, f.AddFieldRules (some (.mk none (some (.Int32 r)))) t = f.addInt32Rules r) ∧
      (∀ r, f.AddFieldRules (some (.mk none (some (.Int64 r)))) t = f.addInt64Rules r) ∧
      (∀ r, f.AddFieldRules (some (.mk none (some (.Uint32 r)))) t = f.addUint32Rules r) ∧
      (∀ r, f.AddFieldRules (some (.mk none (some (.Uint64 r)))) t = f.addUint64Rules r) ∧
      (∀ r, f.AddFieldRules (some (.mk none (some (.Sint32 r)))) t = f.addSint32Rules r) ∧
      (∀ r, f.AddFieldRules (some (.mk none (some (.Sint64 r)))) t = f.addSint64Rules r) ∧
      (∀ r, f.AddFieldRules (some (.mk none (some (.Fixed32 r)))) t = f.addFixed32Rules r) ∧
      (∀ r, f.AddFieldRules (some (.mk none (some (.Fixed64 r)))) t = f.addFixed64Rules r) ∧
      (∀ r, f.AddFieldRules (some (.mk none (some (.Sfixed32 r)))) t = f.addSfixed32Rules r) ∧
      (∀ r, f.AddFieldRules (some (.mk none (some (.Sfixed64 r)))) t = f.addSfixed64Rules r) ∧
      (∀ r, f.AddFieldRules (some (.mk none (some (.Bool_ r)))) t = f.addBoolRules r) ∧
      (∀ r, f.AddFieldRules (some (.mk none (some (.String_ r)))) t = f.addStringRules r) ∧
      (∀ r, f.AddFieldRules (some (.mk none (some (.Bytes r)))) t = f.addBytesRules r) :=
  ⟨fun src u h1 h2 => by cases src <;> simp only [FieldRules.AddFieldRules, h1, h2],
    fun _ => rfl, fun _ => rfl, fun _ => rfl, fun _ => rfl, fun _ => rfl, fun _ => rfl,
    fun _ => rfl, fun _ => rfl, fun _ => rfl, fun _ => rfl, fun _ => rfl, fun _ => rfl,
    fun _ => rfl, fun _ => rfl, fun _ => rfl⟩

/-- C3 amended, at string rules: the type of an int32 field and the type of a
string field give the same record, the one of `addStringRules`. -/
theorem AddFieldRules_scalar_variant_witness :
    FieldRules.AddFieldRules {} (some exStringRules) (exScalarElem .Int32T)
        = FieldRules.AddFieldRules {} (some exStringRules) (exScalarElem .StringT) ∧
      FieldRules.AddFieldRules {} (some exStringRules) (exScalarElem .Int32T)
        = FieldRules.addStringRules {} { MaxLen := some 10 } :=
  ⟨(AddFieldRules_scalar_variant {} (exScalarElem .Int32T)).1 _ (exScalarElem .StringT) rfl rfl,
    (AddFieldRules_scalar_variant {} (exScalarElem .Int32T)).2.2.2.2.2.2.2.2.2.2.2.2.2.2.1 _⟩

/-! ### Short names -/

theorem hasPrefix_iff (s pre : Str) : HasPrefix s pre = true ↔ pre ++ s.drop pre.length = s := by
  unfold HasPrefix
  rw [List.isPrefixOf_iff_prefix, List.prefix_iff_eq_append]

theorem trimPrefix_append (pre r : Str) : TrimPrefix (pre ++ r) pre = r := by
  have h : HasPrefix (pre ++ r) pre = true := by
    rw [hasPrefix_iff, List.drop_left]
  rw [TrimPrefix, if_pos h, List.drop_left]

/-- C11: for every entity with package proto name `p`, `EntityName` is the
fully-qualified name with the prefix `"." + p + "."` removed when the name
starts with that prefix, and the fully-qualified name itself otherwise; for a
fully-qualified name `"." + p + "." + r` it is `r`. -/
theorem EntityName_spec (e : pgs.Entity) :
    (HasPrefix e.FullyQualifiedName (".".toList ++ e.PackageProtoName ++ ".".toList) = true →
        EntityName e
            = e.FullyQualifiedName.drop (".".toList ++ e.PackageProtoName ++ ".".toList).length ∧
          (".".toList ++ e.PackageProtoName ++ ".".toList) ++ EntityName e
            = e.FullyQualifiedName) ∧
      (HasPrefix e.FullyQualifiedName (".".toList ++ e.PackageProtoName ++ ".".toList) = false →
        EntityName e = e.FullyQualifiedName) ∧
      (∀ r : Str, e.FullyQualifiedName = ".".toList ++ e.PackageProtoName ++ ".".toList ++ r →
        EntityName e = r) := by
  refine ⟨fun h => ?_, fun h => ?_, fun r h => ?_⟩
  · have hd : EntityName e
        = e.FullyQualifiedName.drop (".".toList ++ e.PackageProtoName ++ ".".toList).length := by
      rw [EntityName, TrimPrefix, if_pos h]
    exact ⟨hd, by rw [hd]; exact (hasPrefix_iff _ _).mp h⟩
  · rw [EntityName, TrimPrefix, h]
    rfl
  · rw [EntityName, h, trimPrefix_append]

/-- C11, at the nested type `.p.Outer.Inner` of the package `p`, whose short
name is `Outer.Inner`. -/
theorem EntityName_spec_witness : EntityName exInner = "Outer.Inner".toList :=
  (EntityName_spec exInner).2.2 "Outer.Inner".toList (by decide)

/-! ### HTTP rules -/

theorem buildHTTPRule_src (m n : Method) (h : m.src = n.src) :
    buildHTTPRule m = buildHTTPRule n := by
  funext pattern body responseBody
  unfold buildHTTPRule
  rw [h]

mutual

theorem addHTTPRule_src (m : Method) :
    ∀ src : annotations.HttpRule, (m.addHTTPRule src).src = m.src
  | .mk pattern body responseBody additionalBindings => by
    rw [Method.addHTTPRule, addHTTPRuleList_src _ additionalBindings]

theorem addHTTPRuleList_src (m : Method) :
    ∀ bindings : List annotations.HttpRule, (m.addHTTPRuleList bindings).src = m.src
  | [] => by rw [Method.addHTTPRuleList]
  | additional :: rest => by
    rw [Method.addHTTPRuleList, addHTTPRuleList_src _ rest, addHTTPRule_src _ additional]

end

mutual

theorem flattenBinding_src (m n : Method) (h : m.src = n.src) :
    ∀ src : annotations.HttpRule, flattenBinding m src = flattenBinding n src
  | .mk pattern body responseBody additionalBindings => by
    rw [flattenBinding, flattenBinding, buildHTTPRule_src m n h,
      flattenBindings_src m n h additionalBindings]

theorem flattenBindings_src (m n : Method) (h : m.src = n.src) :
    ∀ bindings : List annotations.HttpRule, flattenBindings m bindings = flattenBindings n bindings
  | [] => by rw [flattenBindings, flattenBindings]
  | additional :: rest => by
    rw [flattenBindings, flattenBindings, flattenBinding_src m n h additional,
      flattenBindings_src m n h rest]

end

mutual

theorem addHTTPRule_HTTP (m : Method) :
    ∀ src : annotations.HttpRule, (m.addHTTPRule src).HTTP = m.HTTP ++ flattenBinding m src
  | .mk pattern body responseBody additionalBindings => by
    have h := flattenBindings_src
      { m with HTTP := m.HTTP ++ [buildHTTPRule m pattern body responseBody] } m rfl
      additionalBindings
    rw [Method.addHTTPRule, addHTTPRuleList_HTTP _ additionalBindings, flattenBinding, h]
    simp

theorem addHTTPRuleList_HTTP (m : Method) :
    ∀ bindings : List annotations.HttpRule,
      (m.addHTTPRuleList bindings).HTTP = m.HTTP ++ flattenBindings m bindings
  | [] => by rw [Method.addHTTPRuleList, flattenBindings, List.append_nil]
  | additional :: rest => by
    rw [Method.addHTTPRuleList, addHTTPRuleList_HTTP _ rest, addHTTPRule_HTTP _ additional,
      flattenBindings, flattenBindings_src _ m (addHTTPRule_src m additional) rest,
      List.append_assoc]

end

mutual

theorem flattenBinding_length (m : Method) :
    ∀ src : annotations.HttpRule, (flattenBinding m src).length = countBinding src
  | .mk pattern body responseBody additionalBindings => by
    rw [flattenBinding, countBinding, List.length_cons,
      flattenBindings_length m additionalBindings, Nat.add_comm]

theorem flattenBindings_length (m : Method) :
    ∀ bindings : List annotations.HttpRule,
      (flattenBindings m bindings).length = countBindings bindings
  | [] => by rw [flattenBindings, countBindings, List.length_nil]
  | additional :: rest => by
    rw [flattenBindings, countBindings, List.length_append, flattenBinding_length m additional,
      flattenBindings_length m rest]

end

theorem flattenBindings_eq_join (m : Method) (bindings : List annotations.HttpRule) :
    flattenBindings m bindings = (bindings.map (flattenBinding m)).flatten := by
  induction bindings with
  | nil => rw [flattenBindings, List.map_nil, List.flatten_nil]
  | cons additional rest ih => rw [flattenBindings, ih, List.map_cons, List.flatten_cons]

theorem AddHTTPRules_head (m : Method) (pattern : Option annotations.HttpRule_Pattern)
    (body responseBody : Str) (additionalBindings : List annotations.HttpRule) :
    (m.AddHTTPRules (some (.mk pattern body responseBody additionalBindings))).HTTP
      = m.HTTP ++ buildHTTPRule m pattern body responseBody
          :: flattenBindings m additionalBindings := by
  rw [Method.AddHTTPRules, addHTTPRule_HTTP, flattenBinding]

/-- C12: `Method.AddHTTPRules` on a binding that is not nil keeps the HTTP list
of the method as a prefix and appends the depth-first pre-order flattening of
the binding: its rule, then the flattened rules of its additional bindings in
declaration order; the number of rules appended is the number of bindings in
the tree. A primary `GET /v1/x` with one additional `POST /v1/y` gives the two
rules in this order. -/
theorem AddHTTPRules_flatten :
    (∀ (m : Method) (b : annotations.HttpRule),
        (m.AddHTTPRules (some b)).HTTP = m.HTTP ++ flattenBinding m b ∧
          (flattenBinding m b).length = countBinding b ∧
          (m.AddHTTPRules (some b)).HTTP.length = m.HTTP.length + countBinding b) ∧
      (∀ (m : Method) (pattern : Option annotations.HttpRule_Pattern) (body responseBody : Str)
          (additionalBindings : List annotations.HttpRule),
        flattenBinding m (.mk pattern body responseBody additionalBindings)
          = buildHTTPRule m pattern body responseBody
              :: (additionalBindings.map (flattenBinding m)).flatten) ∧
      (BuildMethod exHttpMethod).HTTP
        = [{ Method := "GET".toList, Path := "/v1/x".toList },
            { Method := "POST".toList, Path := "/v1/y".toList }] := by
  refine ⟨fun m b => ?_, fun m pattern body responseBody additionalBindings => ?_, by decide⟩
  · have h : (m.AddHTTPRules (some b)).HTTP = m.HTTP ++ flattenBinding m b := by
      rw [Method.AddHTTPRules, addHTTPRule_HTTP]
    refine ⟨h, flattenBinding_length m b, ?_⟩
    rw [h, List.length_append, flattenBinding_length]
  · rw [flattenBinding, flattenBindings_eq_join]

theorem findBodyField_eq_find (fields : List pgs.Field) (body : Str) :
    findBodyField fields body []
      = ((fields.find? fun field => decide (field.Name = body)).map
          fun field => field.FullyQualifiedName).getD [] := by
  induction fields with
  | nil => rfl
  | cons field rest ih =>
    by_cases h : field.Name = body
    · simp [findBodyField, h]
    · simp [findBodyField, h, ih]

theorem buildHTTPRule_body (m : Method) (pattern : Option annotations.HttpRule_Pattern)
    (body responseBody : Str) :
    (buildHTTPRule m pattern body responseBody).Input
        = (if body ≠ [] ∧ body ≠ "*".toList then body else []) ∧
      (buildHTTPRule m pattern body responseBody).InputMessage
        = (if body ≠ [] ∧ body ≠ "*".toList then findBodyField m.src.Input.Fields body []
          else []) ∧
      (buildHTTPRule m pattern body responseBody).Output
        = (if responseBody ≠ [] ∧ responseBody ≠ "*".toList then responseBody else []) ∧
      (buildHTTPRule m pattern body responseBody).OutputMessage
        = (if responseBody ≠ [] ∧ responseBody ≠ "*".toList then
            findBodyField m.src.Output.Fields responseBody []
          else []) := by
  rcases pattern with _ | pattern
  · simp only [buildHTTPRule]
    split_ifs <;> exact ⟨rfl, rfl, rfl, rfl⟩
  · cases pattern <;> simp only [buildHTTPRule] <;> split_ifs <;> exact ⟨rfl, rfl, rfl, rfl⟩

/-- C13: the body selectors of `Method.AddHTTPRules` are resolved by a total
function, the same way for both. The rule appended for a binding has `Input`
and `InputMessage` empty when the request-body selector is empty or "*";
otherwise `Input` is the selector and `InputMessage` is the fully-qualified
name of the first direct field of the input message whose name is the selector,
or empty when there is none. `Output` and `OutputMessage` follow from the
response-body selector and the output message in the same way. -/
theorem AddHTTPRules_body (m : Method) (pattern : Option annotations.HttpRule_Pattern)
    (body responseBody : Str) (additionalBindings : List annotations.HttpRule) :
    (∃ rest, (m.AddHTTPRules (some (.mk pattern body responseBody additionalBindings))).HTTP
        = m.HTTP ++ buildHTTPRule m pattern body responseBody :: rest) ∧
      (body = [] ∨ body = "*".toList →
        (buildHTTPRule m pattern body responseBody).Input = [] ∧
          (buildHTTPRule m pattern body responseBody).InputMessage = []) ∧
      (body ≠ [] → body ≠ "*".toList →
        (buildHTTPRule m pattern body responseBody).Input = body ∧
          (buildHTTPRule m pattern body responseBody).InputMessage
            = ((m.src.Input.Fields.find? fun field => decide (field.Name = body)).map
                fun field => field.FullyQualifiedName).getD []) ∧
      (responseBody = [] ∨ responseBody = "*".toList →
        (buildHTTPRule m pattern body responseBody).Output = [] ∧
          (buildHTTPRule m pattern body responseBody).OutputMessage = []) ∧
      (responseBody ≠ [] → responseBody ≠ "*".toList →
        (buildHTTPRule m pattern body responseBody).Output = responseBody ∧
          (buildHTTPRule m pattern body responseBody).OutputMessage
            = ((m.src.Output.Fields.find? fun field => decide (field.Name = responseBody)).map
                fun field => field.FullyQualifiedName).getD []) := by
  obtain ⟨hi, him, ho, hom⟩ := buildHTTPRule_body m pattern body responseBody
  refine ⟨⟨_, AddHTTPRules_head m pattern body responseBody additionalBindings⟩, ?_, ?_, ?_, ?_⟩
  · intro h
    have hn : ¬ (body ≠ [] ∧ body ≠ "*".toList) := by
      rcases h with h | h <;> simp [h]
    rw [hi, him, if_neg hn, if_neg hn]
    exact ⟨rfl, rfl⟩
  · intro h1 h2
    rw [hi, him, if_pos ⟨h1, h2⟩, if_pos ⟨h1, h2⟩, findBodyField_eq_find]
    exact ⟨rfl, rfl⟩
  · intro h
    have hn : ¬ (responseBody ≠ [] ∧ responseBody ≠ "*".toList) := by
      rcases h with h | h <;> simp [h]
    rw [ho, hom, if_neg hn, if_neg hn]
    exact ⟨rfl, rfl⟩
  · intro h1 h2
    rw [ho, hom, if_pos ⟨h1, h2⟩, if_pos ⟨h1, h2⟩, findBodyField_eq_find]
    exact ⟨rfl, rfl⟩

/-- C13, at a method whose input message has the field `name`: the selector
`name` resolves to the fully-qualified name of the field, the selector `other`
to nothing, and the selector "*" leaves both fields empty. -/
theorem AddHTTPRules_body_witness :
    (buildHTTPRule exBodyMethod none "name".toList "other".toList).Input = "name".toList ∧
      (buildHTTPRule exBodyMethod none "name".toList "other".toList).InputMessage
        = ".pkg.Msg.name".toList ∧
      (buildHTTPRule exBodyMethod none "name".toList "other".toList).Output = "other".toList ∧
      (buildHTTPRule exBodyMethod none "name".toList "other".toList).OutputMessage = [] ∧
      (buildHTTPRule exBodyMethod none "*".toList []).Input = [] ∧
      (buildHTTPRule exBodyMethod none "*".toList []).InputMessage = [] := by
  have h1 := (AddHTTPRules_body exBodyMethod none "name".toList "other".toList []).2.2.1
    (by decide) (by decide)
  have h2 := (AddHTTPRules_body exBodyMethod none "name".toList "other".toList []).2.2.2.2
    (by decide) (by decide)
  have h3 := (AddHTTPRules_body exBodyMethod none "*".toList [] []).2.1 (Or.inr rfl)
  exact ⟨h1.1, h1.2.trans (by decide), h2.1, h2.2.trans (by decide), h3.1, h3.2⟩

/-- C14: the rule that `Method.AddHTTPRules` appends for a binding has the
method and path of the pattern of the binding: a get, put, post, delete or patch
pattern with the string `s` gives "GET", "PUT", "POST", "DELETE" or "PATCH" with
the path `s`, and a custom pattern gives its kind and its path. -/
theorem AddHTTPRules_pattern (m : Method) (body responseBody : Str)
    (additionalBindings : List annotations.HttpRule) :
    (∀ pattern, ∃ rest,
        (m.AddHTTPRules (some (.mk pattern body responseBody additionalBindings))).HTTP
          = m.HTTP ++ buildHTTPRule m pattern body responseBody :: rest) ∧
      (∀ s, (buildHTTPRule m (some (.Get s)) body responseBody).Method = "GET".toList ∧
        (buildHTTPRule m (some (.Get s)) body responseBody).Path = s) ∧
      (∀ s, (buildHTTPRule m (some (.Put s)) body responseBody).Method = "PUT".toList ∧
        (buildHTTPRule m (some (.Put s)) body responseBody).Path = s) ∧
      (∀ s, (buildHTTPRule m (some (.Post s)) body responseBody).Method = "POST".toList ∧
        (buildHTTPRule m (some (.Post s)) body responseBody).Path = s) ∧
      (∀ s, (buildHTTPRule m (some (.Delete s)) body responseBody).Method = "DELETE".toList ∧
        (buildHTTPRule m (some (.Delete s)) body responseBody).Path = s) ∧
      (∀ s, (buildHTTPRule m (some (.Patch s)) body responseBody).Method = "PATCH".toList ∧
        (buildHTTPRule m (some (.Patch s)) body responseBody).Path = s) ∧
      (∀ custom : annotations.CustomHttpPattern,
        (buildHTTPRule m (some (.Custom (some custom))) body responseBody).Method = custom.Kind ∧
          (buildHTTPRule m (some (.Custom (some custom))) body responseBody).Path
            = custom.Path) :=
  ⟨fun pattern => ⟨_, AddHTTPRules_head m pattern body responseBody additionalBindings⟩,
    fun _ => ⟨rfl, rfl⟩, fun _ => ⟨rfl, rfl⟩, fun _ => ⟨rfl, rfl⟩, fun _ => ⟨rfl, rfl⟩,
    fun _ => ⟨rfl, rfl⟩, fun _ => ⟨rfl, rfl⟩⟩

/-! ### Ordered serialization -/

theorem foldl_service_methods (methods : List pgs.Method) (service : Service) :
    (methods.foldl
      (fun (service : Service) method =>
        { service with
          Methods := service.Methods ++ [{ Key := method.Name, Value := BuildMethod method }] })
      service).Methods
      = service.Methods
          ++ methods.map fun method => { Key := method.Name, Value := BuildMethod method } := by
  induction methods generalizing service with
  | nil => simp
  | cons method rest ih => rw [List.foldl_cons, ih, List.map_cons, List.append_assoc]; rfl

theorem marshalJSONLoop_append {α : Type} (stream : List (jsoniter.Write α)) (i : Nat)
    (m : List (MapItem α)) :
    MapSlice.marshalJSONLoop stream i m = stream ++ MapSlice.marshalJSONLoop [] i m := by
  induction m generalizing stream i with
  | nil => simp [MapSlice.marshalJSONLoop]
  | cons v rest ih =>
    rw [MapSlice.marshalJSONLoop, ih, MapSlice.marshalJSONLoop]
    by_cases h : i > 0
    · simp only [h, if_true]
      conv_rhs => rw [ih]
      simp
    · simp only [h, if_false]
      conv_rhs => rw [ih]
      simp

theorem entries_marshalJSONLoop {α : Type} (i : Nat) (m : List (MapItem α)) :
    jsoniter.entries (MapSlice.marshalJSONLoop [] i m ++ [.ObjectEnd])
      = m.map fun item => (item.Key, item.Value) := by
  induction m generalizing i with
  | nil => rfl
  | cons v rest ih =>
    rw [MapSlice.marshalJSONLoop, marshalJSONLoop_append]
    by_cases h : i > 0
    · simp [h, jsoniter.entries, ih]
    · simp [h, jsoniter.entries, ih]

/-- C15: `BuildService` produces one item per declared method, keyed by the
method names in declaration order, and `MapSlice.MarshalYAML` and
`MapSlice.MarshalJSON` emit the items with the same keys and values in the
order of the sequence. Methods declared `[A, B, C]` give the keys `[A, B, C]`,
methods declared `[C, A, B]` give `[C, A, B]`. -/
theorem service_methods_order :
    (∀ src : pgs.Service,
        (BuildService src).Methods
            = (src.Methods.map fun method => { Key := method.Name, Value := BuildMethod method }) ∧
          ((BuildService src).Methods.map fun item => item.Key)
            = src.Methods.map fun method => method.Name) ∧
      (∀ (α : Type) (m : MapSlice α),
        ((MapSlice.MarshalYAML m).map fun item => (item.Key, item.Value))
            = (m.map fun item => (item.Key, item.Value)) ∧
          jsoniter.entries (MapSlice.MarshalJSON m) = m.map fun item => (item.Key, item.Value)) ∧
      ((MapSlice.MarshalYAML (BuildService (exService ["A", "B", "C"])).Methods).map
          fun item => item.Key) = ["A".toList, "B".toList, "C".toList] ∧
      ((jsoniter.entries (MapSlice.MarshalJSON (BuildService (exService ["A", "B", "C"])).Methods)).map
          fun entry => entry.1) = ["A".toList, "B".toList, "C".toList] ∧
      ((MapSlice.MarshalYAML (BuildService (exService ["C", "A", "B"])).Methods).map
          fun item => item.Key) = ["C".toList, "A".toList, "B".toList] ∧
      ((jsoniter.entries (MapSlice.MarshalJSON (BuildService (exService ["C", "A", "B"])).Methods)).map
          fun entry => entry.1) = ["C".toList, "A".toList, "B".toList] := by
  have hb : ∀ src : pgs.Service, (BuildService src).Methods
      = src.Methods.map fun method => { Key := method.Name, Value := BuildMethod method } := by
    intro src
    rw [BuildService, foldl_service_methods]
    rfl
  refine ⟨fun src => ⟨hb src, ?_⟩, fun α m => ⟨?_, ?_⟩, by decide, by decide, by decide,
    by decide⟩
  · rw [hb, List.map_map]
    rfl
  · rw [MapSlice.MarshalYAML, List.map_map]
    rfl
  · rw [MapSlice.MarshalJSON]
    simp only [List.nil_append]
    rw [marshalJSONLoop_append, List.append_assoc]
    exact entries_marshalJSONLoop 0 m

/-! ### Field types -/

/-- C16: `ProtoTypeString` and `ProtoTypeDefault` return a value exactly on the
fifteen scalar kinds and abort on every other kind, and `BuildFieldTypeElem`
consults `ProtoTypeString` only for a type that is neither an enum nor an
embedded message: it returns for every enum and embedded message, and otherwise
exactly when `ProtoTypeString` returns. -/
theorem protoType_total :
    (∀ t : pgs.ProtoType, (ProtoTypeString t).isSome = true ↔ t ∈ scalarKinds) ∧
      (∀ t : pgs.ProtoType, (ProtoTypeDefault t).isSome = true ↔ t ∈ scalarKinds) ∧
      (∀ t : pgs.ProtoType, ProtoTypeString t = none ↔ t ∉ scalarKinds) ∧
      (∀ t : pgs.ProtoType, ProtoTypeDefault t = none ↔ t ∉ scalarKinds) ∧
      (∀ src : PGSFieldType,
        BuildFieldTypeElem src
          = if src.IsEnum then some { Enum := BuildRef src.Enum.toEntity }
            else if src.IsEmbed then some { Message := BuildRef src.Embed.toEntity }
            else (ProtoTypeString src.ProtoType).map fun name => { Type_ := name }) ∧
      (∀ src : PGSFieldType,
        (BuildFieldTypeElem src).isSome
          = (src.IsEnum || src.IsEmbed || decide (src.ProtoType ∈ scalarKinds))) := by
  have h1 : ∀ t : pgs.ProtoType, (ProtoTypeString t).isSome = true ↔ t ∈ scalarKinds := by
    intro t
    cases t <;> decide
  refine ⟨h1, ?_, ?_, ?_, fun src => rfl, fun src => ?_⟩
  · intro t
    cases t <;> decide
  · intro t
    cases t <;> decide
  · intro t
    cases t <;> decide
  · unfold BuildFieldTypeElem
    cases src.IsEnum <;> cases src.IsEmbed <;> simp [← h1]

theorem ProtoTypeString_ne_nil (t : pgs.ProtoType) (name : Str)
    (h : ProtoTypeString t = some name) : name ≠ [] := by
  cases t <;> simp [ProtoTypeString] at h <;> rw [← h] <;> decide

theorem BuildFieldTypeElem_populated (src : PGSFieldType) (e : FieldTypeElem)
    (h : BuildFieldTypeElem src = some e) (hn : RefNamed src) : e.populated = 1 := by
  unfold BuildFieldTypeElem at h
  cases henum : src.IsEnum with
  | true =>
    have hne := hn.1 henum
    simp only [henum, ↓reduceIte, Option.some.injEq] at h
    subst h
    have hr : BuildRef src.Enum.toEntity ≠ {} := fun hh =>
      hne ((BuildRef_name_eq src.Enum.toEntity).symm.trans (congrArg Ref.Name hh))
    simp [FieldTypeElem.populated, hr]
  | false =>
    cases hembed : src.IsEmbed with
    | true =>
      have hne := hn.2 hembed
      simp only [henum, hembed, ↓reduceIte, Bool.false_eq_true, Option.some.injEq] at h
      subst h
      have hr : BuildRef src.Embed.toEntity ≠ {} := fun hh =>
        hne ((BuildRef_name_eq src.Embed.toEntity).symm.trans (congrArg Ref.Name hh))
      simp [FieldTypeElem.populated, hr]
    | false =>
      simp only [henum, hembed, ↓reduceIte, Bool.false_eq_true] at h
      cases hs : ProtoTypeString src.ProtoType with
      | none => simp [hs] at h
      | some name =>
        simp only [hs, Option.map_some', Option.some.injEq] at h
        subst h
        simp [FieldTypeElem.populated, ProtoTypeString_ne_nil _ _ hs]

theorem BuildFieldType_eq (src : pgs.FieldType) :
    BuildFieldType src
      = if src.IsRepeated then
          (BuildFieldTypeElem src.Element).map fun elem => { Repeated := some elem }
        else if src.IsMap then
          (BuildFieldTypeElem src.Key).bind fun key =>
            (BuildFieldTypeElem src.Element).map fun elem =>
              { MapKey := some key, MapValue := some elem }
        else
          (BuildFieldTypeElem src.toPGSFieldType).map fun base => { toFieldTypeElem := base } := by
  unfold BuildFieldType
  cases src.IsRepeated <;> cases src.IsMap <;>
    cases BuildFieldTypeElem src.Element <;> cases BuildFieldTypeElem src.Key <;>
    cases BuildFieldTypeElem src.toPGSFieldType <;> rfl

/-- C17, as stated, fails: in the `FieldType` of a repeated string field and in
the one of a map field, the base `FieldTypeElem` has none of the three variants
populated. -/
theorem BuildFieldType_base_empty :
    (BuildFieldType (exRepeated .StringT (exScalarElem .StringT))).map
        (fun fieldType => fieldType.toFieldTypeElem.populated) = some 0 ∧
      (BuildFieldType (exMap (exScalarElem .StringT) (exEmbedElem exFoo))).map
        (fun fieldType => fieldType.toFieldTypeElem.populated) = some 0 := by
  decide

/-- C17, amended: when the enums and messages referred to have names that are
not empty, every `FieldTypeElem` that `BuildFieldTypeElem` builds for
`BuildFieldType` (the base of a singular field, the repeated element, the map
key and the map value) has exactly one of its three variants populated, and
the base `FieldTypeElem` of a repeated or map field has none populated. -/
theorem BuildFieldType_populated (src : pgs.FieldType) (fieldType : FieldType)
    (h : BuildFieldType src = some fieldType) (hbase : RefNamed src.toPGSFieldType)
    (helem : RefNamed src.Element) (hkey : RefNamed src.Key) :
    (src.IsRepeated = true →
        fieldType.toFieldTypeElem.populated = 0 ∧
          ∃ elem, fieldType.Repeated = some elem ∧ elem.populated = 1) ∧
      (src.IsRepeated = false → src.IsMap = true →
        fieldType.toFieldTypeElem.populated = 0 ∧
          ∃ key elem, fieldType.MapKey = some key ∧ fieldType.MapValue = some elem ∧
            key.populated = 1 ∧ elem.populated = 1) ∧
      (src.IsRepeated = false → src.IsMap = false →
        fieldType.toFieldTypeElem.populated = 1 ∧ fieldType.Repeated = none ∧
          fieldType.MapKey = none ∧ fieldType.MapValue = none) := by
  rw [BuildFieldType_eq] at h
  refine ⟨fun hrep => ?_, fun hrep hmap => ?_, fun hrep hmap => ?_⟩
  · simp only [hrep, ↓reduceIte] at h
    cases he : BuildFieldTypeElem src.Element with
    | none => simp [he] at h
    | some elem =>
      simp only [he, Option.map_some', Option.some.injEq] at h
      subst h
      exact ⟨rfl, elem, rfl, BuildFieldTypeElem_populated _ _ he helem⟩
  · simp only [hrep, hmap, ↓reduceIte, Bool.false_eq_true] at h
    cases hk : BuildFieldTypeElem src.Key with
    | none => simp [hk] at h
    | some key =>
      cases he : BuildFieldTypeElem src.Element with
      | none => simp [hk, he] at h
      | some elem =>
        simp only [hk, he, Option.some_bind, Option.map_some', Option.some.injEq] at h
        subst h
        exact ⟨rfl, key, elem, rfl, rfl, BuildFieldTypeElem_populated _ _ hk hkey,
          BuildFieldTypeElem_populated _ _ he helem⟩
  · simp only [hrep, hmap, ↓reduceIte, Bool.false_eq_true] at h
    cases hb : BuildFieldTypeElem src.toPGSFieldType with
    | none => simp [hb] at h
    | some base =>
      simp only [hb, Option.map_some', Option.some.injEq] at h
      subst h
      exact ⟨BuildFieldTypeElem_populated _ _ hb hbase, rfl, rfl, rfl⟩

/-- C17 amended, at a singular enum field, a repeated string field and a map
from strings to messages. -/
theorem BuildFieldType_populated_witness :
    (∃ fieldType, BuildFieldType (exSingular (exEnumElem exKind)) = some fieldType ∧
        fieldType.toFieldTypeElem.populated = 1) ∧
      (∃ fieldType elem,
        BuildFieldType (exRepeated .StringT (exScalarElem .StringT)) = some fieldType ∧
          fieldType.toFieldTypeElem.populated = 0 ∧ fieldType.Repeated = some elem ∧
          elem.populated = 1) ∧
      (∃ fieldType key elem,
        BuildFieldType (exMap (exScalarElem .StringT) (exEmbedElem exFoo)) = some fieldType ∧
          fieldType.toFieldTypeElem.populated = 0 ∧ fieldType.MapKey = some key ∧
          fieldType.MapValue = some elem ∧ key.populated = 1 ∧ elem.populated = 1) := by
  refine ⟨?_, ?_, ?_⟩
  · obtain ⟨fieldType, h⟩ := Option.isSome_iff_exists.mp
      (show (BuildFieldType (exSingular (exEnumElem exKind))).isSome = true by decide)
    have hp := (BuildFieldType_populated _ fieldType h
      (by decide) (by decide) (by decide)).2.2 rfl rfl
    exact ⟨fieldType, h, hp.1⟩
  · obtain ⟨fieldType, h⟩ := Option.isSome_iff_exists.mp
      (show (BuildFieldType (exRepeated .StringT (exScalarElem .StringT))).isSome = true by decide)
    have hp := (BuildFieldType_populated _ fieldType h
      (by decide) (by decide) (by decide)).1 rfl
    obtain ⟨h0, elem, h1, h2⟩ := hp
    exact ⟨fieldType, elem, h, h0, h1, h2⟩
  · obtain ⟨fieldType, h⟩ := Option.isSome_iff_exists.mp
      (show (BuildFieldType (exMap (exScalarElem .StringT) (exEmbedElem exFoo))).isSome = true
        by decide)
    have hp := (BuildFieldType_populated _ fieldType h
      (by decide) (by decide) (by decide)).2.1 rfl rfl
    obtain ⟨h0, key, elem, h1, h2, h3, h4⟩ := hp
    exact ⟨fieldType, key, elem, h, h0, h1, h2, h3, h4⟩

theorem AddFieldRules_containers (f : Field) (src : Option validate.FieldRules) :
    (f.AddFieldRules src).Repeated.isSome = f.Repeated.isSome ∧
      (f.AddFieldRules src).MapKey.isSome = f.MapKey.isSome ∧
      (f.AddFieldRules src).MapValue.isSome = f.MapValue.isSome := by
  unfold Field.AddFieldRules
  cases src with
  | none => exact ⟨rfl, rfl, rfl⟩
  | some src =>
    simp only
    split <;> split <;> simp_all

theorem BuildFieldType_containers (src : pgs.FieldType) (fieldType : FieldType)
    (h : BuildFieldType src = some fieldType) :
    fieldType.Repeated.isSome = src.IsRepeated ∧
      fieldType.MapKey.isSome = (!src.IsRepeated && src.IsMap) ∧
      fieldType.MapValue.isSome = (!src.IsRepeated && src.IsMap) := by
  rw [BuildFieldType_eq] at h
  cases hrep : src.IsRepeated with
  | true =>
    simp only [hrep, ↓reduceIte] at h
    cases he : BuildFieldTypeElem src.Element with
    | none => simp [he] at h
    | some elem =>
      simp only [he, Option.map_some', Option.some.injEq] at h
      subst h
      exact ⟨rfl, rfl, rfl⟩
  | false =>
    cases hmap : src.IsMap with
    | true =>
      simp only [hrep, hmap, ↓reduceIte, Bool.false_eq_true] at h
      cases hk : BuildFieldTypeElem src.Key with
      | none => simp [hk] at h
      | some key =>
        cases he : BuildFieldTypeElem src.Element with
        | none => simp [hk, he] at h
        | some elem =>
          simp only [hk, he, Option.some_bind, Option.map_some', Option.some.injEq] at h
          subst h
          exact ⟨rfl, rfl, rfl⟩
    | false =>
      simp only [hrep, hmap, ↓reduceIte, Bool.false_eq_true] at h
      cases hb : BuildFieldTypeElem src.toPGSFieldType with
      | none => simp [hb] at h
      | some base =>
        simp only [hb, Option.map_some', Option.some.injEq] at h
        subst h
        exact ⟨rfl, rfl, rfl⟩

theorem BuildField_fieldType (src : pgs.Field) (f : Field) (h : BuildField src = some f) :
    ∃ fieldType, BuildFieldType src.Type_ = some fieldType ∧
      f.Repeated.isSome = fieldType.Repeated.isSome ∧
      f.MapKey.isSome = fieldType.MapKey.isSome ∧
      f.MapValue.isSome = fieldType.MapValue.isSome := by
  unfold BuildField at h
  cases h1 : BuildFieldType src.Type_ with
  | none => simp [h1] at h
  | some fieldType =>
    cases h2 : BuildFieldDefault src.Type_ with
    | none => simp [h1, h2] at h
    | some default =>
      refine ⟨fieldType, rfl, ?_⟩
      cases h3 : src.Rules with
      | none =>
        simp [h1, h2, h3] at h
        rw [← h]
        exact ⟨rfl, rfl, rfl⟩
      | some rules =>
        simp [h1, h2, h3] at h
        rw [← h]
        exact AddFieldRules_containers _ _

/-- C18: `BuildFieldType` returns exactly when the elements it consults are
resolved, and then sets `Repeated` if and only if the type is repeated, and
`MapKey` and `MapValue`, together, if and only if the type is a map that is not
repeated; so `MapKey` is set if and only if `MapValue` is, and `Repeated` is
never set with one of them. The same holds of the field that `BuildField`
returns, on which the guard of the repeated step and the guard of the map step
of `Field.AddFieldRules` are therefore never both true. -/
theorem BuildFieldType_container (src : pgs.FieldType) :
    (BuildFieldType src).isSome
        = (if src.IsRepeated then (BuildFieldTypeElem src.Element).isSome
          else if src.IsMap then
            (BuildFieldTypeElem src.Key).isSome && (BuildFieldTypeElem src.Element).isSome
          else (BuildFieldTypeElem src.toPGSFieldType).isSome) ∧
      (∀ fieldType, BuildFieldType src = some fieldType →
        fieldType.Repeated.isSome = src.IsRepeated ∧
          fieldType.MapKey.isSome = (!src.IsRepeated && src.IsMap) ∧
          fieldType.MapValue.isSome = (!src.IsRepeated && src.IsMap) ∧
          fieldType.MapKey.isSome = fieldType.MapValue.isSome ∧
          ¬ (fieldType.Repeated.isSome = true ∧
            (fieldType.MapKey.isSome = true ∨ fieldType.MapValue.isSome = true))) ∧
      (∀ (field : pgs.Field) (f : Field), field.Type_ = src → BuildField field = some f →
        f.Repeated.isSome = src.IsRepeated ∧
          f.MapKey.isSome = (!src.IsRepeated && src.IsMap) ∧
          f.MapValue.isSome = (!src.IsRepeated && src.IsMap) ∧
          ¬ (f.Repeated.isSome = true ∧ f.MapKey.isSome = true ∧ f.MapValue.isSome = true)) := by
  refine ⟨?_, fun fieldType h => ?_, fun field f hsrc h => ?_⟩
  · rw [BuildFieldType_eq]
    cases src.IsRepeated <;> cases src.IsMap <;>
      cases BuildFieldTypeElem src.Element <;> cases BuildFieldTypeElem src.Key <;>
      cases BuildFieldTypeElem src.toPGSFieldType <;> rfl
  · obtain ⟨h1, h2, h3⟩ := BuildFieldType_containers src fieldType h
    refine ⟨h1, h2, h3, h2.trans h3.symm, ?_⟩
    rw [h1, h2, h3]
    cases src.IsRepeated <;> cases src.IsMap <;> decide
  · obtain ⟨fieldType, hft, e1, e2, e3⟩ := BuildField_fieldType field f h
    rw [hsrc] at hft
    obtain ⟨h1, h2, h3⟩ := BuildFieldType_containers src fieldType hft
    refine ⟨e1.trans h1, e2.trans h2, e3.trans h3, ?_⟩
    rw [e1, e2, e3, h1, h2, h3]
    cases src.IsRepeated <;> cases src.IsMap <;> decide

/-- C18, at the repeated string field `tags`, which is built with `Repeated`
set and neither `MapKey` nor `MapValue`, and at a map type, which is built with
`MapKey` and `MapValue` set and not `Repeated`. -/
theorem BuildFieldType_container_witness :
    (∃ f, BuildField exTagsField = some f ∧ f.Repeated.isSome = true ∧
        f.MapKey.isSome = false ∧ f.MapValue.isSome = false) ∧
      (∃ fieldType,
        BuildFieldType (exMap (exScalarElem .StringT) (exEmbedElem exFoo)) = some fieldType ∧
          fieldType.Repeated.isSome = false ∧ fieldType.MapKey.isSome = true ∧
          fieldType.MapValue.isSome = true) := by
  constructor
  · obtain ⟨f, h⟩ := Option.isSome_iff_exists.mp
      (show (BuildField exTagsField).isSome = true by decide)
    obtain ⟨h1, h2, h3, _⟩ := (BuildFieldType_container exTagsField.Type_).2.2 exTagsField f rfl h
    exact ⟨f, h, h1, h2, h3⟩
  · obtain ⟨fieldType, h⟩ := Option.isSome_iff_exists.mp
      (show (BuildFieldType (exMap (exScalarElem .StringT) (exEmbedElem exFoo))).isSome = true
        by decide)
    obtain ⟨h1, h2, h3, _⟩ := (BuildFieldType_container _).2.1 fieldType h
    exact ⟨fieldType, h, h1, h2, h3⟩

/-! ### The schema walker -/

theorem appendCalls_nil (m : DataFilesModule) : m.appendCalls [] = m := by
  cases m
  simp [DataFilesModule.appendCalls]

theorem appendCalls_append (m : DataFilesModule) (a b : List ModuleCall) :
    (m.appendCalls a).appendCalls b = m.appendCalls (a ++ b) := by
  simp [DataFilesModule.appendCalls, List.append_assoc]

theorem outcomes_append (encoder : Encoder) (basePath : List Str) (a b : List Visited) :
    outcomes encoder basePath (a ++ b)
      = (outcomes encoder basePath a).bind fun ca =>
          (outcomes encoder basePath b).map fun cb => ca ++ cb := by
  induction a with
  | nil =>
    cases h : outcomes encoder basePath b <;> simp [outcomes, h]
  | cons entity rest ih =>
    rw [List.cons_append, outcomes, outcomes, ih]
    cases outcome encoder basePath entity with
    | none => rfl
    | some call =>
      cases outcomes encoder basePath rest with
      | none => rfl
      | some ca =>
        cases outcomes encoder basePath b with
        | none => rfl
        | some cb => rfl

theorem outcomes_enums (encoder : Encoder) (basePath : List Str) (enums : List pgs.Enum) :
    outcomes encoder basePath (enums.map .Enum)
      = some (enums.map fun enum =>
          encodeOutcome encoder basePath "enums".toList (EntityName enum.toEntity)
            (.Enum (BuildEnum enum))) := by
  induction enums with
  | nil => rfl
  | cons enum rest ih => rw [List.map_cons, outcomes, outcome, ih]; rfl

theorem outcomes_services (encoder : Encoder) (basePath : List Str)
    (services : List pgs.Service) :
    outcomes encoder basePath (services.map .Service)
      = some (services.map fun service =>
          encodeOutcome encoder basePath "services".toList (EntityName service.toEntity)
            (.Service (BuildService service))) := by
  induction services with
  | nil => rfl
  | cons service rest ih => rw [List.map_cons, outcomes, outcome, ih]; rfl

theorem generateEnums_eq (m : DataFilesModule) (basePath : List Str) (enums : List pgs.Enum) :
    m.generateEnums basePath enums
      = m.appendCalls (enums.map fun enum =>
          encodeOutcome m.encoder basePath "enums".toList (EntityName enum.toEntity)
            (.Enum (BuildEnum enum))) := by
  induction enums generalizing m with
  | nil => exact (appendCalls_nil m).symm
  | cons enum rest ih =>
    have hstep : (match m.encoder.EncodeData (.Enum (BuildEnum enum)) with
        | .error err => m.AddError err
        | .ok content =>
          m.OverwriteCustomFile
            (basePath ++ ["enums".toList,
              EntityName enum.toEntity ++ ".".toList ++ m.encoder.FileExtension]) content 0o644)
        = m.appendCalls [encodeOutcome m.encoder basePath "enums".toList
            (EntityName enum.toEntity) (.Enum (BuildEnum enum))] := by
      unfold encodeOutcome
      cases m.encoder.EncodeData (.Enum (BuildEnum enum)) <;> rfl
    rw [DataFilesModule.generateEnums]
    simp only [hstep]
    rw [ih, appendCalls_append]
    rfl

theorem generateServices_eq (m : DataFilesModule) (basePath : List Str)
    (services : List pgs.Service) :
    m.generateServices basePath services
      = m.appendCalls (services.map fun service =>
          encodeOutcome m.encoder basePath "services".toList (EntityName service.toEntity)
            (.Service (BuildService service))) := by
  induction services generalizing m with
  | nil => exact (appendCalls_nil m).symm
  | cons service rest ih =>
    have hstep : (match m.encoder.EncodeData (.Service (BuildService service)) with
        | .error err => m.AddError err
        | .ok content =>
          m.OverwriteCustomFile
            (basePath ++ ["services".toList,
              EntityName service.toEntity ++ ".".toList ++ m.encoder.FileExtension])
            content 0o644)
        = m.appendCalls [encodeOutcome m.encoder basePath "services".toList
            (EntityName service.toEntity) (.Service (BuildService service))] := by
      unfold encodeOutcome
      cases m.encoder.EncodeData (.Service (BuildService service)) <;> rfl
    rw [DataFilesModule.generateServices]
    simp only [hstep]
    rw [ih, appendCalls_append]
    rfl

theorem generateMessages_eq (m : DataFilesModule) (basePath : List Str)
    (messages : List pgs.Message) :
    m.generateMessages basePath messages
      = (outcomes m.encoder basePath
          ((messages.filter fun message => !message.IsMapEntry).map .Message)).map
          fun calls => m.appendCalls calls := by
  induction messages generalizing m with
  | nil =>
    rw [DataFilesModule.generateMessages]
    simp [outcomes, appendCalls_nil]
  | cons message rest ih =>
    rw [DataFilesModule.generateMessages]
    cases hentry : message.IsMapEntry with
    | true =>
      simp only [↓reduceIte]
      rw [ih, List.filter_cons_of_neg (by simp [hentry])]
    | false =>
      simp only [Bool.false_eq_true, ↓reduceIte]
      rw [List.filter_cons_of_pos (by simp [hentry]), List.map_cons, outcomes, outcome]
      cases hbuild : BuildMessage message with
      | none => rfl
      | some built =>
        have hstep : (match m.encoder.EncodeData (.Message built) with
            | .error err => m.AddError err
            | .ok content =>
              m.OverwriteCustomFile
                (basePath ++ ["messages".toList,
                  EntityName message.toEntity ++ ".".toList ++ m.encoder.FileExtension])
                content 0o644)
            = m.appendCalls [encodeOutcome m.encoder basePath "messages".toList
                (EntityName message.toEntity) (.Message built)] := by
          unfold encodeOutcome
          cases m.encoder.EncodeData (.Message built) <;> rfl
        simp only [hstep, Option.map_some']
        rw [ih]
        have henc : (m.appendCalls [encodeOutcome m.encoder basePath "messages".toList
            (EntityName message.toEntity) (.Message built)]).encoder = m.encoder := rfl
        rw [henc]
        cases outcomes m.encoder basePath
            ((rest.filter fun message => !message.IsMapEntry).map .Message) with
        | none => rfl
        | some calls =>
          simp only [Option.map_some', appendCalls_append]
          rfl

theorem appendCalls_encoder (m : DataFilesModule) (calls : List ModuleCall) :
    (m.appendCalls calls).encoder = m.encoder := rfl

theorem filesEntities_cons (file : pgs.File) (rest : List pgs.File) :
    filesEntities (file :: rest)
      = if file.BuildTarget then fileEntities file ++ filesEntities rest
        else filesEntities rest := by
  cases h : file.BuildTarget <;> simp [filesEntities, h]

theorem generateFiles_eq (m : DataFilesModule) (basePath : List Str) (files : List pgs.File) :
    m.generateFiles basePath files
      = (outcomes m.encoder basePath (filesEntities files)).map
          fun calls => m.appendCalls calls := by
  induction files generalizing m with
  | nil =>
    rw [DataFilesModule.generateFiles]
    simp [filesEntities, outcomes, appendCalls_nil]
  | cons file rest ih =>
    rw [DataFilesModule.generateFiles, filesEntities_cons]
    cases htarget : file.BuildTarget with
    | false =>
      simp only [Bool.not_false, ↓reduceIte, Bool.false_eq_true]
      exact ih m
    | true =>
      simp only [Bool.not_true, Bool.false_eq_true, ↓reduceIte]
      rw [generateEnums_eq, generateMessages_eq, appendCalls_encoder, fileEntities,
        outcomes_append, outcomes_append, outcomes_append, outcomes_enums, outcomes_services]
      cases outcomes m.encoder basePath
          ((file.AllMessages.filter fun message => !message.IsMapEntry).map .Message) with
      | none => rfl
      | some cm =>
        simp only [Option.map_some', Option.some_bind]
        rw [generateServices_eq, ih]
        simp only [appendCalls_encoder]
        cases outcomes m.encoder basePath (filesEntities rest) with
        | none => rfl
        | some cr =>
          simp only [Option.map_some', appendCalls_append, List.append_assoc]

theorem generatePackage_eq (m : DataFilesModule) (pkg : pgs.Package) :
    m.generatePackage pkg
      = (outcomes m.encoder ["api".toList, pkg.ProtoName] (filesEntities pkg.Files)).map
          fun calls => m.appendCalls calls := by
  rw [DataFilesModule.generatePackage]
  exact generateFiles_eq m _ pkg.Files

theorem outcomes_forall₂ (encoder : Encoder) (basePath : List Str) (entities : List Visited)
    (calls : List ModuleCall) (h : outcomes encoder basePath entities = some calls) :
    List.Forall₂ (fun entity call => outcome encoder basePath entity = some call)
      entities calls := by
  induction entities generalizing calls with
  | nil =>
    rw [outcomes, Option.some.injEq] at h
    subst h
    exact List.Forall₂.nil
  | cons entity rest ih =>
    rw [outcomes] at h
    cases ho : outcome encoder basePath entity with
    | none => simp [ho] at h
    | some call =>
      cases hr : outcomes encoder basePath rest with
      | none => simp [ho, hr] at h
      | some cr =>
        simp only [ho, hr, Option.map_some', Option.some.injEq] at h
        subst h
        exact List.Forall₂.cons ho (ih cr hr)

theorem mem_fileEntities (file : pgs.File) (entity : Visited) :
    entity ∈ fileEntities file ↔
      (∃ enum ∈ file.AllEnums, entity = .Enum enum) ∨
        (∃ message ∈ file.AllMessages, message.IsMapEntry = false ∧ entity = .Message message) ∨
        (∃ service ∈ file.Services, entity = .Service service) := by
  simp only [fileEntities, List.mem_append, List.mem_map, List.mem_filter, Bool.not_eq_true',
    or_assoc]
  constructor
  · rintro (⟨e, he, rfl⟩ | ⟨msg, ⟨hm, hentry⟩, rfl⟩ | ⟨sv, hs, rfl⟩)
    · exact Or.inl ⟨e, he, rfl⟩
    · exact Or.inr (Or.inl ⟨msg, hm, hentry, rfl⟩)
    · exact Or.inr (Or.inr ⟨sv, hs, rfl⟩)
  · rintro (⟨e, he, rfl⟩ | ⟨msg, hm, hentry, rfl⟩ | ⟨sv, hs, rfl⟩)
    · exact Or.inl ⟨e, he, rfl⟩
    · exact Or.inr (Or.inl ⟨msg, ⟨hm, hentry⟩, rfl⟩)
    · exact Or.inr (Or.inr ⟨sv, hs, rfl⟩)

theorem mem_filesEntities (files : List pgs.File) (entity : Visited) :
    entity ∈ filesEntities files ↔
      ∃ file ∈ files, file.BuildTarget = true ∧ entity ∈ fileEntities file := by
  simp only [filesEntities, List.mem_flatten, List.mem_map, List.mem_filter]
  constructor
  · rintro ⟨l, ⟨file, ⟨hf, ht⟩, rfl⟩, he⟩
    exact ⟨file, hf, ht, he⟩
  · rintro ⟨file, hf, ht, he⟩
    exact ⟨_, ⟨file, ⟨hf, ht⟩, rfl⟩, he⟩

theorem encodeOutcome_artifact (encoder : Encoder) (basePath : List Str) (category name : Str)
    (data : Data) (path : List Str) (content : Str) (perm : Nat)
    (h : encodeOutcome encoder basePath category name data
      = .OverwriteCustomFile path content perm) :
    path = basePath ++ [category, name ++ ".".toList ++ encoder.FileExtension] ∧
      encoder.EncodeData data = .ok content := by
  unfold encodeOutcome at h
  cases hd : encoder.EncodeData data with
  | error err => simp [hd] at h
  | ok c =>
    simp only [hd, ModuleCall.OverwriteCustomFile.injEq] at h
    exact ⟨h.1.symm, by rw [h.2.1]⟩

theorem outcomes_isSome (encoder : Encoder) (basePath : List Str) (entities : List Visited)
    (h : ∀ entity ∈ entities, (outcome encoder basePath entity).isSome = true) :
    (outcomes encoder basePath entities).isSome = true := by
  induction entities with
  | nil => rfl
  | cons entity rest ih =>
    have h1 := h entity (List.mem_cons_self _ _)
    have h2 := ih fun e he => h e (List.mem_cons_of_mem _ he)
    obtain ⟨call, hc⟩ := Option.isSome_iff_exists.mp h1
    obtain ⟨calls, hcs⟩ := Option.isSome_iff_exists.mp h2
    rw [outcomes, hc, hcs]
    rfl

theorem outcomes_mem (encoder : Encoder) (basePath : List Str) (entities : List Visited)
    (calls : List ModuleCall) (h : outcomes encoder basePath entities = some calls)
    (call : ModuleCall) (hc : call ∈ calls) :
    ∃ entity ∈ entities, outcome encoder basePath entity = some call := by
  have hf := outcomes_forall₂ encoder basePath entities calls h
  clear h
  induction hf with
  | nil => exact absurd hc (List.not_mem_nil _)
  | cons hhead _ ih =>
    rcases List.mem_cons.mp hc with rfl | hc'
    · exact ⟨_, List.mem_cons_self _ _, hhead⟩
    · obtain ⟨entity, he, ho⟩ := ih hc'
      exact ⟨entity, List.mem_cons_of_mem _ he, ho⟩

theorem generatePackage_some (m m' : DataFilesModule) (pkg : pgs.Package)
    (h : m.generatePackage pkg = some m') :
    ∃ calls, outcomes m.encoder ["api".toList, pkg.ProtoName] (filesEntities pkg.Files)
        = some calls ∧ m' = m.appendCalls calls := by
  rw [generatePackage_eq] at h
  cases ho : outcomes m.encoder ["api".toList, pkg.ProtoName] (filesEntities pkg.Files) with
  | none =>
    rw [ho] at h
    exact absurd h (by simp)
  | some calls =>
    rw [ho] at h
    exact ⟨calls, rfl, (Option.some.inj h).symm⟩

/-- C19: every artifact that `generatePackage` emits comes from an enum, from a
message that is not a map entry, or from a service, of a file of the package
that is a build target, and sits under `enums`, `messages` or `services`
accordingly; a package whose files are not build targets gets no call at
all. -/
theorem generatePackage_artifacts (m : DataFilesModule) (pkg : pgs.Package) :
    (∀ m', m.generatePackage pkg = some m' →
      ∃ calls, m'.calls = m.calls ++ calls ∧
        ∀ path content perm, ModuleCall.OverwriteCustomFile path content perm ∈ calls →
          ∃ file ∈ pkg.Files, file.BuildTarget = true ∧
            ((∃ enum ∈ file.AllEnums,
                path = ["api".toList, pkg.ProtoName, "enums".toList,
                  EntityName enum.toEntity ++ ".".toList ++ m.encoder.FileExtension] ∧
                m.encoder.EncodeData (.Enum (BuildEnum enum)) = .ok content) ∨
              (∃ message ∈ file.AllMessages, message.IsMapEntry = false ∧
                ∃ built, BuildMessage message = some built ∧
                  path = ["api".toList, pkg.ProtoName, "messages".toList,
                    EntityName message.toEntity ++ ".".toList ++ m.encoder.FileExtension] ∧
                  m.encoder.EncodeData (.Message built) = .ok content) ∨
              (∃ service ∈ file.Services,
                path = ["api".toList, pkg.ProtoName, "services".toList,
                  EntityName service.toEntity ++ ".".toList ++ m.encoder.FileExtension] ∧
                m.encoder.EncodeData (.Service (BuildService service)) = .ok content))) ∧
      ((∀ file ∈ pkg.Files, file.BuildTarget = false) → m.generatePackage pkg = some m) := by
  constructor
  · intro m' h
    obtain ⟨calls, ho, rfl⟩ := generatePackage_some m m' pkg h
    refine ⟨calls, rfl, fun path content perm hc => ?_⟩
    obtain ⟨entity, hmem, hout⟩ := outcomes_mem _ _ _ _ ho _ hc
    obtain ⟨file, hfile, htarget, hent⟩ := (mem_filesEntities _ _).mp hmem
    refine ⟨file, hfile, htarget, ?_⟩
    rcases (mem_fileEntities _ _).mp hent with
      ⟨enum, he, rfl⟩ | ⟨message, hm, hentry, rfl⟩ | ⟨service, hs, rfl⟩
    · rw [outcome, Option.some.injEq] at hout
      exact Or.inl ⟨enum, he, encodeOutcome_artifact _ _ _ _ _ _ _ _ hout⟩
    · rw [outcome] at hout
      cases hb : BuildMessage message with
      | none => simp [hb] at hout
      | some built =>
        simp only [hb, Option.map_some', Option.some.injEq] at hout
        exact Or.inr (Or.inl ⟨message, hm, hentry, built, hb,
          encodeOutcome_artifact _ _ _ _ _ _ _ _ hout⟩)
    · rw [outcome, Option.some.injEq] at hout
      exact Or.inr (Or.inr ⟨service, hs, encodeOutcome_artifact _ _ _ _ _ _ _ _ hout⟩)
  · intro hall
    have hnil : filesEntities pkg.Files = [] := by
      have hf : (pkg.Files.filter fun file => file.BuildTarget) = [] :=
        List.filter_eq_nil_iff.mpr fun file hfile => by simp [hall file hfile]
      rw [filesEntities, hf]
      rfl
    rw [generatePackage_eq, hnil, outcomes, Option.map_some', appendCalls_nil]

/-- C19, at a package whose files are only imported, which gets no call, and at
a package with one build-target file between two imported files, whose calls
are the artifacts of the enum, of the message that is not a map entry and of
the service of that file. -/
theorem generatePackage_artifacts_witness :
    (({ encoder := exEncoderOk } : DataFilesModule).generatePackage exImportedPackage).map
        (fun m => m.calls) = some [] ∧
      (({ encoder := exEncoderOk } : DataFilesModule).generatePackage exPackage).map
        (fun m => m.calls)
        = some [
          .OverwriteCustomFile ["api".toList, "pkg".toList, "enums".toList, "Kind.json".toList]
            "enum".toList 0o644,
          .OverwriteCustomFile
            ["api".toList, "pkg".toList, "messages".toList, "Outer.Msg.json".toList]
            "message".toList 0o644,
          .OverwriteCustomFile ["api".toList, "pkg".toList, "services".toList, "Svc.json".toList]
            "service".toList 0o644] := by
  constructor
  · rw [(generatePackage_artifacts { encoder := exEncoderOk } exImportedPackage).2 (by decide)]
    rfl
  · decide

/-- C20: for every package and encoder, `generatePackage` either aborts, which
happens only when the record of a visited message cannot be built, or appends
to the calls of the module exactly one outcome for each enum, message that is
not a map entry and service of the build-target files, in the order of the
walk: the artifact when the encoder succeeds on the record, the diagnostic when
it fails. The outcome of an entity depends on this entity and the encoder only,
so a failure does not change the outcome of another entity. -/
theorem generatePackage_outcomes (m : DataFilesModule) (pkg : pgs.Package) :
    m.generatePackage pkg
        = (outcomes m.encoder ["api".toList, pkg.ProtoName] (filesEntities pkg.Files)).map
            (fun calls => m.appendCalls calls) ∧
      (∀ m', m.generatePackage pkg = some m' →
        ∃ calls, m'.calls = m.calls ++ calls ∧
          calls.length = (filesEntities pkg.Files).length ∧
          List.Forall₂
            (fun entity call => outcome m.encoder ["api".toList, pkg.ProtoName] entity = some call)
            (filesEntities pkg.Files) calls) ∧
      ((∀ file ∈ pkg.Files, file.BuildTarget = true → ∀ message ∈ file.AllMessages,
          message.IsMapEntry = false → (BuildMessage message).isSome = true) →
        (m.generatePackage pkg).isSome = true) ∧
      (∀ (basePath : List Str) (category name : Str) (data : Data),
        (∀ content, m.encoder.EncodeData data = .ok content →
          encodeOutcome m.encoder basePath category name data
            = .OverwriteCustomFile
                (basePath ++ [category, name ++ ".".toList ++ m.encoder.FileExtension])
                content 0o644) ∧
          (∀ err, m.encoder.EncodeData data = .error err →
            encodeOutcome m.encoder basePath category name data = .AddError err)) := by
  refine ⟨generatePackage_eq m pkg, fun m' h => ?_, fun hbuild => ?_,
    fun basePath category name data => ⟨fun content h => ?_, fun err h => ?_⟩⟩
  · obtain ⟨calls, ho, rfl⟩ := generatePackage_some m m' pkg h
    have hf := outcomes_forall₂ _ _ _ _ ho
    exact ⟨calls, rfl, hf.length_eq.symm, hf⟩
  · rw [generatePackage_eq, Option.isSome_map']
    refine outcomes_isSome _ _ _ fun entity hmem => ?_
    obtain ⟨file, hfile, htarget, hent⟩ := (mem_filesEntities _ _).mp hmem
    rcases (mem_fileEntities _ _).mp hent with
      ⟨enum, _, rfl⟩ | ⟨message, hm, hentry, rfl⟩ | ⟨service, _, rfl⟩
    · rfl
    · rw [outcome, Option.isSome_map']
      exact hbuild file hfile htarget message hm hentry
    · rfl
  · rw [encodeOutcome, h]
  · rw [encodeOutcome, h]

/-- C20, at a package with one build-target file and an encoder that fails on
messages: the enum and the service yield their artifacts, the message yields
the diagnostic and no artifact, and the map-entry message and the imported
files yield nothing. -/
theorem generatePackage_outcomes_witness :
    (({ encoder := exEncoder } : DataFilesModule).generatePackage exPackage).map
        (fun m => m.calls)
      = some [
          .OverwriteCustomFile ["api".toList, "pkg".toList, "enums".toList, "Kind.json".toList]
            "enum".toList 0o644,
          .AddError "unsupported".toList,
          .OverwriteCustomFile ["api".toList, "pkg".toList, "services".toList, "Svc.json".toList]
            "service".toList 0o644] := by
  rw [(generatePackage_outcomes { encoder := exEncoder } exPackage).1]
  decide

/-! ### Comment cleaning, defaults and guards -/

/-- C21, as stated, fails: for the lines as the specification prints them, with
two leading spaces each, `cleanComments` removes one space from each line and
returns " note\n more", not "note\nmore". -/
theorem cleanComments_two_spaces :
    cleanComments "  note\n  more".toList = " note\n more".toList ∧
      cleanComments "  note\n  more".toList ≠ "note\nmore".toList := by
  decide

/-- C21, amended: for the text whose lines are " note" and " more", each with
exactly one leading space, `cleanComments` returns "note\nmore"; for the lines
with two leading spaces it returns " note\n more". -/
theorem cleanComments_one_space :
    cleanComments " note\n more".toList = "note\nmore".toList ∧
      cleanComments "  note\n  more".toList = " note\n more".toList := by
  decide

/-- C23: on a singular enum field, `BuildFieldDefault` returns exactly when the
enum declares at least one value: with a first value it returns the name of
that value, and with no value it aborts. -/
theorem BuildFieldDefault_enum_safe (src : pgs.FieldType) (hrep : src.IsRepeated = false)
    (hmap : src.IsMap = false) (henum : src.IsEnum = true) :
    ((BuildFieldDefault src).isSome = true ↔ src.Enum.Values ≠ []) ∧
      (src.Enum.Values = [] → BuildFieldDefault src = none) ∧
      (∀ first others, src.Enum.Values = first :: others →
        BuildFieldDefault src = some (.string first.Name)) := by
  have h : BuildFieldDefault src = src.Enum.Values[0]?.map fun value => .string value.Name := by
    simp only [BuildFieldDefault, hrep, hmap, henum]
    rfl
  rw [h]
  cases hv : src.Enum.Values with
  | nil => simp
  | cons first others => simp

/-- C23, at an enum without values, where the call aborts, and at the enum
`pkg.Kind`, where it returns the name of the first value. -/
theorem BuildFieldDefault_enum_safe_witness :
    BuildFieldDefault exEmptyEnumField = none ∧
      BuildFieldDefault (exSingular (exEnumElem exKind))
        = some (.string "FOO_UNSPECIFIED".toList) :=
  ⟨(BuildFieldDefault_enum_safe exEmptyEnumField rfl rfl rfl).2.1 rfl,
    (BuildFieldDefault_enum_safe (exSingular (exEnumElem exKind)) rfl rfl rfl).2.2 _ _ rfl⟩

theorem addEnumRules_fields (f : FieldRules) (r : validate.EnumRules) :
    (f.addEnumRules r).DefinedOnly = r.GetDefinedOnly ∧
      (f.addEnumRules r).Const = (r.Const.map (GoValue.num .int32)).getD f.Const ∧
      (f.addEnumRules r).In = (r.In.map (GoValue.nums .int32)).getD f.In ∧
      (f.addEnumRules r).NotIn = (r.NotIn.map (GoValue.nums .int32)).getD f.NotIn ∧
      { f.addEnumRules r with
        DefinedOnly := f.DefinedOnly
        Const := f.Const
        In := f.In
        NotIn := f.NotIn } = f := by
  unfold FieldRules.addEnumRules
  cases r.Const <;> cases r.In <;> cases r.NotIn <;> exact ⟨rfl, rfl, rfl, rfl, rfl⟩

theorem AddFieldRules_message_only (f : FieldRules) (msg : Option validate.MessageRules)
    (t : PGSFieldType) :
    f.AddFieldRules (some (.mk msg none)) t
      = match msg with
        | some rules => if t.IsEmbed then f.addMessageRules rules else f
        | none => f := by
  cases msg <;> rfl

theorem AddFieldRules_enum_applied (f : FieldRules) (t : PGSFieldType)
    (msg : Option validate.MessageRules) (r : validate.EnumRules) (h : t.IsEnum = true) :
    f.AddFieldRules (some (.mk msg (some (.Enum r)))) t
      = (f.addEnumRules r).AddFieldRules (some (.mk msg none)) t := by
  cases msg <;>
    simp only [FieldRules.AddFieldRules, validate.FieldRules.GetEnum,
      validate.FieldRules.Type_, h, ↓reduceIte] <;> rfl

theorem AddFieldRules_enum_skipped (f : FieldRules) (t : PGSFieldType)
    (msg : Option validate.MessageRules) (r : validate.EnumRules) (h : t.IsEnum = false) :
    f.AddFieldRules (some (.mk msg (some (.Enum r)))) t
      = f.AddFieldRules (some (.mk msg none)) t := by
  cases msg <;>
    simp only [FieldRules.AddFieldRules, validate.FieldRules.GetEnum,
      validate.FieldRules.Type_, h, Bool.false_eq_true, ↓reduceIte] <;> rfl

theorem AddFieldRules_message_applied (f : FieldRules) (t : PGSFieldType)
    (m : validate.MessageRules) (ty : Option (validate.FieldRules_Type validate.FieldRules))
    (h : t.IsEmbed = true) :
    f.AddFieldRules (some (.mk (some m) ty)) t
      = if validate.afterMessage ty then
          (f.addMessageRules m).AddFieldRules (some (.mk none ty)) t
        else (f.AddFieldRules (some (.mk none ty)) t).addMessageRules m := by
  rcases ty with _ | ty
  · simp only [FieldRules.AddFieldRules, validate.FieldRules.GetMessage,
      validate.FieldRules.Message, h, ↓reduceIte]
    rfl
  · cases ty <;>
      simp only [FieldRules.AddFieldRules, validate.FieldRules.GetMessage,
        validate.FieldRules.Message, h, ↓reduceIte] <;> rfl

theorem AddFieldRules_message_skipped (f : FieldRules) (t : PGSFieldType)
    (msg : Option validate.MessageRules)
    (ty : Option (validate.FieldRules_Type validate.FieldRules)) (h : t.IsEmbed = false) :
    f.AddFieldRules (some (.mk msg ty)) t = f.AddFieldRules (some (.mk none ty)) t := by
  cases msg with
  | none => rfl
  | some m =>
    simp only [FieldRules.AddFieldRules, validate.FieldRules.GetMessage,
      validate.FieldRules.Message, h, Bool.false_eq_true, ↓reduceIte]
    rfl

theorem addAnyRules_skip (f : FieldRules) (r : validate.AnyRules) :
    (f.addAnyRules r).Skip = f.Skip := by
  unfold FieldRules.addAnyRules
  cases r.In <;> cases r.NotIn <;> rfl

theorem addDurationRules_skip (f : FieldRules) (r : validate.DurationRules) :
    (f.addDurationRules r).Skip = f.Skip ∧ (f.addDurationRules r).Required = f.Required := by
  unfold FieldRules.addDurationRules
  cases r.Const <;> cases r.Lt <;> cases r.Lte <;> cases r.Gt <;> cases r.Gte <;>
    cases r.In <;> cases r.NotIn <;> exact ⟨rfl, rfl⟩

theorem addTimestampRules_skip (f : FieldRules) (r : validate.TimestampRules) :
    (f.addTimestampRules r).Skip = f.Skip := by
  unfold FieldRules.addTimestampRules
  cases r.Const <;> cases r.Lt <;> cases r.Lte <;> cases r.Gt <;> cases r.Gte <;>
    cases r.Within <;> rfl

theorem AddFieldRules_message_skip (f : FieldRules) (t : PGSFieldType)
    (m : validate.MessageRules) (ty : Option (validate.FieldRules_Type validate.FieldRules))
    (h : t.IsEmbed = true) :
    (f.AddFieldRules (some (.mk (some m) ty)) t).Skip = m.GetSkip := by
  rw [AddFieldRules_message_applied f t m ty h]
  rcases ty with _ | ty
  · rfl
  · cases ty
    case Any r => exact addAnyRules_skip _ r
    case Duration r => exact (addDurationRules_skip _ r).1
    case Timestamp r => exact addTimestampRules_skip _ r
    all_goals rfl

/-- C24: `FieldRules.AddFieldRules` applies the enum rules exactly when the enum
group is set and `t.IsEnum()` holds, and the message rules exactly when the
message group is set and `t.IsEmbed()` holds. When `t.IsEmbed()` fails the
result is the one without the message group; when `t.IsEnum()` fails the result
of an enum group is the one without it, and `DefinedOnly`, `Const`, `In` and
`NotIn` keep their values. When `t.IsEnum()` holds, an enum group is applied
whatever the message group is, and `DefinedOnly`, `Const`, `In` and `NotIn` of
the result are those of the enum rules (`Const`, `In` and `NotIn` when the rules
have them). When `t.IsEmbed()` holds, a message group is applied whatever the
other group is, after every group but any, duration and timestamp, and `Skip`
of the result is the one of the message rules, as is `Required` unless a later
group sets it. -/
theorem AddFieldRules_guards (f : FieldRules) (t : PGSFieldType) :
    (∀ msg ty, t.IsEmbed = false →
        f.AddFieldRules (some (.mk msg ty)) t = f.AddFieldRules (some (.mk none ty)) t) ∧
      (∀ msg r, t.IsEnum = false →
        f.AddFieldRules (some (.mk msg (some (.Enum r)))) t
          = f.AddFieldRules (some (.mk msg none)) t) ∧
      (∀ r, f.AddFieldRules (some (.mk none (some (.Enum r)))) t
        = if t.IsEnum then f.addEnumRules r else f) ∧
      (∀ m, f.AddFieldRules (some (.mk (some m) none)) t
        = if t.IsEmbed then f.addMessageRules m else f) ∧
      (∀ r m, t.IsEnum = true → t.IsEmbed = true →
        f.AddFieldRules (some (.mk (some m) (some (.Enum r)))) t
          = (f.addEnumRules r).addMessageRules m) ∧
      f.AddFieldRules (some (.mk none none)) t = f ∧
      (∀ m, (f.addMessageRules m).Skip = m.GetSkip ∧
        (f.addMessageRules m).Required = m.GetRequired ∧
        { f.addMessageRules m with Skip := f.Skip, Required := f.Required } = f) ∧
      (∀ r, (f.addEnumRules r).DefinedOnly = r.GetDefinedOnly ∧
        (f.addEnumRules r).Const = (r.Const.map (GoValue.num .int32)).getD f.Const ∧
        (f.addEnumRules r).In = (r.In.map (GoValue.nums .int32)).getD f.In ∧
        (f.addEnumRules r).NotIn = (r.NotIn.map (GoValue.nums .int32)).getD f.NotIn ∧
        { f.addEnumRules r with
          DefinedOnly := f.DefinedOnly
          Const := f.Const
          In := f.In
          NotIn := f.NotIn } = f) ∧
      (∀ msg r, t.IsEnum = true →
        f.AddFieldRules (some (.mk msg (some (.Enum r)))) t
            = (f.addEnumRules r).AddFieldRules (some (.mk msg none)) t ∧
          (f.AddFieldRules (some (.mk msg (some (.Enum r)))) t).DefinedOnly
            = r.GetDefinedOnly ∧
          (f.AddFieldRules (some (.mk msg (some (.Enum r)))) t).Const
            = (r.Const.map (GoValue.num .int32)).getD f.Const ∧
          (f.AddFieldRules (some (.mk msg (some (.Enum r)))) t).In
            = (r.In.map (GoValue.nums .int32)).getD f.In ∧
          (f.AddFieldRules (some (.mk msg (some (.Enum r)))) t).NotIn
            = (r.NotIn.map (GoValue.nums .int32)).getD f.NotIn) ∧
      (∀ msg r, t.IsEnum = false →
        (f.AddFieldRules (some (.mk msg (some (.Enum r)))) t).DefinedOnly = f.DefinedOnly ∧
          (f.AddFieldRules (some (.mk msg (some (.Enum r)))) t).Const = f.Const ∧
          (f.AddFieldRules (some (.mk msg (some (.Enum r)))) t).In = f.In ∧
          (f.AddFieldRules (some (.mk msg (some (.Enum r)))) t).NotIn = f.NotIn) ∧
      (∀ m ty, t.IsEmbed = true →
        f.AddFieldRules (some (.mk (some m) ty)) t
            = (if validate.afterMessage ty then
                (f.addMessageRules m).AddFieldRules (some (.mk none ty)) t
              else (f.AddFieldRules (some (.mk none ty)) t).addMessageRules m) ∧
          (f.AddFieldRules (some (.mk (some m) ty)) t).Skip = m.GetSkip ∧
          (validate.afterMessage ty = false →
            (f.AddFieldRules (some (.mk (some m) ty)) t).Required = m.GetRequired) ∧
          (∀ r, ty = some (.Duration r) →
            (f.AddFieldRules (some (.mk (some m) ty)) t).Required = m.GetRequired)) := by
  refine ⟨AddFieldRules_message_skipped f t, AddFieldRules_enum_skipped f t, fun r => ?_,
    fun m => ?_, fun r m h1 h2 => ?_, rfl, fun m => ⟨rfl, rfl, rfl⟩,
    addEnumRules_fields f, fun msg r h => ?_, fun msg r h => ?_, fun m ty h => ?_⟩
  · cases h : t.IsEnum <;>
      simp only [FieldRules.AddFieldRules, validate.FieldRules.GetEnum,
        validate.FieldRules.Type_, h, Bool.false_eq_true, ↓reduceIte] <;> rfl
  · cases h : t.IsEmbed <;>
      simp only [FieldRules.AddFieldRules, validate.FieldRules.GetMessage,
        validate.FieldRules.Message, h, Bool.false_eq_true, ↓reduceIte] <;> rfl
  · simp only [FieldRules.AddFieldRules, validate.FieldRules.GetEnum,
      validate.FieldRules.GetMessage, validate.FieldRules.Message, validate.FieldRules.Type_,
      h1, h2, ↓reduceIte]
    rfl
  · obtain ⟨e1, e2, e3, e4, _⟩ := addEnumRules_fields f r
    refine ⟨AddFieldRules_enum_applied f t msg r h, ?_, ?_, ?_, ?_⟩ <;>
      rw [AddFieldRules_enum_applied f t msg r h, AddFieldRules_message_only] <;>
      rcases msg with _ | m
    · exact e1
    · cases t.IsEmbed <;> exact e1
    · exact e2
    · cases t.IsEmbed <;> exact e2
    · exact e3
    · cases t.IsEmbed <;> exact e3
    · exact e4
    · cases t.IsEmbed <;> exact e4
  · refine ⟨?_, ?_, ?_, ?_⟩ <;>
      rw [AddFieldRules_enum_skipped f t msg r h, AddFieldRules_message_only] <;>
      rcases msg with _ | m
    · rfl
    · cases t.IsEmbed <;> rfl
    · rfl
    · cases t.IsEmbed <;> rfl
    · rfl
    · cases t.IsEmbed <;> rfl
    · rfl
    · cases t.IsEmbed <;> rfl
  · refine ⟨AddFieldRules_message_applied f t m ty h, AddFieldRules_message_skip f t m ty h,
      fun hafter => ?_, fun r hty => ?_⟩
    · rw [AddFieldRules_message_applied f t m ty h, hafter]
      rfl
    · subst hty
      rw [AddFieldRules_message_applied f t m _ h]
      exact (addDurationRules_skip _ r).2

/-- C24, at extensions with an enum group or an any group and a message group:
with the type of a string field the record is unchanged; with the type of an
enum `DefinedOnly`, `Const`, `In` and `NotIn` are set and the message rules are
not; with the type of a message `Skip` and `Required` are set, also next to an
any group, and the enum rules are not. -/
theorem AddFieldRules_guards_witness :
    FieldRules.AddFieldRules {} (some exEnumMessageRules) (exScalarElem .StringT) = {} ∧
      FieldRules.AddFieldRules {} (some exEnumMessageRules) (exEnumElem exKind)
        = { DefinedOnly := true } ∧
      FieldRules.AddFieldRules {} (some exEnumMessageRules) (exEmbedElem exFoo)
        = { Required := true } ∧
      FieldRules.AddFieldRules {} (some exEnumFullRules) (exEnumElem exKind)
        = { DefinedOnly := true
            Const := .num .int32 1
            In := .nums .int32 [1, 2]
            NotIn := .nums .int32 [3] } ∧
      FieldRules.AddFieldRules {} (some exEnumFullRules) (exEmbedElem exFoo)
        = { Skip := true, Required := true } ∧
      FieldRules.AddFieldRules {} (some exAnyMessageRules) (exEmbedElem (exWellKnown "Any"))
        = { Skip := true, In := .strings ["a".toList] } := by
  have h1 := (AddFieldRules_guards {} (exScalarElem .StringT)).1
    (some { Required := some true }) (some (.Enum { DefinedOnly := some true })) rfl
  have h2 := (AddFieldRules_guards {} (exScalarElem .StringT)).2.1 none
    { DefinedOnly := some true } rfl
  refine ⟨?_, ?_, ?_, ?_, ?_, ?_⟩
  · exact h1.trans (h2.trans (AddFieldRules_guards {} (exScalarElem .StringT)).2.2.2.2.2.1)
  · exact ((AddFieldRules_guards {} (exEnumElem exKind)).1 _ _ rfl).trans
      ((AddFieldRules_guards {} (exEnumElem exKind)).2.2.1 _)
  · exact ((AddFieldRules_guards {} (exEmbedElem exFoo)).2.1 _ _ rfl).trans
      ((AddFieldRules_guards {} (exEmbedElem exFoo)).2.2.2.1 _)
  · exact ((AddFieldRules_guards {} (exEnumElem exKind)).1 _ _ rfl).trans
      (((AddFieldRules_guards {} (exEnumElem exKind)).2.2.1 _).trans (by decide))
  · exact ((AddFieldRules_guards {} (exEmbedElem exFoo)).2.1 _ _ rfl).trans
      (((AddFieldRules_guards {} (exEmbedElem exFoo)).2.2.2.1 _).trans (by decide))
  · exact ((AddFieldRules_guards {} (exEmbedElem (exWellKnown "Any"))).2.2.2.2.2.2.2.2.2.2
      _ _ rfl).1.trans (by decide)

/-! ### Numeric rules -/

theorem addFloatRules_eq (f : FieldRules) (src : validate.NumericRules) :
    f.addFloatRules src = addNumericRules .float32 f src := by
  unfold FieldRules.addFloatRules addNumericRules
  cases src.Const <;> cases src.Lt <;> cases src.Lte <;> cases src.Gt <;> cases src.Gte <;>
    cases src.In <;> cases src.NotIn <;> rfl

theorem addDoubleRules_eq (f : FieldRules) (src : validate.NumericRules) :
    f.addDoubleRules src = addNumericRules .float64 f src := by
  unfold FieldRules.addDoubleRules addNumericRules
  cases src.Const <;> cases src.Lt <;> cases src.Lte <;> cases src.Gt <;> cases src.Gte <;>
    cases src.In <;> cases src.NotIn <;> rfl

theorem addInt32Rules_eq (f : FieldRules) (src : validate.NumericRules) :
    f.addInt32Rules src = addNumericRules .int32 f src := by
  unfold FieldRules.addInt32Rules addNumericRules
  cases src.Const <;> cases src.Lt <;> cases src.Lte <;> cases src.Gt <;> cases src.Gte <;>
    cases src.In <;> cases src.NotIn <;> rfl

theorem addInt64Rules_eq (f : FieldRules) (src : validate.NumericRules) :
    f.addInt64Rules src = addNumericRules .int64 f src := by
  unfold FieldRules.addInt64Rules addNumericRules
  cases src.Const <;> cases src.Lt <;> cases src.Lte <;> cases src.Gt <;> cases src.Gte <;>
    cases src.In <;> cases src.NotIn <;> rfl

theorem addUint32Rules_eq (f : FieldRules) (src : validate.NumericRules) :
    f.addUint32Rules src = addNumericRules .uint32 f src := by
  unfold FieldRules.addUint32Rules addNumericRules
  cases src.Const <;> cases src.Lt <;> cases src.Lte <;> cases src.Gt <;> cases src.Gte <;>
    cases src.In <;> cases src.NotIn <;> rfl

theorem addUint64Rules_eq (f : FieldRules) (src : validate.NumericRules) :
    f.addUint64Rules src = addNumericRules .uint64 f src := by
  unfold FieldRules.addUint64Rules addNumericRules
  cases src.Const <;> cases src.Lt <;> cases src.Lte <;> cases src.Gt <;> cases src.Gte <;>
    cases src.In <;> cases src.NotIn <;> rfl

theorem addSint32Rules_eq (f : FieldRules) (src : validate.NumericRules) :
    f.addSint32Rules src = addNumericRules .int32 f src := by
  unfold FieldRules.addSint32Rules addNumericRules
  cases src.Const <;> cases src.Lt <;> cases src.Lte <;> cases src.Gt <;> cases src.Gte <;>
    cases src.In <;> cases src.NotIn <;> rfl

theorem addSint64Rules_eq (f : FieldRules) (src : validate.NumericRules) :
    f.addSint64Rules src = addNumericRules .int64 f src := by
  unfold FieldRules.addSint64Rules addNumericRules
  cases src.Const <;> cases src.Lt <;> cases src.Lte <;> cases src.Gt <;> cases src.Gte <;>
    cases src.In <;> cases src.NotIn <;> rfl

theorem addFixed32Rules_eq (f : FieldRules) (src : validate.NumericRules) :
    f.addFixed32Rules src = addNumericRules .uint32 f src := by
  unfold FieldRules.addFixed32Rules addNumericRules
  cases src.Const <;> cases src.Lt <;> cases src.Lte <;> cases src.Gt <;> cases src.Gte <;>
    cases src.In <;> cases src.NotIn <;> rfl

theorem addFixed64Rules_eq (f : FieldRules) (src : validate.NumericRules) :
    f.addFixed64Rules src = addNumericRules .uint64 f src := by
  unfold FieldRules.addFixed64Rules addNumericRules
  cases src.Const <;> cases src.Lt <;> cases src.Lte <;> cases src.Gt <;> cases src.Gte <;>
    cases src.In <;> cases src.NotIn <;> rfl

theorem addSfixed32Rules_eq (f : FieldRules) (src : validate.NumericRules) :
    f.addSfixed32Rules src = addNumericRules .int32 f src := by
  unfold FieldRules.addSfixed32Rules addNumericRules
  cases src.Const <;> cases src.Lt <;> cases src.Lte <;> cases src.Gt <;> cases src.Gte <;>
    cases src.In <;> cases src.NotIn <;> rfl

theorem addSfixed64Rules_eq (f : FieldRules) (src : validate.NumericRules) :
    f.addSfixed64Rules src = addNumericRules .int64 f src := by
  unfold FieldRules.addSfixed64Rules addNumericRules
  cases src.Const <;> cases src.Lt <;> cases src.Lte <;> cases src.Gt <;> cases src.Gte <;>
    cases src.In <;> cases src.NotIn <;> rfl

/-- C22: each of the twelve numeric rule adders is the one comparison extractor
`addNumericRules` at the Go type of its values; the extractor sets `Const`,
`Lt`, `Lte`, `Gt`, `Gte`, `In` and `NotIn` to the value of the source exactly
when the source has it, sets `IgnoreEmpty` to the flag of the source, and
changes no other field: with these eight fields put back, the record is the one
it started from. -/
theorem numeric_adders_generic (f : FieldRules) (src : validate.NumericRules) :
    (f.addFloatRules src = addNumericRules .float32 f src ∧
      f.addDoubleRules src = addNumericRules .float64 f src ∧
      f.addInt32Rules src = addNumericRules .int32 f src ∧
      f.addInt64Rules src = addNumericRules .int64 f src ∧
      f.addUint32Rules src = addNumericRules .uint32 f src ∧
      f.addUint64Rules src = addNumericRules .uint64 f src ∧
      f.addSint32Rules src = addNumericRules .int32 f src ∧
      f.addSint64Rules src = addNumericRules .int64 f src ∧
      f.addFixed32Rules src = addNumericRules .uint32 f src ∧
      f.addFixed64Rules src = addNumericRules .uint64 f src ∧
      f.addSfixed32Rules src = addNumericRules .int32 f src ∧
      f.addSfixed64Rules src = addNumericRules .int64 f src) ∧
      (∀ t : NumType,
        (addNumericRules t f src).Const = (src.Const.map (GoValue.numPtr t)).getD f.Const ∧
          (addNumericRules t f src).Lt = (src.Lt.map (GoValue.numPtr t)).getD f.Lt ∧
          (addNumericRules t f src).Lte = (src.Lte.map (GoValue.numPtr t)).getD f.Lte ∧
          (addNumericRules t f src).Gt = (src.Gt.map (GoValue.numPtr t)).getD f.Gt ∧
          (addNumericRules t f src).Gte = (src.Gte.map (GoValue.numPtr t)).getD f.Gte ∧
          (addNumericRules t f src).In = (src.In.map (GoValue.nums t)).getD f.In ∧
          (addNumericRules t f src).NotIn = (src.NotIn.map (GoValue.nums t)).getD f.NotIn ∧
          (addNumericRules t f src).IgnoreEmpty = src.IgnoreEmpty.getD false ∧
          { addNumericRules t f src with
            Const := f.Const
            Lt := f.Lt
            Lte := f.Lte
            Gt := f.Gt
            Gte := f.Gte
            In := f.In
            NotIn := f.NotIn
            IgnoreEmpty := f.IgnoreEmpty } = f) := by
  refine ⟨⟨addFloatRules_eq f src,
    addDoubleRules_eq f src,
    addInt32Rules_eq f src,
    addInt64Rules_eq f src,
    addUint32Rules_eq f src,
    addUint64Rules_eq f src,
    addSint32Rules_eq f src,
    addSint64Rules_eq f src,
    addFixed32Rules_eq f src,
    addFixed64Rules_eq f src,
    addSfixed32Rules_eq f src,
    addSfixed64Rules_eq f src⟩, fun t => ?_⟩
  unfold addNumericRules
  cases src.Const <;> cases src.Lt <;> cases src.Lte <;> cases src.Gt <;> cases src.Gte <;>
    cases src.In <;> cases src.NotIn <;> exact ⟨rfl, rfl, rfl, rfl, rfl, rfl, rfl, rfl, rfl⟩

/-! ### Trailing white space -/

theorem trimRightFunc_getLast (s : Str) (f : Char → Bool) (ch : Char)
    (h : (TrimRightFunc s f).getLast? = some ch) : f ch = false := by
  rw [TrimRightFunc, List.getLast?_reverse] at h
  have hd := List.head?_dropWhile_not f s.reverse
  rw [h] at hd
  exact hd

theorem trimRightFunc_all (s : Str) (f : Char → Bool) (h : ∀ x ∈ s, f x = true) :
    TrimRightFunc s f = [] := by
  have hd : s.reverse.dropWhile f = [] :=
    List.dropWhile_eq_nil_iff.mpr fun x hx => h x (List.mem_reverse.mp hx)
  rw [TrimRightFunc, hd]
  rfl

theorem mem_split (c : Str) (sep : Char) :
    ∀ l ∈ Split c sep, ∀ x ∈ l, x ∈ c := by
  induction c with
  | nil =>
    intro l hl x hx
    rw [Split, List.mem_singleton] at hl
    rw [hl] at hx
    exact hx
  | cons a rest ih =>
    intro l hl x hx
    rw [Split] at hl
    by_cases ha : a = sep
    · rw [if_pos ha] at hl
      rcases List.mem_cons.mp hl with rfl | hl'
      · exact absurd hx (List.not_mem_nil _)
      · exact List.mem_cons_of_mem _ (ih l hl' x hx)
    · rw [if_neg ha] at hl
      cases hs : Split rest sep with
      | nil =>
        rw [hs] at hl
        rw [List.mem_singleton.mp hl] at hx
        rw [List.mem_singleton.mp hx]
        exact List.mem_cons_self _ _
      | cons first others =>
        rw [hs] at hl
        rw [hs] at ih
        rcases List.mem_cons.mp hl with rfl | hl'
        · rcases List.mem_cons.mp hx with rfl | hx'
          · exact List.mem_cons_self _ _
          · exact List.mem_cons_of_mem _ (ih first (List.mem_cons_self _ _) x hx')
        · exact List.mem_cons_of_mem _ (ih l (List.mem_cons_of_mem _ hl') x hx)

theorem mem_join (xs : List Str) (sep : Str) (x : Char) (h : x ∈ Join xs sep) :
    x ∈ sep ∨ ∃ l ∈ xs, x ∈ l := by
  induction xs with
  | nil => exact absurd h (List.not_mem_nil _)
  | cons first rest ih =>
    cases rest with
    | nil => exact Or.inr ⟨first, List.mem_cons_self _ _, h⟩
    | cons second others =>
      rw [Join, List.mem_append, List.mem_append] at h
      rcases h with (h | h) | h
      · exact Or.inr ⟨first, List.mem_cons_self _ _, h⟩
      · exact Or.inl h
      · rcases ih h with h' | ⟨l, hl, hx⟩
        · exact Or.inl h'
        · exact Or.inr ⟨l, List.mem_cons_of_mem _ hl, hx⟩

theorem mem_trimPrefix (l pre : Str) (x : Char) (h : x ∈ TrimPrefix l pre) : x ∈ l := by
  unfold TrimPrefix at h
  split at h
  · exact List.mem_of_mem_drop h
  · exact h

/-- C25: for every comment text, the result of `cleanComments` does not end
with a white-space character, and a text made of white space and line breaks
only is cleaned to the empty string; both branches of `cleanComments` end with
`TrimRightFunc` by `unicode.IsSpace`, whose result never ends with white
space. -/
theorem cleanComments_no_trailing_space (c : Str) :
    (∀ ch, (cleanComments c).getLast? = some ch → IsSpace ch = false) ∧
      ((∀ ch ∈ c, IsSpace ch = true) → cleanComments c = []) ∧
      (∀ (s : Str) (ch : Char), (TrimRightFunc s IsSpace).getLast? = some ch →
        IsSpace ch = false) := by
  refine ⟨fun ch h => ?_, fun hall => ?_, fun s ch h => trimRightFunc_getLast s IsSpace ch h⟩
  · unfold cleanComments at h
    simp only at h
    split at h
    · exact trimRightFunc_getLast _ _ _ h
    · exact trimRightFunc_getLast _ _ _ h
  · unfold cleanComments
    simp only
    split
    · exact trimRightFunc_all _ _ hall
    · refine trimRightFunc_all _ _ fun x hx => ?_
      rcases mem_join _ _ _ hx with hsep | ⟨l, hl, hxl⟩
      · rw [List.mem_singleton.mp hsep]
        decide
      · obtain ⟨line, hline, rfl⟩ := List.mem_map.mp hl
        exact hall x (mem_split c '\n' line hline x (mem_trimPrefix _ _ _ hxl))

/-- C25, at a text of spaces, a tabulation and line breaks, which is cleaned to
the empty string, and at a text with trailing white space in both branches. -/
theorem cleanComments_no_trailing_space_witness :
    cleanComments " \n\t \n".toList = [] ∧
      cleanComments " a \n b \n\n".toList = "a \nb".toList ∧
      cleanComments "a \n b \n\n".toList = "a \n b".toList :=
  ⟨(cleanComments_no_trailing_space " \n\t \n".toList).2.1 (by decide), by decide, by decide⟩

end Gendatafiles
